import Mathlib

/-!
Compressed-row sparse matrix store (sequential backend).

A shallow embedding of `graphblas/backend/sequential/SparseMatrix.hpp`.

* `Index`, the type of positions and counts, is the signed machine integer `int`
  (`printCSR` computes `std::min(20, nrows_)`, which fixes it).  It is embedded as
  `Int`.  The width matters in two places, both at `nrows_ = INT_MAX`: the sum
  `nrows_+1` of `allocate` (`succInt`) and the loops `i<=nrows_` of `build`, which then
  have no normal exit.  Every other counter is bounded by `nvals` or `nrows_`.
* A raw pointer is `Ptr`: null, a live block of cells, or a dangling pointer whose
  block has been released.  Every access outside a live block is undefined
  behaviour, embedded as `none`.
* `malloc` hands out indeterminate cells; the three calls of `allocate` are
  resolved by a `Malloc` record so that the embedding stays a function.
-/

namespace graphblas.backend

/-- Result codes used by `SparseMatrix.hpp`. -/
inductive Info where
  | GrB_SUCCESS
  | GrB_OUT_OF_MEMORY
  | GrB_INDEX_OUT_OF_BOUNDS
  deriving DecidableEq, Repr

/-- A raw pointer to a heap block: `NULL`, a live block, or dangling after `free`. -/
inductive Ptr (α : Type) where
  | null : Ptr α
  | live (cells : List α) : Ptr α
  | freed : Ptr α
  deriving DecidableEq, Repr

/-- The test `p == NULL`. -/
def Ptr.isNull {α : Type} : Ptr α → Bool
  | .null => true
  | _ => false

/-- The read `p[i]`; `none` when it leaves the live block. -/
def Ptr.read {α : Type} : Ptr α → Int → Option α
  | .live cells, i => if 0 ≤ i then cells.get? i.toNat else none
  | _, _ => none

/-- The write `p[i] = v`; `none` when it leaves the live block. -/
def Ptr.write {α : Type} : Ptr α → Int → α → Option (Ptr α)
  | .live cells, i, v =>
    if 0 ≤ i ∧ i.toNat < cells.length then some (.live (cells.set i.toNat v)) else none
  | _, _, _ => none

/-- The call `free(p)` for a non-null `p`; releasing a dangling pointer is undefined. -/
def Ptr.free {α : Type} : Ptr α → Option (Ptr α)
  | .null => some .null
  | .live _ => some .freed
  | .freed => none

/-- What the three `malloc` calls of `allocate` return: `none` is a null result,
`some f` a block whose cell `i` initially reads `f i`. -/
structure Malloc (T : Type) where
  rowPtr : Option (Nat → Int)
  colInd : Option (Nat → Int)
  val : Option (Nat → T)

/-- The call `malloc(n*sizeof(α))`.  A negative `n` converts to a size above half the
address space, which no allocator grants. -/
def malloc {α : Type} (r : Option (Nat → α)) (n : Int) : Ptr α :=
  match r with
  | none => .null
  | some f => if n < 0 then .null else .live ((List.range n.toNat).map f)

/-- The largest value of `int`. -/
def INT_MAX : Int := 2147483647

/-- The sum `n + 1` in `int` arithmetic (32 bits, two's complement): at `INT_MAX` it
wraps to the least `int`. -/
def succInt (n : Int) : Int := if n < INT_MAX then n + 1 else -2147483648

/-- The private state of `SparseMatrix<T>`. -/
structure SparseMatrix (T : Type) where
  nrows_ : Int
  ncols_ : Int
  nvals_ : Int
  h_csrColInd : Ptr Int
  h_csrRowPtr : Ptr Int
  h_csrVal : Ptr T

namespace SparseMatrix

variable {T : Type}

/-- The default constructor `SparseMatrix()`. -/
def mk0 : SparseMatrix T := ⟨0, 0, 0, .null, .null, .null⟩

/-- The constructor `SparseMatrix( nrows, ncols )`. -/
def mk2 (nrows ncols : Int) : SparseMatrix T := ⟨nrows, ncols, 0, .null, .null, .null⟩

/-- The mutator `nnew`. -/
def nnew (s : SparseMatrix T) (nrows ncols : Int) : Info × SparseMatrix T :=
  (.GrB_SUCCESS, { s with nrows_ := nrows, ncols_ := ncols })

/-- The mutator `allocate`.  The count `nrows_+1` is an `int` sum; wrapped at `INT_MAX`
it is negative, a request that `malloc` refuses. -/
def allocate (s : SparseMatrix T) (m : Malloc T) : Info × SparseMatrix T :=
  let s := if s.nrows_ ≠ 0 ∧ s.h_csrRowPtr.isNull = true
    then { s with h_csrRowPtr := malloc m.rowPtr (succInt s.nrows_) } else s
  let s := if s.nvals_ ≠ 0 ∧ s.h_csrColInd.isNull = true
    then { s with h_csrColInd := malloc m.colInd s.nvals_ } else s
  let s := if s.nvals_ ≠ 0 ∧ s.h_csrVal.isNull = true
    then { s with h_csrVal := malloc m.val s.nvals_ } else s
  if s.h_csrRowPtr.isNull then (.GrB_OUT_OF_MEMORY, s)
  else if s.h_csrColInd.isNull then (.GrB_OUT_OF_MEMORY, s)
  else if s.h_csrVal.isNull then (.GrB_OUT_OF_MEMORY, s)
  else (.GrB_SUCCESS, s)

/-- The mutator `clear`: each non-null pointer is passed to `free`; the members keep
their values. -/
def clear (s : SparseMatrix T) : Option (Info × SparseMatrix T) :=
  match (if s.h_csrRowPtr.isNull then some s.h_csrRowPtr else s.h_csrRowPtr.free) with
  | none => none
  | some rp =>
  match (if s.h_csrColInd.isNull then some s.h_csrColInd else s.h_csrColInd.free) with
  | none => none
  | some ci =>
  match (if s.h_csrVal.isNull then some s.h_csrVal else s.h_csrVal.free) with
  | none => none
  | some cv =>
    some (.GrB_SUCCESS, { s with h_csrRowPtr := rp, h_csrColInd := ci, h_csrVal := cv })

/-- The accessor `nrows`. -/
def nrows (s : SparseMatrix T) (_out : Int) : Info × Int := (.GrB_SUCCESS, s.nrows_)

/-- The accessor `ncols`. -/
def ncols (s : SparseMatrix T) (_out : Int) : Info × Int := (.GrB_SUCCESS, s.ncols_)

/-- The accessor `nvals`. -/
def nvals (s : SparseMatrix T) (_out : Int) : Info × Int := (.GrB_SUCCESS, s.nvals_)

/-- The loop `for( Index i=0; i<=nrows_; i++ ) h_csrRowPtr[i] = 0;`, with `k` iterations
left at counter `i`. -/
def zeroLoop : Nat → Nat → Ptr Int → Option (Ptr Int)
  | 0, _, rp => some rp
  | k + 1, i, rp =>
    match rp.write i 0 with
    | none => none
    | some rp1 => zeroLoop k (i + 1) rp1

/-- The histogram loop of `build`, with `k` iterations left at counter `i`.  The first
component of the result is the code of an early `return`. -/
def histLoop (nrows_ : Int) (row_indices : List Int) :
    Nat → Nat → Ptr Int → Option (Option Info × Ptr Int)
  | 0, _, rp => some (none, rp)
  | k + 1, i, rp =>
    match row_indices.get? i with
    | none => none
    | some row =>
      if row ≥ nrows_ then some (some .GrB_INDEX_OUT_OF_BOUNDS, rp)
      else
        match rp.read row with
        | none => none
        | some c =>
          match rp.write row (c + 1) with
          | none => none
          | some rp1 => histLoop nrows_ row_indices k (i + 1) rp1

/-- The cumulative-sum loop of `build`, carrying `cumsum`. -/
def cumsumLoop : Nat → Nat → Ptr Int → Int → Option (Ptr Int × Int)
  | 0, _, rp, cumsum => some (rp, cumsum)
  | k + 1, i, rp, cumsum =>
    match rp.read i with
    | none => none
    | some temp =>
      match rp.write i cumsum with
      | none => none
      | some rp1 => cumsumLoop k (i + 1) rp1 (cumsum + temp)

/-- The scatter loop of `build` ("Store colInd and val"). -/
def scatterLoop (ncols_ : Int) (row_indices col_indices : List Int) (values : List T) :
    Nat → Nat → Ptr Int → Ptr Int → Ptr T →
      Option (Option Info × Ptr Int × Ptr Int × Ptr T)
  | 0, _, rp, ci, cv => some (none, rp, ci, cv)
  | k + 1, i, rp, ci, cv =>
    match row_indices.get? i with
    | none => none
    | some row =>
      match rp.read row with
      | none => none
      | some dest =>
        match col_indices.get? i with
        | none => none
        | some col =>
          if col ≥ ncols_ then some (some .GrB_INDEX_OUT_OF_BOUNDS, rp, ci, cv)
          else
            match ci.write dest col with
            | none => none
            | some ci1 =>
              match values.get? i with
              | none => none
              | some x =>
                match cv.write dest x with
                | none => none
                | some cv1 =>
                  match rp.write row (dest + 1) with
                  | none => none
                  | some rp1 =>
                    scatterLoop ncols_ row_indices col_indices values k (i + 1) rp1 ci1 cv1

/-- The loop of `build` that undoes the damage done to `h_csrRowPtr`. -/
def repairLoop : Nat → Nat → Ptr Int → Int → Option (Ptr Int × Int)
  | 0, _, rp, cumsum => some (rp, cumsum)
  | k + 1, i, rp, cumsum =>
    match rp.read i with
    | none => none
    | some temp =>
      match rp.write i cumsum with
      | none => none
      | some rp1 => repairLoop k (i + 1) rp1 temp

/-- The overload `build( row_indices, col_indices, values, nvals, mask, dup )`.  Its body
is empty although the function returns `Info`: control flows off the end of a
value-returning function, which is undefined behaviour on every call (`none`).
`BinaryOp` is declared outside this header and is taken as a parameter. -/
def build_mask_dup {BinaryOp : Type} (_s : SparseMatrix T) (_row_indices _col_indices : List Int)
    (_values : List T) (_nvals : Int) (_mask : SparseMatrix T) (_dup : BinaryOp) :
    Option (Info × SparseMatrix T) :=
  none

/-- The unmasked `build`.  The result of `allocate` is dropped, as in the source.  The two
loops `for( Index i=0; i<=nrows_; i++ )` make `nrows_+1` iterations; with
`nrows_ = INT_MAX` their test holds for every `int`, the counter overflows and the loop
has no normal exit (`none`). -/
def build (s : SparseMatrix T) (m : Malloc T) (row_indices col_indices : List Int)
    (values : List T) (nvals : Int) : Option (Info × SparseMatrix T) :=
  let s := { s with nvals_ := nvals }
  let s := (allocate s m).2
  if INT_MAX ≤ s.nrows_ then none else
  match zeroLoop (s.nrows_ + 1).toNat 0 s.h_csrRowPtr with
  | none => none
  | some rp =>
  match histLoop s.nrows_ row_indices s.nvals_.toNat 0 rp with
  | none => none
  | some (some info, rp) => some (info, { s with h_csrRowPtr := rp })
  | some (none, rp) =>
  match cumsumLoop s.nrows_.toNat 0 rp 0 with
  | none => none
  | some (rp, _) =>
  match rp.write s.nrows_ nvals with
  | none => none
  | some rp =>
  match scatterLoop s.ncols_ row_indices col_indices values s.nvals_.toNat 0 rp
      s.h_csrColInd s.h_csrVal with
  | none => none
  | some (some info, rp, ci, cv) =>
    some (info, { s with h_csrRowPtr := rp, h_csrColInd := ci, h_csrVal := cv })
  | some (none, rp, ci, cv) =>
  if INT_MAX ≤ s.nrows_ then none else
  match repairLoop (s.nrows_ + 1).toNat 0 rp 0 with
  | none => none
  | some (rp, _) =>
    some (.GrB_SUCCESS, { s with h_csrRowPtr := rp, h_csrColInd := ci, h_csrVal := cv })

/-- The three output vectors of `extractTuples`. -/
abbrev Tuples (T : Type) := List Int × List Int × List T

/-- The inner loop of `extractTuples` over the slots of one row. -/
def extractRow (row : Int) (ci : Ptr Int) (cv : Ptr T) :
    Nat → Int → Tuples T → Option (Tuples T)
  | 0, _, out => some out
  | k + 1, ind, (rs, cs, vs) =>
    match ci.read ind with
    | none => none
    | some col =>
      match cv.read ind with
      | none => none
      | some x => extractRow row ci cv k (ind + 1) (rs ++ [row], cs ++ [col], vs ++ [x])

/-- The outer loop of `extractTuples` over the rows. -/
def extractLoop (s : SparseMatrix T) : Nat → Nat → Tuples T → Option (Tuples T)
  | 0, _, out => some out
  | k + 1, row, out =>
    match s.h_csrRowPtr.read row with
    | none => none
    | some lo =>
      match s.h_csrRowPtr.read (row + 1) with
      | none => none
      | some hi =>
        match extractRow row s.h_csrColInd s.h_csrVal (hi - lo).toNat lo out with
        | none => none
        | some out1 => extractLoop s k (row + 1) out1

/-- The method `extractTuples`; the arguments are the vectors as the caller passes them. -/
def extractTuples (s : SparseMatrix T) (_row_indices _col_indices : List Int)
    (_values : List T) : Option (Info × Tuples T) :=
  match extractLoop s s.nrows_.toNat 0 ([], [], []) with
  | none => none
  | some out => some (.GrB_SUCCESS, out)

end SparseMatrix

/-! ## Definitions used to state and prove properties of the store -/

/-- The block of `n` cells whose cell `j` holds `f j`. -/
def arr {α : Type} (n : Nat) (f : Nat → α) : List α := (List.range n).map f

/-- The entries of `v` from position `i` on start with the list `l`. -/
def Window {α : Type} (v : List α) (i : Nat) (l : List α) : Prop :=
  ∀ j, j < l.length → v.get? (i + j) = l.get? j

/-- Number of entries of `l` that fall in row `r`. -/
def cntRow {τ : Type} (row : τ → Nat) (l : List τ) (r : Nat) : Nat :=
  (l.filter (fun x => row x = r)).length

/-- Exclusive running sum of the counts `c`: the start offset of row `r`. -/
def startOf (c : Nat → Nat) : Nat → Nat
  | 0 => 0
  | r + 1 => startOf c r + c r

/-- Advance the write cursor of row `r`. -/
def bump (cur : Nat → Nat) (r : Nat) : Nat → Nat := Function.update cur r (cur r + 1)

/-- The cursors after scattering the entries of `l` in order. -/
def curs {τ : Type} (row : τ → Nat) : List τ → (Nat → Nat) → Nat → Nat
  | [], cur => cur
  | x :: l, cur => curs row l (bump cur (row x))

/-- The cells after scattering the payloads `g x` of the entries of `l` in order. -/
def scat {τ β : Type} (row : τ → Nat) (g : τ → β) : List τ → (Nat → Nat) → (Nat → β) → Nat → β
  | [], _, fb => fb
  | x :: l, cur, fb => scat row g l (bump cur (row x)) (Function.update fb (cur (row x)) (g x))

/-- The row of an input triplet, as a position of `h_csrRowPtr`. -/
def rowOf {T : Type} (x : Int × Int × T) : Nat := x.1.toNat

/-- The entries of `l` grouped by row, rows `0 .. R-1` in order, each group in input
order. -/
def groupByRow {τ : Type} (row : τ → Nat) (R : Nat) (l : List τ) : List τ :=
  (List.range R).flatMap (fun r => l.filter (fun x => row x = r))

/-- The rows reported by extraction for the row starts `st`. -/
def rowRuns (st : Nat → Nat) (a k : Nat) : List Int :=
  (List.range' a k).flatMap (fun r => List.replicate (st (r + 1) - st r) (r : Int))

/-- The first `nvals` input triplets `(row, col, value)`. -/
def triplets {T : Type} (row_indices col_indices : List Int) (values : List T) (nvals : Int) :
    List (Int × Int × T) :=
  (row_indices.take nvals.toNat).zip
    ((col_indices.take nvals.toNat).zip (values.take nvals.toNat))

/-- The groups of the rows `a .. a+k-1`. -/
def groupRows {τ : Type} (row : τ → Nat) (a k : Nat) (l : List τ) : List τ :=
  (List.range' a k).flatMap (fun r => l.filter (fun x => row x = r))

/-- Read the `k` cells `p[lo], p[lo+1], ...`; reading no cell needs no storage. -/
def Ptr.readRange {α : Type} (p : Ptr α) : Nat → Int → Option (List α)
  | 0, _ => some []
  | k + 1, lo =>
    match p.read lo with
    | none => none
    | some x =>
      match Ptr.readRange p k (lo + 1) with
      | none => none
      | some xs => some (x :: xs)

/-- The store a successful `build` leaves for the entries `l`: the entries grouped by row
in input order, with the row starts in `h_csrRowPtr`. -/
def builtStore {T : Type} (rows cols nvals : Int) (l : List (Int × Int × T)) : SparseMatrix T :=
  ⟨rows, cols, nvals,
    if nvals.toNat = 0 then .null
      else .live ((groupByRow rowOf rows.toNat l).map (fun x => x.2.1)),
    .live (arr (rows.toNat + 1) (fun j => (startOf (cntRow rowOf l) j : Int))),
    if nvals.toNat = 0 then .null
      else .live ((groupByRow rowOf rows.toNat l).map (fun x => x.2.2))⟩

/-- The array behind `p` holds exactly the cells `l`; an array of no cells may be
unallocated. -/
def Ptr.HasCells {α : Type} (p : Ptr α) (l : List α) : Prop :=
  p = .live l ∨ (p = .null ∧ l = [])

/-- Number of cells behind a pointer, when it has a live block. -/
def Ptr.len {α : Type} : Ptr α → Option Nat
  | .live cells => some cells.length
  | _ => none

/-- The row invariant of a store: `h_csrRowPtr` is a block of `nrows_ + 1` entries that
starts with `0`, ends with `nvals_` and does not decrease. -/
def RowInvariant {T : Type} (s : SparseMatrix T) : Prop :=
  ∃ rp : List Int, s.h_csrRowPtr = .live rp ∧ (rp.length : Int) = s.nrows_ + 1 ∧
    rp.get? 0 = some 0 ∧ rp.get? s.nrows_.toNat = some s.nvals_ ∧
    ∀ (r : Nat) (x y : Int), (r : Int) < s.nrows_ → rp.get? r = some x →
      rp.get? (r + 1) = some y → x ≤ y

/-- The kind of a pointer and the number of cells of its block, without the contents. -/
def Ptr.shape {α : Type} : Ptr α → Ptr Unit
  | .null => .null
  | .live cells => .live (List.replicate cells.length ())
  | .freed => .freed

/-- The variant of `build` of the design notes, written from their words: the same
histogram and cumulative-sum passes, then a scatter pass that advances a separate cursor
array, a copy of `h_csrRowPtr` taken after the cumulative sum, and leaves `h_csrRowPtr`
at its prefix-sum values; there is no repair pass.  The zeroing loop is the one of
`build`, with the same exit condition. -/
def build_separate_cursor {T : Type} (s : SparseMatrix T) (m : Malloc T)
    (row_indices col_indices : List Int) (values : List T) (nvals : Int) :
    Option (Info × SparseMatrix T) :=
  let s := { s with nvals_ := nvals }
  let s := (SparseMatrix.allocate s m).2
  if INT_MAX ≤ s.nrows_ then none else
  match SparseMatrix.zeroLoop (s.nrows_ + 1).toNat 0 s.h_csrRowPtr with
  | none => none
  | some rp =>
  match SparseMatrix.histLoop s.nrows_ row_indices s.nvals_.toNat 0 rp with
  | none => none
  | some (some info, rp) => some (info, { s with h_csrRowPtr := rp })
  | some (none, rp) =>
  match SparseMatrix.cumsumLoop s.nrows_.toNat 0 rp 0 with
  | none => none
  | some (rp, _) =>
  match rp.write s.nrows_ nvals with
  | none => none
  | some rp =>
  let cursor := rp
  match SparseMatrix.scatterLoop s.ncols_ row_indices col_indices values s.nvals_.toNat 0 cursor
      s.h_csrColInd s.h_csrVal with
  | none => none
  | some (some info, _, ci, cv) =>
    some (info, { s with h_csrRowPtr := rp, h_csrColInd := ci, h_csrVal := cv })
  | some (none, _, ci, cv) =>
    some (.GrB_SUCCESS, { s with h_csrRowPtr := rp, h_csrColInd := ci, h_csrVal := cv })

/-- A public mutating call, with its arguments and the allocator answers it meets. -/
inductive Call (T : Type) where
  | nnew (nrows ncols : Int) : Call T
  | allocate (m : Malloc T) : Call T
  | build (m : Malloc T) (row_indices col_indices : List Int) (values : List T)
      (nvals : Int) : Call T
  | clear : Call T

/-- The store after one call; `none` when the call runs into undefined behaviour. -/
def Call.run {T : Type} (s : SparseMatrix T) : Call T → Option (SparseMatrix T)
  | .nnew nrows ncols => some (SparseMatrix.nnew s nrows ncols).2
  | .allocate m => some (SparseMatrix.allocate s m).2
  | .build m row_indices col_indices values nvals =>
    match SparseMatrix.build s m row_indices col_indices values nvals with
    | none => none
    | some r => some r.2
  | .clear =>
    match SparseMatrix.clear s with
    | none => none
    | some r => some r.2

/-- The store after a sequence of calls. -/
def runCalls {T : Type} : SparseMatrix T → List (Call T) → Option (SparseMatrix T)
  | s, [] => some s
  | s, c :: cs =>
    match c.run s with
    | none => none
    | some s1 => runCalls s1 cs

/-- The array behind `p` is unallocated or a live block of exactly `n` cells. -/
def ArrayShaped {α : Type} (p : Ptr α) (n : Int) : Prop :=
  p = .null ∨ ∃ a : List α, p = .live a ∧ (a.length : Int) = n

/-- Each of the three arrays is unallocated or has exactly its size: `rows+1` for
`rowStart`, `nnz` for `colIndex` and `value`. -/
def EachShaped {T : Type} (s : SparseMatrix T) : Prop :=
  ArrayShaped s.h_csrRowPtr (s.nrows_ + 1) ∧ ArrayShaped s.h_csrColInd s.nvals_ ∧
    ArrayShaped s.h_csrVal s.nvals_

/-- The three arrays are all unallocated, or all allocated with exactly `rows+1`, `nnz`
and `nnz` cells (an array of no cells may then be unallocated). -/
def StorageShape {T : Type} (s : SparseMatrix T) : Prop :=
  (s.h_csrRowPtr = .null ∧ s.h_csrColInd = .null ∧ s.h_csrVal = .null) ∨
  ((∃ a : List Int, s.h_csrRowPtr = .live a ∧ (a.length : Int) = s.nrows_ + 1) ∧
   (∃ c : List Int, s.h_csrColInd.HasCells c ∧ (c.length : Int) = s.nvals_) ∧
   (∃ v : List T, s.h_csrVal.HasCells v ∧ (v.length : Int) = s.nvals_))

/-- The calls that keep the shape: `nnew` while `rowStart` is unallocated or with the
same `rows`, any `allocate`, `build` with the current `nnz` for each of `colIndex` and
`value` that is already allocated; `clear` is not among them. -/
def Call.admissible {T : Type} (s : SparseMatrix T) : Call T → Bool
  | .nnew nrows _ => s.h_csrRowPtr.isNull || decide (nrows = s.nrows_)
  | .allocate _ => true
  | .build _ _ _ _ nvals =>
    (s.h_csrColInd.isNull || decide (nvals = s.nvals_)) &&
      (s.h_csrVal.isNull || decide (nvals = s.nvals_))
  | .clear => false

/-- Every call of the sequence is admissible in the state it is made in. -/
def admissibleRun {T : Type} : SparseMatrix T → List (Call T) → Bool
  | _, [] => true
  | s, c :: cs =>
    c.admissible s &&
      (match c.run s with
       | none => true
       | some s1 => admissibleRun s1 cs)

open SparseMatrix

/-! ## Arrays as tabulated functions -/

theorem arr_length {α : Type} (n : Nat) (f : Nat → α) : (arr n f).length = n := by
  simp [arr]

theorem arr_get? {α : Type} {n j : Nat} (f : Nat → α) (h : j < n) :
    (arr n f).get? j = some (f j) := by
  simp [arr, List.getElem?_range h]

theorem arr_congr {α : Type} {n : Nat} {f g : Nat → α} (h : ∀ j, j < n → f j = g j) :
    arr n f = arr n g := by
  unfold arr
  apply List.map_congr_left
  intro j hj
  exact h j (List.mem_range.mp hj)

theorem arr_set {α : Type} {n j : Nat} (f : Nat → α) (v : α) :
    (arr n f).set j v = arr n (Function.update f j v) := by
  apply List.ext_get?
  intro i
  by_cases hi : i < n
  · by_cases hij : j = i
    · subst hij
      rw [arr_get? _ hi]
      simp [arr_length, hi]
    · rw [arr_get? _ hi]
      simp [List.getElem?_set, hij, Function.update, Ne.symm hij]
      simpa using arr_get? f hi
  · have h1 : ((arr n f).set j v).length ≤ i := by simp [arr_length]; omega
    have h2 : (arr n (Function.update f j v)).length ≤ i := by simp [arr_length]; omega
    rw [List.get?_eq_none.mpr h1, List.get?_eq_none.mpr h2]

theorem read_arr {α : Type} {n j : Nat} (f : Nat → α) (h : j < n) :
    (Ptr.live (arr n f)).read (j : Int) = some (f j) := by
  simp only [Ptr.read, Int.toNat_ofNat, Int.natCast_nonneg, if_true]
  exact arr_get? f h

theorem write_arr {α : Type} {n j : Nat} (f : Nat → α) (v : α) (h : j < n) :
    (Ptr.live (arr n f)).write (j : Int) v = some (.live (arr n (Function.update f j v))) := by
  simp only [Ptr.write, Int.toNat_ofNat, Int.natCast_nonneg, arr_length, h, and_self, if_true]
  rw [arr_set f v]

/-! ## Windows of an input vector -/

theorem Window.head {α : Type} {v : List α} {i : Nat} {x : α} {l : List α}
    (h : Window v i (x :: l)) : v.get? i = some x := by
  have := h 0 (by simp)
  simpa using this

theorem Window.tail {α : Type} {v : List α} {i : Nat} {x : α} {l : List α}
    (h : Window v i (x :: l)) : Window v (i + 1) l := by
  intro j hj
  have := h (j + 1) (by simp; omega)
  simpa [Nat.add_assoc, Nat.add_comm 1 j] using this

theorem Window.map {α β : Type} {v : List α} {i : Nat} {l : List α} (g : α → β)
    (h : Window v i l) : Window (v.map g) i (l.map g) := by
  intro j hj
  have := h j (by simpa using hj)
  simp only [List.get?_eq_getElem?] at this ⊢
  simp [List.getElem?_map, this]

theorem window_take {α : Type} (v : List α) (k : Nat) : Window v 0 (v.take k) := by
  intro j hj
  simp only [List.length_take] at hj
  simp [List.getElem?_take, show j < k by omega]

/-! ## Row counts and row starts -/

theorem cntRow_nil {τ : Type} (row : τ → Nat) (r : Nat) : cntRow row [] r = 0 := rfl

theorem cntRow_cons {τ : Type} (row : τ → Nat) (x : τ) (l : List τ) (r : Nat) :
    cntRow row (x :: l) r = (if row x = r then 1 else 0) + cntRow row l r := by
  unfold cntRow
  by_cases h : row x = r
  · simp [List.filter_cons, h]; omega
  · simp [List.filter_cons, h]

theorem startOf_mono (c : Nat → Nat) {a b : Nat} (h : a ≤ b) : startOf c a ≤ startOf c b := by
  induction b with
  | zero =>
    have : a = 0 := by omega
    subst this; exact Nat.le_refl _
  | succ b ih =>
    by_cases hab : a = b + 1
    · subst hab; exact Nat.le_refl _
    · have := ih (by omega)
      simp only [startOf]; omega

theorem startOf_cons {τ : Type} (row : τ → Nat) (x : τ) (l : List τ) (R : Nat) :
    startOf (cntRow row (x :: l)) R = (if row x < R then 1 else 0) + startOf (cntRow row l) R := by
  induction R with
  | zero => simp [startOf]
  | succ R ih =>
    simp only [startOf, ih, cntRow_cons]
    by_cases h1 : row x = R
    · have h2 : ¬ row x < R := by omega
      have h3 : row x < R + 1 := by omega
      simp [h1, h2, h3]; omega
    · by_cases h2 : row x < R
      · have h3 : row x < R + 1 := by omega
        simp [h1, h2, h3]; omega
      · have h3 : ¬ row x < R + 1 := by omega
        simp [h1, h2, h3]

theorem startOf_total {τ : Type} (row : τ → Nat) (l : List τ) (R : Nat)
    (h : ∀ x, x ∈ l → row x < R) : startOf (cntRow row l) R = l.length := by
  induction l with
  | nil =>
    induction R with
    | zero => rfl
    | succ R ih => simp [startOf, cntRow_nil] at ih ⊢; exact ih
  | cons x l ih =>
    rw [startOf_cons, ih (fun y hy => h y (List.mem_cons_of_mem _ hy))]
    have := h x (List.mem_cons_self _ _)
    simp [this]; omega

/-! ## The loops of `build` on live blocks -/

theorem read_arr_int {α : Type} {n : Nat} (f : Nat → α) {x : Int} (h0 : 0 ≤ x)
    (h : x.toNat < n) : (Ptr.live (arr n f)).read x = some (f x.toNat) := by
  have := read_arr f h
  rwa [Int.toNat_of_nonneg h0] at this

theorem write_arr_int {α : Type} {n : Nat} (f : Nat → α) (v : α) {x : Int} (h0 : 0 ≤ x)
    (h : x.toNat < n) :
    (Ptr.live (arr n f)).write x v = some (.live (arr n (Function.update f x.toNat v))) := by
  have := write_arr f v h
  rwa [Int.toNat_of_nonneg h0] at this

theorem zeroLoop_arr (k : Nat) : ∀ (i n : Nat) (f : Nat → Int), i + k ≤ n →
    zeroLoop k i (.live (arr n f)) =
      some (.live (arr n (fun j => if i ≤ j ∧ j < i + k then 0 else f j))) := by
  induction k with
  | zero =>
    intro i n f _
    simp only [zeroLoop]
    congr 2
    apply arr_congr
    intro j _
    have : ¬ (i ≤ j ∧ j < i) := by omega
    simp [this]
  | succ k ih =>
    intro i n f h
    simp only [zeroLoop]
    simp only [write_arr f 0 (by omega : i < n), ih (i + 1) n _ (by omega)]
    congr 2
    apply arr_congr
    intro j _
    by_cases h1 : j = i
    · subst h1
      simp [Function.update]
    · by_cases h2 : i ≤ j ∧ j < i + (k + 1)
      · have h3 : i + 1 ≤ j ∧ j < i + 1 + k := by omega
        simp [h2, h3]
      · have h3 : ¬ (i + 1 ≤ j ∧ j < i + 1 + k) := by omega
        simp only [h2, h3, if_false, Function.update, h1, dite_false]

/-- The histogram loop on a live block: it stops at the first index that is not below
`nrows_`, having counted the entries before it, which are taken to be non-negative. -/
theorem histLoop_arr (nrows_ : Int) (v : List Int) (n : Nat) (hn : nrows_ ≤ n) :
    ∀ (l : List Int) (i : Nat) (f : Nat → Int), Window v i l →
    (∀ x, x ∈ l.takeWhile (fun x => decide (x < nrows_)) → 0 ≤ x) →
    histLoop nrows_ v l.length i (.live (arr n f)) =
      some (if l.all (fun x => decide (x < nrows_)) then none
              else some Info.GrB_INDEX_OUT_OF_BOUNDS,
            .live (arr n (fun r => f r +
              (cntRow Int.toNat (l.takeWhile (fun x => decide (x < nrows_))) r : Nat)))) := by
  intro l
  induction l with
  | nil =>
    intro i f _ _
    simp [histLoop, cntRow_nil]
  | cons x l ih =>
    intro i f hw hpos
    simp only [histLoop, List.length_cons]
    rw [hw.head]
    by_cases hx : x ≥ nrows_
    · have hx' : ¬ x < nrows_ := by omega
      simp [hx, hx', List.takeWhile_cons, cntRow_nil]
    · have hx' : x < nrows_ := by omega
      have hx0 : 0 ≤ x := hpos x (by simp [List.takeWhile_cons, hx'])
      have hxn : x.toNat < n := by omega
      simp only [hx, if_false]
      simp only [read_arr_int f hx0 hxn, write_arr_int f _ hx0 hxn, ih (i + 1) _ hw.tail
        (fun y hy => hpos y (by simp only [List.takeWhile_cons, hx', decide_True, if_true];
                                exact List.mem_cons_of_mem _ hy))]
      simp only [List.all_cons, hx', decide_True, Bool.true_and, List.takeWhile_cons, if_true]
      congr 3
      apply arr_congr
      intro j _
      rw [cntRow_cons]
      by_cases hj : x.toNat = j
      · subst hj
        simp [Function.update]
        ring
      · simp [Function.update, hj, Ne.symm hj]

theorem cumsumLoop_arr (c : Nat → Nat) (n : Nat) (k : Nat) :
    ∀ (i : Nat) (g : Nat → Int), i + k ≤ n → (∀ j, i ≤ j → g j = (c j : Int)) →
    cumsumLoop k i (.live (arr n g)) (startOf c i : Int) =
      some (.live (arr n (fun j => if i ≤ j ∧ j < i + k then (startOf c j : Int) else g j)),
            (startOf c (i + k) : Int)) := by
  induction k with
  | zero =>
    intro i g _ _
    simp only [cumsumLoop, Nat.add_zero]
    congr 3
    apply arr_congr
    intro j _
    have : ¬ (i ≤ j ∧ j < i) := by omega
    simp [this]
  | succ k ih =>
    intro i g h hg
    have hs : (startOf c i : Int) + g i = (startOf c (i + 1) : Int) := by
      rw [hg i (Nat.le_refl _)]; simp [startOf]
    have hg1 : ∀ j, i + 1 ≤ j → Function.update g i (startOf c i : Int) j = (c j : Int) := by
      intro j hj
      have : j ≠ i := by omega
      simp [Function.update, this, hg j (by omega)]
    simp only [cumsumLoop, read_arr g (by omega : i < n),
      write_arr g _ (by omega : i < n), hs, ih (i + 1) _ (by omega) hg1]
    have e : i + 1 + k = i + (k + 1) := by omega
    rw [e]
    congr 3
    apply arr_congr
    intro j _
    by_cases h1 : j = i
    · subst h1
      simp [Function.update]
    · by_cases h2 : i ≤ j ∧ j < i + (k + 1)
      · have h3 : i + 1 ≤ j ∧ j < i + (k + 1) := by omega
        simp [h2, h3]
      · have h3 : ¬ (i + 1 ≤ j ∧ j < i + (k + 1)) := by omega
        simp only [h2, h3, if_false, Function.update, h1, dite_false]

theorem repairLoop_arr (n : Nat) (k : Nat) :
    ∀ (i : Nat) (g : Nat → Int) (cum : Int), i + k ≤ n →
    ∃ cum1, repairLoop k i (.live (arr n g)) cum =
      some (.live (arr n (fun j => if j = i ∧ 0 < k then cum
              else if i < j ∧ j < i + k then g (j - 1) else g j)), cum1) := by
  induction k with
  | zero =>
    intro i g cum _
    refine ⟨cum, ?_⟩
    simp only [repairLoop]
    congr 3
    apply arr_congr
    intro j _
    have : ¬ (i < j ∧ j < i) := by omega
    simp [this]
  | succ k ih =>
    intro i g cum h
    obtain ⟨cum1, h1⟩ := ih (i + 1) (Function.update g i cum) (g i) (by omega)
    refine ⟨cum1, ?_⟩
    simp only [repairLoop, read_arr g (by omega : i < n), write_arr g _ (by omega : i < n), h1]
    congr 3
    apply arr_congr
    intro j _
    by_cases e1 : j = i
    · subst e1
      simp [Function.update]
    · by_cases e2 : j = i + 1
      · subst e2
        by_cases e3 : 0 < k
        · simp [Function.update, e3]
        · have : k = 0 := by omega
          subst this
          simp [Function.update]
      · have e4 : j - 1 ≠ i := by omega
        by_cases e5 : i < j ∧ j < i + (k + 1)
        · have e6 : i + 1 < j ∧ j < i + 1 + k := by omega
          simp [Function.update, e1, e2, e4, e5, e6]
        · have e6 : ¬ (i + 1 < j ∧ j < i + 1 + k) := by omega
          simp [Function.update, e1, e2, e5, e6]

/-! ## The scatter pass as a function on cursors and cells -/

theorem curs_eq {τ : Type} (row : τ → Nat) (l : List τ) :
    ∀ (cur : Nat → Nat) (r : Nat), curs row l cur r = cur r + cntRow row l r := by
  induction l with
  | nil => intro cur r; simp [curs, cntRow_nil]
  | cons x l ih =>
    intro cur r
    simp only [curs, ih, cntRow_cons, bump]
    by_cases h : row x = r
    · subst h; simp [Function.update]; omega
    · simp [Function.update, h, Ne.symm h]

theorem cast_bump (cur : Nat → Nat) (r : Nat) :
    Function.update (fun j => (cur j : Int)) r ((cur r : Int) + 1) =
      fun j => ((bump cur r j : Nat) : Int) := by
  funext j
  by_cases h : j = r
  · subst h; simp [bump, Function.update]
  · simp [bump, Function.update, h]

/-- The scatter loop on live blocks, for valid rows and room for every entry: it stops
at the first column that is not below `ncols_`, having stored the entries before it. -/
theorem scatterLoop_arr {T : Type} (ncols_ : Int) (v cols : List Int) (vals : List T)
    (n N : Nat) :
    ∀ (l : List (Int × Int × T)) (i : Nat) (cur : Nat → Nat) (fc : Nat → Int) (fv : Nat → T),
    Window v i (l.map (fun x => x.1)) → Window cols i (l.map (fun x => x.2.1)) →
    Window vals i (l.map (fun x => x.2.2)) →
    (∀ x, x ∈ l → 0 ≤ x.1 ∧ x.1.toNat < n) →
    (∀ r, cur r + cntRow rowOf l r ≤ N) →
    scatterLoop ncols_ v cols vals l.length i (.live (arr n (fun r => (cur r : Int))))
        (.live (arr N fc)) (.live (arr N fv)) =
      some (if l.all (fun x => decide (x.2.1 < ncols_)) then none
              else some Info.GrB_INDEX_OUT_OF_BOUNDS,
            .live (arr n (fun r =>
              (curs rowOf (l.takeWhile (fun x => decide (x.2.1 < ncols_))) cur r : Int))),
            .live (arr N (scat rowOf (fun x => x.2.1)
              (l.takeWhile (fun x => decide (x.2.1 < ncols_))) cur fc)),
            .live (arr N (scat rowOf (fun x => x.2.2)
              (l.takeWhile (fun x => decide (x.2.1 < ncols_))) cur fv))) := by
  intro l
  induction l with
  | nil =>
    intro i cur fc fv _ _ _ _ _
    simp [scatterLoop, curs, scat]
  | cons x l ih =>
    intro i cur fc fv hr hc hv hval hroom
    have hr1 : Window v i (x.1 :: l.map (fun x => x.1)) := hr
    have hc1 : Window cols i (x.2.1 :: l.map (fun x => x.2.1)) := hc
    have hv1 : Window vals i (x.2.2 :: l.map (fun x => x.2.2)) := hv
    obtain ⟨hx0, hxn⟩ := hval x (List.mem_cons_self _ _)
    simp only [scatterLoop, List.length_cons, hr1.head, hc1.head, hv1.head,
      read_arr_int (fun r => (cur r : Int)) hx0 hxn]
    by_cases hcol : x.2.1 ≥ ncols_
    · have hcol' : ¬ x.2.1 < ncols_ := by omega
      simp [hcol, hcol', List.takeWhile_cons, curs, scat]
    · have hcol' : x.2.1 < ncols_ := by omega
      have hd : cur x.1.toNat < N := by
        have := hroom x.1.toNat
        rw [cntRow_cons] at this
        simp only [rowOf, if_true] at this
        omega
      have hroom1 : ∀ r, bump cur x.1.toNat r + cntRow rowOf l r ≤ N := by
        intro r
        have := hroom r
        rw [cntRow_cons] at this
        by_cases e : x.1.toNat = r
        · subst e
          simp only [rowOf, if_true] at this
          simp [bump, Function.update]; omega
        · simp only [rowOf, e, if_false] at this
          simp [bump, Function.update, Ne.symm e]; omega
      simp only [hcol, if_false, write_arr fc _ hd, write_arr fv _ hd,
        write_arr_int (fun r => (cur r : Int)) _ hx0 hxn, cast_bump,
        ih (i + 1) _ _ _ hr1.tail hc1.tail hv1.tail
          (fun y hy => hval y (List.mem_cons_of_mem _ hy)) hroom1]
      have hdec : decide (x.2.1 < ncols_) = true := decide_eq_true hcol'
      simp only [List.takeWhile_cons, hdec, curs, scat, rowOf, List.all_cons, Bool.true_and,
        if_true]

theorem bump_self (cur : Nat → Nat) (r : Nat) : bump cur r r = cur r + 1 := by
  simp [bump, Function.update]

theorem bump_ne (cur : Nat → Nat) {r q : Nat} (h : r ≠ q) : bump cur r q = cur q := by
  simp [bump, Function.update, Ne.symm h]

/-- Counting-sort scatter: when the cursor regions `[cur r, cur r + cntRow l r)` of the
rows below `R` are disjoint and ordered by row, slot `cur r + j` receives the payload of
the `j`-th entry of row `r`, and every slot outside the regions is left alone. -/
theorem scat_spec {τ β : Type} (row : τ → Nat) (g : τ → β) (R : Nat) :
    ∀ (l : List τ) (cur : Nat → Nat) (fb : Nat → β),
    (∀ x, x ∈ l → row x < R) →
    (∀ r1 r2, r1 < r2 → r2 < R → cur r1 + cntRow row l r1 ≤ cur r2) →
    (∀ r, r < R → ∀ j y, (l.filter (fun x => row x = r)).get? j = some y →
        scat row g l cur fb (cur r + j) = g y) ∧
    (∀ p, (∀ r, r < R → p < cur r ∨ cur r + cntRow row l r ≤ p) →
        scat row g l cur fb p = fb p) := by
  intro l
  induction l with
  | nil =>
    intro cur fb _ _
    constructor
    · intro r _ j y h
      simp at h
    · intro p _
      rfl
  | cons x l ih =>
    intro cur fb hrow hq
    have hxR : row x < R := hrow x (List.mem_cons_self _ _)
    have hq1 : ∀ r1 r2, r1 < r2 → r2 < R →
        bump cur (row x) r1 + cntRow row l r1 ≤ bump cur (row x) r2 := by
      intro r1 r2 h12 h2
      have := hq r1 r2 h12 h2
      rw [cntRow_cons] at this
      by_cases e1 : row x = r1
      · subst e1
        rw [bump_self, bump_ne cur (by omega : row x ≠ r2)]
        simp only [if_true] at this
        omega
      · rw [bump_ne cur e1]
        simp only [e1, if_false] at this
        by_cases e2 : row x = r2
        · subst e2; rw [bump_self]; omega
        · rw [bump_ne cur e2]; omega
    obtain ⟨iha, ihb⟩ := ih (bump cur (row x)) (Function.update fb (cur (row x)) (g x))
      (fun y hy => hrow y (List.mem_cons_of_mem _ hy)) hq1
    -- a slot outside the regions of `x :: l` is outside the regions of `l`
    have hout : ∀ p, (∀ r, r < R → p < cur r ∨ cur r + cntRow row (x :: l) r ≤ p) →
        ∀ r, r < R → p < bump cur (row x) r ∨ bump cur (row x) r + cntRow row l r ≤ p := by
      intro p hp r hr
      have := hp r hr
      rw [cntRow_cons] at this
      by_cases e : row x = r
      · subst e
        rw [bump_self]
        simp only [if_true] at this
        omega
      · rw [bump_ne cur e]
        simp only [e, if_false] at this
        omega
    constructor
    · intro r hr j y h
      simp only [scat]
      by_cases e : row x = r
      · subst e
        simp only [List.filter_cons, decide_True, if_true] at h
        cases j with
        | zero =>
          simp only [List.get?_cons_zero, Option.some.injEq] at h
          subst h
          rw [Nat.add_zero, ihb (cur (row x))]
          · simp [Function.update]
          · intro r hr
            by_cases e : row x = r
            · subst e; rw [bump_self]; omega
            · rw [bump_ne cur e]
              rcases Nat.lt_or_gt_of_ne e with hlt | hgt
              · have := hq (row x) r hlt hr
                rw [cntRow_cons] at this
                simp only [if_true] at this
                omega
              · have := hq r (row x) hgt hxR
                rw [cntRow_cons] at this
                simp only [e, if_false] at this
                omega
        | succ j =>
          simp only [List.get?_cons_succ] at h
          have := iha (row x) hr j y h
          rw [bump_self] at this
          rw [← this]
          congr 1
          omega
      · have hf : (x :: l).filter (fun x => decide (row x = r)) =
            l.filter (fun x => decide (row x = r)) := by
          simp [List.filter_cons, e]
        rw [hf] at h
        have := iha r hr j y h
        rwa [bump_ne cur e] at this
    · intro p hp
      simp only [scat]
      rw [ihb p (hout p hp)]
      have := hp (row x) hxR
      rw [cntRow_cons] at this
      simp only [if_true] at this
      have hne : p ≠ cur (row x) := by omega
      simp [Function.update, hne]

/-! ## The stored order -/

theorem arr_add {α : Type} (a b : Nat) (h : Nat → α) :
    arr (a + b) h = arr a h ++ (List.range b).map (fun j => h (a + j)) := by
  simp [arr, List.range_add, List.map_append, List.map_map, Function.comp_def]

theorem groupByRow_succ {τ : Type} (row : τ → Nat) (R : Nat) (l : List τ) :
    groupByRow row (R + 1) l = groupByRow row R l ++ l.filter (fun x => row x = R) := by
  simp [groupByRow, List.range_succ, List.flatMap_append]

theorem length_groupByRow {τ : Type} (row : τ → Nat) (R : Nat) (l : List τ) :
    (groupByRow row R l).length = startOf (cntRow row l) R := by
  induction R with
  | zero => simp [groupByRow, startOf]
  | succ R ih => simp [groupByRow_succ, startOf, ih, cntRow]

/-- Scattering from the row starts fills the first `startOf c R` slots with the entries
grouped by row. -/
theorem scat_groupByRow {τ β : Type} (row : τ → Nat) (g : τ → β) (R : Nat) (l : List τ)
    (fb : Nat → β) (hrow : ∀ x, x ∈ l → row x < R) :
    ∀ R1, R1 ≤ R →
    arr (startOf (cntRow row l) R1) (scat row g l (startOf (cntRow row l)) fb) =
      (groupByRow row R1 l).map g := by
  have hq : ∀ r1 r2, r1 < r2 → r2 < R →
      startOf (cntRow row l) r1 + cntRow row l r1 ≤ startOf (cntRow row l) r2 := by
    intro r1 r2 h12 _
    have := startOf_mono (cntRow row l) (show r1 + 1 ≤ r2 by omega)
    simpa [startOf] using this
  obtain ⟨ha, _⟩ := scat_spec row g R l (startOf (cntRow row l)) fb hrow hq
  intro R1
  induction R1 with
  | zero => intro _; simp [groupByRow, startOf, arr]
  | succ R1 ih =>
    intro hR
    rw [groupByRow_succ, List.map_append, ← ih (by omega)]
    simp only [startOf]
    rw [arr_add]
    congr 1
    apply List.ext_get?
    intro j
    by_cases hj : j < cntRow row l R1
    · have hj' : j < (l.filter (fun x => decide (row x = R1))).length := hj
      have e := ha R1 (by omega) j _ (List.get?_eq_get hj')
      simp only [List.get?_eq_getElem?, List.getElem?_map, List.getElem?_range hj,
        Option.map_some', List.getElem?_eq_getElem hj']
      rw [e]
      simp
    · have h1 : ((List.range (cntRow row l R1)).map
          (fun j => scat row g l (startOf (cntRow row l)) fb
            (startOf (cntRow row l) R1 + j))).length ≤ j := by simp; omega
      have h2 : ((l.filter (fun x => decide (row x = R1))).map g).length ≤ j := by
        simp only [List.length_map]
        have : (l.filter (fun x => decide (row x = R1))).length = cntRow row l R1 := rfl
        omega
      rw [List.get?_eq_none.mpr h1, List.get?_eq_none.mpr h2]

/-! ## The row passes of `build` -/

theorem cntRow_map_fst {T : Type} (l : List (Int × Int × T)) (r : Nat) :
    cntRow Int.toNat (l.map (fun x => x.1)) r = cntRow rowOf l r := by
  induction l with
  | nil => rfl
  | cons x l ih => simp only [List.map_cons, cntRow_cons, ih, rowOf]

theorem startOf_le_length {τ : Type} (row : τ → Nat) (l : List τ) (r : Nat) :
    startOf (cntRow row l) r ≤ l.length := by
  induction l with
  | nil =>
    induction r with
    | zero => simp [startOf]
    | succ r ih => simp [startOf, cntRow_nil] at ih ⊢; exact ih
  | cons x l ih =>
    rw [startOf_cons, List.length_cons]
    split <;> omega

theorem takeWhile_of_all {α : Type} (p : α → Bool) (l : List α) (h : l.all p = true) :
    l.takeWhile p = l := by
  induction l with
  | nil => rfl
  | cons x l ih =>
    simp only [List.all_cons, Bool.and_eq_true] at h
    simp [List.takeWhile_cons, h.1, ih h.2]

theorem zeroLoop_fresh (R : Nat) (jr : Nat → Int) :
    zeroLoop (R + 1) 0 (.live (arr (R + 1) jr)) = some (.live (arr (R + 1) (fun _ => 0))) := by
  rw [zeroLoop_arr (R + 1) 0 (R + 1) jr (by omega)]
  congr 2
  apply arr_congr
  intro j hj
  simp [hj]

/-- The histogram pass on valid rows leaves the per-row counts. -/
theorem histLoop_valid {T : Type} (R : Nat) (rows : List Int) (l : List (Int × Int × T))
    (hw : Window rows 0 (l.map (fun x => x.1)))
    (hval : ∀ x, x ∈ l → 0 ≤ x.1 ∧ x.1 < (R : Int)) :
    histLoop (R : Int) rows l.length 0 (.live (arr (R + 1) (fun _ => 0))) =
      some (none, .live (arr (R + 1) (fun j => (cntRow rowOf l j : Int)))) := by
  have hall : (l.map (fun x => x.1)).all (fun x => decide (x < (R : Int))) = true := by
    simp only [List.all_eq_true, List.mem_map, decide_eq_true_eq]
    rintro _ ⟨x, hx, rfl⟩
    exact (hval x hx).2
  have h := histLoop_arr (R : Int) rows (R + 1) (by push_cast; omega) (l.map (fun x => x.1)) 0
    (fun _ => 0) hw (by
      intro y hy
      have hy' := List.takeWhile_subset _ hy
      simp only [List.mem_map] at hy'
      obtain ⟨x, hx, rfl⟩ := hy'
      exact (hval x hx).1)
  rw [List.length_map] at h
  rw [h, takeWhile_of_all _ _ hall, hall]
  simp only [if_true, cntRow_map_fst, zero_add]

theorem cumsumLoop_counts (c : Nat → Nat) (R : Nat) :
    ∃ cum, cumsumLoop R 0 (.live (arr (R + 1) (fun j => (c j : Int)))) 0 =
      some (.live (arr (R + 1) (fun j => if j < R then (startOf c j : Int) else (c j : Int))),
        cum) := by
  refine ⟨(startOf c (0 + R) : Int), ?_⟩
  have h := cumsumLoop_arr c (R + 1) R 0 (fun j => (c j : Int)) (by omega) (fun _ _ => rfl)
  simp only [startOf, Nat.cast_zero] at h
  rw [h]
  congr 3
  apply arr_congr
  intro j _
  simp

theorem repairLoop_cursors (c : Nat → Nat) (R : Nat) (g : Nat → Int)
    (hg : ∀ j, j < R → g j = (startOf c (j + 1) : Int)) :
    ∃ cum, repairLoop (R + 1) 0 (.live (arr (R + 1) g)) 0 =
      some (.live (arr (R + 1) (fun j => (startOf c j : Int))), cum) := by
  obtain ⟨cum, h⟩ := repairLoop_arr (R + 1) (R + 1) 0 g 0 (by omega)
  refine ⟨cum, ?_⟩
  rw [h]
  congr 3
  apply arr_congr
  intro j hj
  cases j with
  | zero => simp [startOf]
  | succ j =>
    have h1 : j + 1 < 0 + (R + 1) := by omega
    have h2 : j < R := by omega
    simp [h1, h2, hg j h2]

/-! ## `build` on a store without storage -/

theorem toNat_cast_succ (R : Nat) : ((R : Int) + 1).toNat = R + 1 := by omega

theorem malloc_cast {α : Type} (f : Nat → α) (n : Nat) :
    malloc (some f) (n : Int) = .live (arr n f) := by
  have : ¬ ((n : Int) < 0) := by omega
  simp [malloc, this, arr]

theorem malloc_cast_succ {α : Type} (f : Nat → α) (n : Nat) :
    malloc (some f) ((n : Int) + 1) = .live (arr (n + 1) f) := by
  have := malloc_cast f (n + 1)
  rwa [Nat.cast_succ] at this

theorem succInt_of_lt (n : Int) (h : n < INT_MAX) : succInt n = n + 1 := by
  simp [succInt, h]

/-- On every value of `int`, `succInt` is the sum modulo `2^32`, read as a signed
32-bit integer. -/
theorem succInt_eq_wrap (n : Int) (h0 : -2147483648 ≤ n) (h1 : n ≤ INT_MAX) :
    succInt n = (n + 1 + 2147483648) % 4294967296 - 2147483648 := by
  have h1' : n ≤ 2147483647 := h1
  by_cases h : n < INT_MAX
  · have h' : n < 2147483647 := h
    rw [succInt_of_lt n h]
    omega
  · have h' : ¬ n < 2147483647 := h
    have e : n = 2147483647 := by omega
    subst e
    rfl

theorem allocate_nrows {T : Type} (s : SparseMatrix T) (m : Malloc T) :
    (allocate s m).2.nrows_ = s.nrows_ := by
  simp only [allocate]
  split_ifs <;> rfl

theorem allocate_fresh {T : Type} (R N : Nat) (hR : 1 ≤ R) (hmax : (R : Int) < INT_MAX)
    (ncols : Int) (jr jc : Nat → Int) (jv : Nat → T) :
    (allocate (⟨(R : Int), ncols, (N : Int), .null, .null, .null⟩ : SparseMatrix T)
        ⟨some jr, some jc, some jv⟩).2 =
      ⟨(R : Int), ncols, (N : Int), if N = 0 then .null else .live (arr N jc),
        .live (arr (R + 1) jr), if N = 0 then .null else .live (arr N jv)⟩ := by
  have hR0 : (R : Int) ≠ 0 := by omega
  by_cases hN : N = 0
  · subst hN
    simp [allocate, succInt_of_lt _ hmax, malloc_cast_succ, Ptr.isNull, hR0]
  · have hN0 : (N : Int) ≠ 0 := by omega
    simp [allocate, succInt_of_lt _ hmax, malloc_cast_succ, malloc_cast, Ptr.isNull, hR0, hN0,
      hN]

/-- The passes of `build` once `allocate` has returned the store `s1`. -/
theorem build_passes {T : Type} (s1 : SparseMatrix T) (m : Malloc T)
    (rows cols : List Int) (vals : List T) (nvals : Int) (r0 c0 n0 : Int)
    (ci0 rp0 : Ptr Int) (cv0 : Ptr T) (hmax : r0 < INT_MAX)
    (h : (allocate ⟨r0, c0, nvals, ci0, rp0, cv0⟩ m).2 = s1) :
    build ⟨r0, c0, n0, ci0, rp0, cv0⟩ m rows cols vals nvals =
      match zeroLoop (s1.nrows_ + 1).toNat 0 s1.h_csrRowPtr with
      | none => none
      | some rp =>
      match histLoop s1.nrows_ rows s1.nvals_.toNat 0 rp with
      | none => none
      | some (some info, rp) => some (info, { s1 with h_csrRowPtr := rp })
      | some (none, rp) =>
      match cumsumLoop s1.nrows_.toNat 0 rp 0 with
      | none => none
      | some (rp, _) =>
      match rp.write s1.nrows_ nvals with
      | none => none
      | some rp =>
      match scatterLoop s1.ncols_ rows cols vals s1.nvals_.toNat 0 rp
          s1.h_csrColInd s1.h_csrVal with
      | none => none
      | some (some info, rp, ci, cv) =>
        some (info, { s1 with h_csrRowPtr := rp, h_csrColInd := ci, h_csrVal := cv })
      | some (none, rp, ci, cv) =>
      match repairLoop (s1.nrows_ + 1).toNat 0 rp 0 with
      | none => none
      | some (rp, _) =>
        some (.GrB_SUCCESS, { s1 with h_csrRowPtr := rp, h_csrColInd := ci, h_csrVal := cv }) := by
  subst h
  have hn : ¬ INT_MAX ≤ (allocate ⟨r0, c0, nvals, ci0, rp0, cv0⟩ m).2.nrows_ := by
    rw [allocate_nrows]
    exact not_le.mpr hmax
  simp only [build, if_neg hn]

/-- With `nrows_ = INT_MAX` (or above) the first loop of `build` has no normal exit. -/
theorem build_overflow {T : Type} (m : Malloc T) (rows cols : List Int) (vals : List T)
    (nvals : Int) (r0 c0 n0 : Int) (ci0 rp0 : Ptr Int) (cv0 : Ptr T) (hmax : INT_MAX ≤ r0) :
    build ⟨r0, c0, n0, ci0, rp0, cv0⟩ m rows cols vals nvals = none := by
  have hn : INT_MAX ≤ (allocate ⟨r0, c0, nvals, ci0, rp0, cv0⟩ m).2.nrows_ := by
    rw [allocate_nrows]
    exact hmax
  simp only [build, if_pos hn]

/-- A successful `build`, in closed form: on a store without storage, with at least one
row, granted allocations and in-range rows, entries whose columns are below `ncols_` are
stored grouped by row in input order, `h_csrRowPtr` holding the row starts. -/
theorem build_valid {T : Type} (R N : Nat) (hR : 1 ≤ R) (hmax : (R : Int) < INT_MAX)
    (ncols nv0 : Int)
    (jr jc : Nat → Int) (jv : Nat → T) (rows cols : List Int) (vals : List T)
    (l : List (Int × Int × T)) (hl : l.length = N)
    (hwr : Window rows 0 (l.map (fun x => x.1)))
    (hwc : Window cols 0 (l.map (fun x => x.2.1)))
    (hwv : Window vals 0 (l.map (fun x => x.2.2)))
    (hval : ∀ x, x ∈ l → 0 ≤ x.1 ∧ x.1 < (R : Int))
    (hcol : ∀ x, x ∈ l → x.2.1 < ncols) :
    build ⟨(R : Int), ncols, nv0, .null, .null, .null⟩ ⟨some jr, some jc, some jv⟩
        rows cols vals (N : Int) =
      some (.GrB_SUCCESS,
        ⟨(R : Int), ncols, (N : Int),
          if N = 0 then .null else .live ((groupByRow rowOf R l).map (fun x => x.2.1)),
          .live (arr (R + 1) (fun j => (startOf (cntRow rowOf l) j : Int))),
          if N = 0 then .null else .live ((groupByRow rowOf R l).map (fun x => x.2.2))⟩) := by
  have hR0 : (R : Int) ≠ 0 := by omega
  have hvaln : ∀ x, x ∈ l → 0 ≤ x.1 ∧ x.1.toNat < R + 1 := by
    intro x hx
    have := hval x hx
    omega
  have hrowR : ∀ x, x ∈ l → rowOf x < R := by
    intro x hx
    have := hval x hx
    simp only [rowOf]
    omega
  have htot : startOf (cntRow rowOf l) R = N := by
    rw [startOf_total rowOf l R hrowR, hl]
  obtain ⟨cum1, hcs⟩ := cumsumLoop_counts (cntRow rowOf l) R
  -- the row starts, once `h_csrRowPtr[nrows_] = nvals` is stored
  have hstarts : Function.update
      (fun j => if j < R then (startOf (cntRow rowOf l) j : Int) else (cntRow rowOf l j : Int))
      R (N : Int) = fun j => if j < R then (startOf (cntRow rowOf l) j : Int)
        else if j = R then (N : Int) else (cntRow rowOf l j : Int) := by
    funext j
    by_cases e : j = R
    · subst e; simp [Function.update]
    · simp [Function.update, e]
  have hnorm : arr (R + 1) (fun j => if j < R then (startOf (cntRow rowOf l) j : Int)
        else if j = R then (N : Int) else (cntRow rowOf l j : Int)) =
      arr (R + 1) (fun j => (startOf (cntRow rowOf l) j : Int)) := by
    apply arr_congr
    intro j hj
    by_cases e : j < R
    · simp [e]
    · have : j = R := by omega
      subst this
      simp [htot]
  obtain ⟨cum2, hrep⟩ := repairLoop_cursors (cntRow rowOf l) R
    (fun j => (curs rowOf l (startOf (cntRow rowOf l)) j : Int)) (by
      intro j _
      show ((curs rowOf l (startOf (cntRow rowOf l)) j : Nat) : Int) = _
      rw [curs_eq]
      simp [startOf])
  by_cases hN : N = 0
  · subst hN
    have hnil : l = [] := List.length_eq_zero.mp hl
    subst hnil
    have hh := histLoop_valid R rows ([] : List (Int × Int × T)) hwr hval
    simp only [List.length_nil] at hh
    have hrep0 : (fun j => ((curs rowOf ([] : List (Int × Int × T))
        (startOf (cntRow rowOf ([] : List (Int × Int × T)))) j : Nat) : Int)) =
        fun j => (startOf (cntRow rowOf ([] : List (Int × Int × T))) j : Int) := by
      funext j; simp [curs]
    rw [hrep0] at hrep
    rw [build_passes _ _ rows cols vals _ _ _ nv0 _ _ _ hmax (allocate_fresh R 0 hR hmax ncols jr jc jv)]
    simp only [toNat_cast_succ, Int.toNat_ofNat, if_true, zeroLoop_fresh, hh, hcs,
      write_arr _ _ (by omega : R < R + 1), hstarts, hnorm, scatterLoop, hrep]
  · subst hl
    have hh := histLoop_valid R rows l hwr hval
    have hallc : l.all (fun x => decide (x.2.1 < ncols)) = true := by
      simp only [List.all_eq_true, decide_eq_true_eq]
      exact hcol
    have hsc := scatterLoop_arr ncols rows cols vals (R + 1) l.length l 0
      (startOf (cntRow rowOf l)) jc jv hwr hwc hwv hvaln (by
        intro r
        have := startOf_le_length rowOf l (r + 1)
        simpa [startOf] using this)
    rw [hallc, takeWhile_of_all _ _ hallc] at hsc
    have hci := scat_groupByRow rowOf (fun x : Int × Int × T => x.2.1) R l jc hrowR R
      (Nat.le_refl _)
    have hcv := scat_groupByRow rowOf (fun x : Int × Int × T => x.2.2) R l jv hrowR R
      (Nat.le_refl _)
    rw [htot] at hci hcv
    rw [build_passes _ _ rows cols vals _ _ _ nv0 _ _ _ hmax
      (allocate_fresh R l.length hR hmax ncols jr jc jv)]
    simp only [toNat_cast_succ, Int.toNat_ofNat, hN, if_false, zeroLoop_fresh, hh, hcs,
      write_arr _ _ (by omega : R < R + 1), hstarts, hnorm, hsc, if_true, hrep, hci, hcv]

/-! ## Extraction -/

theorem take_succ_drop {α : Type} (l : List α) (a k : Nat) (h : a < l.length) :
    (l.drop a).take (k + 1) = l[a] :: (l.drop (a + 1)).take k := by
  rw [List.drop_eq_getElem_cons h, List.take_succ_cons]

theorem take_drop_append {α : Type} (l : List α) (a b c : Nat) (hab : a ≤ b) (hbc : b ≤ c) :
    (l.drop a).take (b - a) ++ (l.drop b).take (c - b) = (l.drop a).take (c - a) := by
  have e : c - a = (b - a) + (c - b) := by omega
  rw [e, List.take_add, List.drop_drop]
  congr 3
  omega

theorem extractRow_ok {T : Type} (row : Int) (ci : Ptr Int) (cv : Ptr T) (N : Nat)
    (cl : List Int) (vl : List T) (hcl : N ≤ cl.length) (hvl : N ≤ vl.length)
    (hci : ∀ p, p < N → ci.read (p : Int) = cl.get? p)
    (hcv : ∀ p, p < N → cv.read (p : Int) = vl.get? p) (k : Nat) :
    ∀ (lo : Nat) (rs cs : List Int) (vs : List T), lo + k ≤ N →
    extractRow row ci cv k (lo : Int) (rs, cs, vs) =
      some (rs ++ List.replicate k row, cs ++ (cl.drop lo).take k,
        vs ++ (vl.drop lo).take k) := by
  induction k with
  | zero => intro lo rs cs vs _; simp [extractRow]
  | succ k ih =>
    intro lo rs cs vs h
    have e : (lo : Int) + 1 = ((lo + 1 : Nat) : Int) := by push_cast; rfl
    have h1 : lo < cl.length := by omega
    have h2 : lo < vl.length := by omega
    simp only [extractRow, hci lo (by omega), hcv lo (by omega), List.get?_eq_get h1,
      List.get?_eq_get h2, e, ih (lo + 1) _ _ _ (by omega), take_succ_drop cl lo k h1,
      take_succ_drop vl lo k h2]
    simp [List.replicate_succ]

theorem mono_of_step (st : Nat → Nat) (R : Nat) (h : ∀ j, j < R → st j ≤ st (j + 1)) :
    ∀ a b, a ≤ b → b ≤ R → st a ≤ st b := by
  intro a b hab
  induction b with
  | zero =>
    intro _
    have : a = 0 := by omega
    subst this; exact Nat.le_refl _
  | succ b ih =>
    intro hb
    by_cases e : a = b + 1
    · subst e; exact Nat.le_refl _
    · exact Nat.le_trans (ih (by omega) (by omega)) (h b (by omega))

theorem extractLoop_ok {T : Type} (s : SparseMatrix T) (n R N : Nat) (st : Nat → Nat)
    (cl : List Int) (vl : List T) (hcl : N ≤ cl.length) (hvl : N ≤ vl.length)
    (hrp : s.h_csrRowPtr = .live (arr n (fun j => (st j : Int)))) (hn : R < n)
    (hst : ∀ j, j < R → st j ≤ st (j + 1)) (hN : st R ≤ N)
    (hci : ∀ p, p < N → s.h_csrColInd.read (p : Int) = cl.get? p)
    (hcv : ∀ p, p < N → s.h_csrVal.read (p : Int) = vl.get? p) (k : Nat) :
    ∀ (row : Nat) (rs cs : List Int) (vs : List T), row + k ≤ R →
    extractLoop s k row (rs, cs, vs) =
      some (rs ++ rowRuns st row k,
        cs ++ (cl.drop (st row)).take (st (row + k) - st row),
        vs ++ (vl.drop (st row)).take (st (row + k) - st row)) := by
  have hm := mono_of_step st R hst
  induction k with
  | zero => intro row rs cs vs _; simp [extractLoop, rowRuns]
  | succ k ih =>
    intro row rs cs vs h
    have e : (row : Int) + 1 = ((row + 1 : Nat) : Int) := by push_cast; rfl
    have h1 : st row ≤ st (row + 1) := hm _ _ (by omega) (by omega)
    have h2 : st (row + 1) ≤ st (row + 1 + k) := hm _ _ (by omega) (by omega)
    have h3 : st (row + 1 + k) ≤ st R := hm _ _ (by omega) (by omega)
    have e2 : (((st (row + 1) : Nat) : Int) - ((st row : Nat) : Int)).toNat
        = st (row + 1) - st row := by omega
    simp only [extractLoop, hrp, e, read_arr _ (show row < n by omega),
      read_arr _ (show row + 1 < n by omega), e2,
      extractRow_ok (row : Int) _ _ N cl vl hcl hvl hci hcv (st (row + 1) - st row) (st row)
        rs cs vs (by omega),
      ih (row + 1) _ _ _ (by omega)]
    have e3 : row + (k + 1) = row + 1 + k := by omega
    rw [e3, ← take_drop_append cl _ _ _ h1 h2, ← take_drop_append vl _ _ _ h1 h2]
    simp [rowRuns, List.range'_succ, List.append_assoc]

/-- Extraction from a store whose row starts are `st` and whose `st R` slots hold the
lists `cl` and `vl`. -/
theorem extractTuples_ok {T : Type} (s : SparseMatrix T) (n R : Nat) (st : Nat → Nat)
    (cl : List Int) (vl : List T) (hR : s.nrows_ = (R : Int))
    (hrp : s.h_csrRowPtr = .live (arr n (fun j => (st j : Int)))) (hn : R < n)
    (h0 : st 0 = 0) (hst : ∀ j, j < R → st j ≤ st (j + 1))
    (hcl : cl.length = st R) (hvl : vl.length = st R)
    (hci : ∀ p, p < st R → s.h_csrColInd.read (p : Int) = cl.get? p)
    (hcv : ∀ p, p < st R → s.h_csrVal.read (p : Int) = vl.get? p)
    (a b : List Int) (c : List T) :
    extractTuples s a b c = some (.GrB_SUCCESS, rowRuns st 0 R, cl, vl) := by
  have h := extractLoop_ok s n R (st R) st cl vl (by omega) (by omega) hrp hn hst
    (Nat.le_refl _) hci hcv R 0 [] [] [] (by omega)
  simp only [extractTuples, hR, Int.toNat_ofNat, h, h0, Nat.zero_add, Nat.sub_zero,
    List.nil_append, List.drop_zero, ← hcl, List.take_length]
  rw [hcl, ← hvl, List.take_length]

theorem map_fst_filter_row {T : Type} (l : List (Int × Int × T)) (r : Nat)
    (hval : ∀ x, x ∈ l → 0 ≤ x.1) :
    (l.filter (fun x => rowOf x = r)).map (fun x => x.1) =
      List.replicate (cntRow rowOf l r) (r : Int) := by
  apply List.eq_replicate_iff.mpr
  constructor
  · simp [cntRow]
  · intro b hb
    simp only [List.mem_map, List.mem_filter, decide_eq_true_eq] at hb
    obtain ⟨x, ⟨hx, hr⟩, rfl⟩ := hb
    have := hval x hx
    simp only [rowOf] at hr
    omega

theorem rowRuns_startOf {T : Type} (l : List (Int × Int × T)) (R : Nat)
    (hval : ∀ x, x ∈ l → 0 ≤ x.1) :
    rowRuns (startOf (cntRow rowOf l)) 0 R = (groupByRow rowOf R l).map (fun x => x.1) := by
  induction R with
  | zero => simp [rowRuns, groupByRow]
  | succ R ih =>
    rw [groupByRow_succ, List.map_append, ← ih, map_fst_filter_row l R hval]
    simp only [rowRuns, ← List.range_eq_range', List.range_succ, List.flatMap_append,
      List.flatMap_cons, List.flatMap_nil, List.append_nil, startOf, Nat.add_sub_cancel_left]

theorem read_live_nat {α : Type} (cl : List α) (p : Nat) :
    (Ptr.live cl).read (p : Int) = cl.get? p := by
  simp [Ptr.read]

/-- Extraction from the store left by a successful `build` returns the entries grouped by
row, whatever the output vectors held. -/
theorem extract_built {T : Type} (R N : Nat) (ncols : Int) (l : List (Int × Int × T))
    (hl : l.length = N) (hval : ∀ x, x ∈ l → 0 ≤ x.1 ∧ x.1 < (R : Int))
    (a b : List Int) (c : List T) :
    extractTuples
        (⟨(R : Int), ncols, (N : Int),
          if N = 0 then .null else .live ((groupByRow rowOf R l).map (fun x => x.2.1)),
          .live (arr (R + 1) (fun j => (startOf (cntRow rowOf l) j : Int))),
          if N = 0 then .null else .live ((groupByRow rowOf R l).map (fun x => x.2.2))⟩ :
          SparseMatrix T) a b c =
      some (.GrB_SUCCESS, (groupByRow rowOf R l).map (fun x => x.1),
        (groupByRow rowOf R l).map (fun x => x.2.1),
        (groupByRow rowOf R l).map (fun x => x.2.2)) := by
  have hrowR : ∀ x, x ∈ l → rowOf x < R := by
    intro x hx
    have := hval x hx
    simp only [rowOf]
    omega
  have htot : startOf (cntRow rowOf l) R = N := by
    rw [startOf_total rowOf l R hrowR, hl]
  have hlen : (groupByRow rowOf R l).length = N := by
    rw [length_groupByRow, htot]
  rw [← rowRuns_startOf l R (fun x hx => (hval x hx).1)]
  apply extractTuples_ok _ (R + 1) R (startOf (cntRow rowOf l)) _ _ rfl rfl (by omega) rfl
    (fun j _ => startOf_mono _ (by omega))
  · simp [hlen, htot]
  · simp [hlen, htot]
  · intro p hp
    have hN : N ≠ 0 := by omega
    simp only [hN, if_false, read_live_nat]
  · intro p hp
    have hN : N ≠ 0 := by omega
    simp only [hN, if_false, read_live_nat]

/-! ## Input triplets -/

theorem triplets_length {T : Type} (rows cols : List Int) (vals : List T) (N : Nat)
    (_h1 : N ≤ rows.length) (h2 : N ≤ cols.length) (h3 : N ≤ vals.length) :
    (triplets rows cols vals (N : Int)).length = N := by
  simp [triplets, List.length_zip, List.length_take]
  omega

theorem triplets_fst {T : Type} (rows cols : List Int) (vals : List T) (N : Nat)
    (_h1 : N ≤ rows.length) (h2 : N ≤ cols.length) (h3 : N ≤ vals.length) :
    (triplets rows cols vals (N : Int)).map (fun x => x.1) = rows.take N := by
  have := List.map_fst_zip (rows.take N) ((cols.take N).zip (vals.take N))
    (by simp [List.length_zip, List.length_take]; omega)
  simpa [triplets] using this

theorem triplets_snd_fst {T : Type} (rows cols : List Int) (vals : List T) (N : Nat)
    (h1 : N ≤ rows.length) (_h2 : N ≤ cols.length) (h3 : N ≤ vals.length) :
    (triplets rows cols vals (N : Int)).map (fun x => x.2.1) = cols.take N := by
  have e1 := List.map_snd_zip (rows.take N) ((cols.take N).zip (vals.take N))
    (by simp [List.length_zip, List.length_take]; omega)
  have e2 := List.map_fst_zip (cols.take N) (vals.take N)
    (by simp [List.length_take]; omega)
  have : (triplets rows cols vals (N : Int)).map (fun x => x.2.1) =
      (((rows.take N).zip ((cols.take N).zip (vals.take N))).map Prod.snd).map Prod.fst := by
    simp [triplets, List.map_map, Function.comp_def]
  rw [this, e1, e2]

theorem triplets_snd_snd {T : Type} (rows cols : List Int) (vals : List T) (N : Nat)
    (h1 : N ≤ rows.length) (h2 : N ≤ cols.length) (_h3 : N ≤ vals.length) :
    (triplets rows cols vals (N : Int)).map (fun x => x.2.2) = vals.take N := by
  have e1 := List.map_snd_zip (rows.take N) ((cols.take N).zip (vals.take N))
    (by simp [List.length_zip, List.length_take]; omega)
  have e2 := List.map_snd_zip (cols.take N) (vals.take N)
    (by simp [List.length_take]; omega)
  have : (triplets rows cols vals (N : Int)).map (fun x => x.2.2) =
      (((rows.take N).zip ((cols.take N).zip (vals.take N))).map Prod.snd).map Prod.snd := by
    simp [triplets, List.map_map, Function.comp_def]
  rw [this, e1, e2]

theorem zip_maps {T : Type} (l : List (Int × Int × T)) :
    (l.map (fun x => x.1)).zip ((l.map (fun x => x.2.1)).zip (l.map (fun x => x.2.2))) = l := by
  induction l with
  | nil => rfl
  | cons x l ih => simp only [List.map_cons, List.zip_cons_cons, ih]

theorem filter_lt_succ {τ : Type} (row : τ → Nat) (R : Nat) (l : List τ) :
    List.Perm (l.filter (fun x => decide (row x < R + 1)))
      (l.filter (fun x => decide (row x < R)) ++ l.filter (fun x => decide (row x = R))) := by
  induction l with
  | nil => simp
  | cons x l ih =>
    by_cases h1 : row x < R
    · have h2 : row x < R + 1 := by omega
      have h3 : row x ≠ R := by omega
      simp only [List.filter_cons, h1, h2, h3, decide_True, decide_False, if_true,
        Bool.false_eq_true, if_false, List.cons_append]
      exact ih.cons x
    · by_cases h3 : row x = R
      · have h2 : row x < R + 1 := by omega
        have e1 : (x :: l).filter (fun x => decide (row x < R + 1)) =
            x :: l.filter (fun x => decide (row x < R + 1)) := by
          simp [List.filter_cons, h2]
        have e2 : (x :: l).filter (fun x => decide (row x < R)) =
            l.filter (fun x => decide (row x < R)) := by
          simp [List.filter_cons, h1]
        have e3 : (x :: l).filter (fun x => decide (row x = R)) =
            x :: l.filter (fun x => decide (row x = R)) := by
          simp [List.filter_cons, h3]
        rw [e1, e2, e3]
        exact (ih.cons x).trans List.perm_middle.symm
      · have h2 : ¬ row x < R + 1 := by omega
        simp only [List.filter_cons, h1, h2, h3, decide_False, Bool.false_eq_true, if_false]
        exact ih

/-- Grouping by row permutes the entries whose row is below `R`. -/
theorem groupByRow_perm {τ : Type} (row : τ → Nat) (R : Nat) (l : List τ) :
    List.Perm (groupByRow row R l) (l.filter (fun x => decide (row x < R))) := by
  induction R with
  | zero => simp [groupByRow]
  | succ R ih =>
    rw [groupByRow_succ]
    exact (List.Perm.append_right _ ih).trans (filter_lt_succ row R l).symm

theorem groupByRow_perm_self {τ : Type} (row : τ → Nat) (R : Nat) (l : List τ)
    (h : ∀ x, x ∈ l → row x < R) : List.Perm (groupByRow row R l) l := by
  have := groupByRow_perm row R l
  rwa [List.filter_eq_self.mpr (by simpa using h)] at this

/-! ## Grouping by row is the stable sort by row -/

theorem orderedInsert_append {α : Type} (r : α → α → Prop) [DecidableRel r] (x : α)
    (D : List α) : ∀ A : List α, (∀ a, a ∈ A → ¬ r x a) →
    List.orderedInsert r x (A ++ D) = A ++ List.orderedInsert r x D := by
  intro A
  induction A with
  | nil => intro _; rfl
  | cons a A ih =>
    intro h
    have h1 : ¬ r x a := h a (List.mem_cons_self _ _)
    have e := ih (fun b hb => h b (List.mem_cons_of_mem _ hb))
    simp only [List.cons_append, List.orderedInsert, h1, if_false]
    exact congrArg (List.cons a) e

theorem orderedInsert_le_all {α : Type} (r : α → α → Prop) [DecidableRel r] (x : α)
    (D : List α) (h : ∀ d, d ∈ D → r x d) : List.orderedInsert r x D = x :: D := by
  cases D with
  | nil => rfl
  | cons d D =>
    have h1 : r x d := h d (List.mem_cons_self _ _)
    simp only [List.orderedInsert, h1, if_true]

theorem groupByRow_split {τ : Type} (row : τ → Nat) (R r0 : Nat) (l : List τ) (h : r0 < R) :
    groupByRow row R l =
      groupRows row 0 r0 l ++ (l.filter (fun x => row x = r0) ++
        groupRows row (r0 + 1) (R - (r0 + 1)) l) := by
  have e : List.range R = List.range' 0 r0 ++ (r0 :: List.range' (r0 + 1) (R - (r0 + 1))) := by
    rw [List.range_eq_range', ← List.range'_succ]
    have := List.range'_append 0 r0 (R - (r0 + 1) + 1) 1
    simp only [Nat.one_mul, Nat.zero_add] at this
    rw [this]
    congr 1
    omega
  simp only [groupByRow, groupRows, e, List.flatMap_append, List.flatMap_cons]

theorem mem_groupRows {τ : Type} (row : τ → Nat) (a k : Nat) (l : List τ) (y : τ) :
    y ∈ groupRows row a k l ↔ y ∈ l ∧ a ≤ row y ∧ row y < a + k := by
  simp only [groupRows, List.mem_flatMap, List.mem_range', List.mem_filter, decide_eq_true_eq,
    Nat.one_mul]
  constructor
  · rintro ⟨r, ⟨i, hi, rfl⟩, hy, hr⟩
    exact ⟨hy, by omega, by omega⟩
  · rintro ⟨hy, h1, h2⟩
    exact ⟨row y, ⟨row y - a, by omega, by omega⟩, hy, rfl⟩

theorem groupRows_cons_ne {τ : Type} (row : τ → Nat) (a k : Nat) (x : τ) (l : List τ)
    (h : row x < a ∨ a + k ≤ row x) : groupRows row a k (x :: l) = groupRows row a k l := by
  unfold groupRows
  apply List.flatMap_congr
  intro r hr
  simp only [List.mem_range', Nat.one_mul] at hr
  obtain ⟨i, hi, rfl⟩ := hr
  have : row x ≠ a + i := by omega
  simp [List.filter_cons, this]

/-- Grouping by row agrees with insertion sort on the row key, which is stable. -/
theorem groupByRow_eq_insertionSort {τ : Type} (row : τ → Nat) (r : τ → τ → Prop)
    [DecidableRel r] (R : Nat) :
    ∀ l : List τ, (∀ x, x ∈ l → row x < R) →
    (∀ x y, x ∈ l → y ∈ l → (r x y ↔ row x ≤ row y)) →
    groupByRow row R l = List.insertionSort r l := by
  intro l
  induction l with
  | nil =>
    intro _ _
    have : ∀ R, groupByRow row R ([] : List τ) = [] := by
      intro R
      induction R with
      | zero => rfl
      | succ R ih => rw [groupByRow_succ, ih]; rfl
    rw [this]; rfl
  | cons x l ih =>
    intro h hr
    have hx : row x < R := h x (List.mem_cons_self _ _)
    have hxm : x ∈ x :: l := List.mem_cons_self _ _
    rw [List.insertionSort, ← ih (fun y hy => h y (List.mem_cons_of_mem _ hy))
        (fun a b ha hb => hr a b (List.mem_cons_of_mem _ ha) (List.mem_cons_of_mem _ hb)),
      groupByRow_split row R (row x) (x :: l) hx, groupByRow_split row R (row x) l hx,
      groupRows_cons_ne row 0 (row x) x l (by omega),
      groupRows_cons_ne row (row x + 1) _ x l (by omega),
      orderedInsert_append r x _ _ (by
        intro a ha
        rw [mem_groupRows] at ha
        rw [hr x a hxm (List.mem_cons_of_mem _ ha.1)]
        omega),
      orderedInsert_le_all r x _ (by
        intro d hd
        rcases List.mem_append.mp hd with hd | hd
        · simp only [List.mem_filter, decide_eq_true_eq] at hd
          rw [hr x d hxm (List.mem_cons_of_mem _ hd.1)]
          omega
        · rw [mem_groupRows] at hd
          rw [hr x d hxm (List.mem_cons_of_mem _ hd.1)]
          omega)]
    simp [List.filter_cons]

/-! ## Reading a run of cells -/

theorem readRange_live {α : Type} (cl : List α) (k : Nat) :
    ∀ lo : Nat, lo + k ≤ cl.length →
    (Ptr.live cl).readRange k (lo : Int) = some ((cl.drop lo).take k) := by
  induction k with
  | zero => intro lo _; simp [Ptr.readRange]
  | succ k ih =>
    intro lo h
    have e : (lo : Int) + 1 = ((lo + 1 : Nat) : Int) := by push_cast; rfl
    have h1 : lo < cl.length := by omega
    simp only [Ptr.readRange, read_live_nat, List.get?_eq_get h1, e, ih (lo + 1) (by omega),
      take_succ_drop cl lo k h1]
    rfl

theorem readRange_built {α : Type} (cl : List α) (N k lo : Nat) (hN : cl.length = N)
    (h : lo + k ≤ N) :
    (if N = 0 then Ptr.null else Ptr.live cl).readRange k (lo : Int) =
      some ((cl.drop lo).take k) := by
  by_cases e : N = 0
  · have : k = 0 := by omega
    subst this
    simp [Ptr.readRange]
  · simp only [e, if_false]
    exact readRange_live cl k lo (by omega)

theorem groupByRow_eq_groupRows {τ : Type} (row : τ → Nat) (R : Nat) (l : List τ) :
    groupByRow row R l = groupRows row 0 R l := by
  simp [groupByRow, groupRows, List.range_eq_range']

/-- Row `r` of the grouped entries sits at offsets `startOf c r .. startOf c (r+1)`. -/
theorem groupByRow_slice {τ : Type} (row : τ → Nat) (R r : Nat) (l : List τ) (h : r < R) :
    ((groupByRow row R l).drop (startOf (cntRow row l) r)).take (cntRow row l r) =
      l.filter (fun x => row x = r) := by
  have e1 : (groupRows row 0 r l).length = startOf (cntRow row l) r := by
    rw [← groupByRow_eq_groupRows, length_groupByRow]
  rw [groupByRow_split row R r l h, ← e1, List.drop_left]
  have e2 : cntRow row l r = (l.filter (fun x => decide (row x = r))).length := rfl
  rw [e2, List.take_left]

/-! ## The store after a successful `build` -/

theorem build_mk2_valid {T : Type} (rows cols nvals : Int) (jr jc : Nat → Int) (jv : Nat → T)
    (ri ci : List Int) (vs : List T) (hrows : 1 ≤ rows) (hmax : rows < INT_MAX)
    (h0 : 0 ≤ nvals)
    (h1 : nvals ≤ ri.length) (h2 : nvals ≤ ci.length) (h3 : nvals ≤ vs.length)
    (hr : ∀ x, x ∈ triplets ri ci vs nvals → 0 ≤ x.1 ∧ x.1 < rows)
    (hc : ∀ x, x ∈ triplets ri ci vs nvals → x.2.1 < cols) :
    build (mk2 rows cols) ⟨some jr, some jc, some jv⟩ ri ci vs nvals =
      some (.GrB_SUCCESS, builtStore rows cols nvals (triplets ri ci vs nvals)) := by
  obtain ⟨R, rfl⟩ := Int.eq_ofNat_of_zero_le (by omega : 0 ≤ rows)
  obtain ⟨N, rfl⟩ := Int.eq_ofNat_of_zero_le h0
  have g1 : N ≤ ri.length := by omega
  have g2 : N ≤ ci.length := by omega
  have g3 : N ≤ vs.length := by omega
  have hw1 : Window ri 0 ((triplets ri ci vs (N : Int)).map (fun x => x.1)) := by
    rw [triplets_fst ri ci vs N g1 g2 g3]; exact window_take ri N
  have hw2 : Window ci 0 ((triplets ri ci vs (N : Int)).map (fun x => x.2.1)) := by
    rw [triplets_snd_fst ri ci vs N g1 g2 g3]; exact window_take ci N
  have hw3 : Window vs 0 ((triplets ri ci vs (N : Int)).map (fun x => x.2.2)) := by
    rw [triplets_snd_snd ri ci vs N g1 g2 g3]; exact window_take vs N
  have := build_valid R N (by omega) hmax cols 0 jr jc jv ri ci vs (triplets ri ci vs (N : Int))
    (triplets_length ri ci vs N g1 g2 g3) hw1 hw2 hw3 hr hc
  simpa [mk2, builtStore] using this

theorem extract_builtStore {T : Type} (rows cols nvals : Int) (l : List (Int × Int × T))
    (hrows : 0 ≤ rows) (h0 : 0 ≤ nvals) (hl : (l.length : Int) = nvals)
    (hval : ∀ x, x ∈ l → 0 ≤ x.1 ∧ x.1 < rows) (a b : List Int) (c : List T) :
    extractTuples (builtStore rows cols nvals l) a b c =
      some (.GrB_SUCCESS, (groupByRow rowOf rows.toNat l).map (fun x => x.1),
        (groupByRow rowOf rows.toNat l).map (fun x => x.2.1),
        (groupByRow rowOf rows.toNat l).map (fun x => x.2.2)) := by
  obtain ⟨R, rfl⟩ := Int.eq_ofNat_of_zero_le hrows
  obtain ⟨N, rfl⟩ := Int.eq_ofNat_of_zero_le h0
  have := extract_built R N cols l (by omega) hval a b c
  simpa [builtStore] using this

/-! ## Round trip, row grouping, duplicates and the edges of the contract -/

theorem triplets_full {T : Type} (ri ci : List Int) (vs : List T) (nvals : Int)
    (h1 : (ri.length : Int) = nvals) (h2 : (ci.length : Int) = nvals)
    (h3 : (vs.length : Int) = nvals) : triplets ri ci vs nvals = ri.zip (ci.zip vs) := by
  have e1 : nvals.toNat = ri.length := by omega
  have e2 : nvals.toNat = ci.length := by omega
  have e3 : nvals.toNat = vs.length := by omega
  unfold triplets
  rw [e1, List.take_length, ← e1, e2, List.take_length, ← e2, e3, List.take_length]

theorem mem_triplets {T : Type} (ri ci : List Int) (vs : List T) (nvals : Int)
    (x : Int × Int × T) (h : x ∈ triplets ri ci vs nvals) :
    x.1 ∈ ri.take nvals.toNat ∧ x.2.1 ∈ ci.take nvals.toNat := by
  obtain ⟨x1, x2, x3⟩ := x
  have h1 := List.of_mem_zip h
  exact ⟨h1.1, (List.of_mem_zip h1.2).1⟩

/-- On a store freshly constructed with `rows = INT_MAX`, `build` of the one valid triplet
`(0, 0, 7)` does not return success: `allocate` obtains no `rowStart` block, because the
count `rows+1` wraps, and the first loop of `build` has no normal exit. -/
theorem round_trip_counterexample :
    (allocate (⟨2147483647, 1, 1, .null, .null, .null⟩ : SparseMatrix Int)
        ⟨some (fun _ => 0), some (fun _ => 0), some (fun _ => 0)⟩).2.h_csrRowPtr = .null ∧
    build (mk2 2147483647 1 : SparseMatrix Int)
        ⟨some (fun _ => 0), some (fun _ => 0), some (fun _ => 0)⟩ [0] [0] [7] 1 = none :=
  ⟨rfl, rfl⟩

/-- C1 (round trip), as amended. On a store freshly constructed with `1 ≤ rows < INT_MAX`
rows, for an input of `nvals` triplets (duplicates allowed) with rows in `[0, rows)` and
columns in `[0, cols)`, and with the three allocations granted, `build` returns success
and the following `extractTuples` returns triples that are a permutation of the input
triplets. -/
theorem build_extract_round_trip {T : Type} (rows cols nvals : Int)
    (row_indices col_indices : List Int) (values : List T)
    (jr jc : Nat → Int) (jv : Nat → T) (a b : List Int) (c : List T)
    (hrows : 1 ≤ rows) (hmax : rows < INT_MAX)
    (hlr : (row_indices.length : Int) = nvals) (hlc : (col_indices.length : Int) = nvals)
    (hlv : (values.length : Int) = nvals)
    (hr : ∀ x, x ∈ row_indices → 0 ≤ x ∧ x < rows)
    (hc : ∀ x, x ∈ col_indices → 0 ≤ x ∧ x < cols) :
    ∃ s1 rs cs vs,
      build (mk2 rows cols) ⟨some jr, some jc, some jv⟩ row_indices col_indices values nvals
        = some (.GrB_SUCCESS, s1) ∧
      extractTuples s1 a b c = some (.GrB_SUCCESS, rs, cs, vs) ∧
      (rs.zip (cs.zip vs)).Perm (row_indices.zip (col_indices.zip values)) := by
  have h0 : 0 ≤ nvals := by omega
  have hval : ∀ x, x ∈ triplets row_indices col_indices values nvals →
      0 ≤ x.1 ∧ x.1 < rows := fun x hx =>
    hr x.1 (List.mem_of_mem_take (mem_triplets _ _ _ _ x hx).1)
  have hcol : ∀ x, x ∈ triplets row_indices col_indices values nvals → x.2.1 < cols :=
    fun x hx => (hc x.2.1 (List.mem_of_mem_take (mem_triplets _ _ _ _ x hx).2)).2
  have hb := build_mk2_valid rows cols nvals jr jc jv row_indices col_indices values hrows hmax h0
    (by omega) (by omega) (by omega) hval hcol
  have hlen : ((triplets row_indices col_indices values nvals).length : Int) = nvals := by
    rw [triplets_full _ _ _ _ hlr hlc hlv]
    simp only [List.length_zip]
    omega
  have he := extract_builtStore rows cols nvals _ (by omega) h0 hlen hval a b c
  refine ⟨_, _, _, _, hb, he, ?_⟩
  rw [zip_maps, ← triplets_full _ _ _ _ hlr hlc hlv]
  apply groupByRow_perm_self
  intro x hx
  have := hval x hx
  simp only [rowOf]
  omega

theorem build_extract_round_trip_witness :
    ∃ s1 rs cs vs,
      build (mk2 2 2) ⟨some (fun _ => 0), some (fun _ => 0), some (fun _ => 0)⟩
        [1, 0, 1] [0, 1, 0] [(5 : Int), 6, 7] 3 = some (.GrB_SUCCESS, s1) ∧
      extractTuples s1 [] [] [] = some (.GrB_SUCCESS, rs, cs, vs) ∧
      (rs.zip (cs.zip vs)).Perm
        (([1, 0, 1] : List Int).zip (([0, 1, 0] : List Int).zip [(5 : Int), 6, 7])) :=
  build_extract_round_trip 2 2 3 [1, 0, 1] [0, 1, 0] [5, 6, 7] (fun _ => 0) (fun _ => 0)
    (fun _ => 0) [] [] [] (by decide) (by decide) (by decide) (by decide) (by decide)
    (by decide) (by decide)

theorem filter_row_cast {T : Type} (l : List (Int × Int × T)) (r : Nat)
    (hval : ∀ x, x ∈ l → 0 ≤ x.1) :
    l.filter (fun x => decide (rowOf x = r)) = l.filter (fun x => decide (x.1 = (r : Int))) := by
  apply List.filter_congr
  intro x hx
  have := hval x hx
  simp only [rowOf, decide_eq_decide]
  omega

/-- Row grouping below the width limit: on a freshly constructed store with
`1 ≤ rows < INT_MAX`, for a valid input and granted allocations, `build` succeeds, the
cells `[rowStart[r], rowStart[r+1])` of `h_csrColInd` and `h_csrVal` hold the columns and
values of the input triplets of row `r` in input order, and `extractTuples` returns the
input triplets sorted by row with the stable insertion sort. -/
theorem build_groups_rows_bounded {T : Type} (rows cols nvals : Int)
    (row_indices col_indices : List Int) (values : List T)
    (jr jc : Nat → Int) (jv : Nat → T) (a b : List Int) (c : List T)
    (hrows : 1 ≤ rows) (hmax : rows < INT_MAX) (h0 : 0 ≤ nvals)
    (hlr : nvals ≤ row_indices.length) (hlc : nvals ≤ col_indices.length)
    (hlv : nvals ≤ values.length)
    (hr : ∀ x, x ∈ row_indices.take nvals.toNat → 0 ≤ x ∧ x < rows)
    (hc : ∀ x, x ∈ col_indices.take nvals.toNat → 0 ≤ x ∧ x < cols) :
    ∃ s1,
      build (mk2 rows cols) ⟨some jr, some jc, some jv⟩ row_indices col_indices values nvals
        = some (.GrB_SUCCESS, s1) ∧
      (∀ r : Nat, (r : Int) < rows → ∃ lo hi : Nat,
        s1.h_csrRowPtr.read (r : Int) = some (lo : Int) ∧
        s1.h_csrRowPtr.read ((r : Int) + 1) = some (hi : Int) ∧ lo ≤ hi ∧
        s1.h_csrColInd.readRange (hi - lo) (lo : Int) =
          some (((triplets row_indices col_indices values nvals).filter
            (fun x => decide (x.1 = (r : Int)))).map (fun x => x.2.1)) ∧
        s1.h_csrVal.readRange (hi - lo) (lo : Int) =
          some (((triplets row_indices col_indices values nvals).filter
            (fun x => decide (x.1 = (r : Int)))).map (fun x => x.2.2))) ∧
      extractTuples s1 a b c = some (.GrB_SUCCESS,
        ((triplets row_indices col_indices values nvals).insertionSort
          (fun x y => x.1 ≤ y.1)).map (fun x => x.1),
        ((triplets row_indices col_indices values nvals).insertionSort
          (fun x y => x.1 ≤ y.1)).map (fun x => x.2.1),
        ((triplets row_indices col_indices values nvals).insertionSort
          (fun x y => x.1 ≤ y.1)).map (fun x => x.2.2)) := by
  have hval : ∀ x, x ∈ triplets row_indices col_indices values nvals →
      0 ≤ x.1 ∧ x.1 < rows := fun x hx => hr x.1 (mem_triplets _ _ _ _ x hx).1
  have hcol : ∀ x, x ∈ triplets row_indices col_indices values nvals → x.2.1 < cols :=
    fun x hx => (hc x.2.1 (mem_triplets _ _ _ _ x hx).2).2
  have hb := build_mk2_valid rows cols nvals jr jc jv row_indices col_indices values hrows hmax h0
    hlr hlc hlv hval hcol
  obtain ⟨R, rfl⟩ := Int.eq_ofNat_of_zero_le (by omega : 0 ≤ rows)
  obtain ⟨N, rfl⟩ := Int.eq_ofNat_of_zero_le h0
  have hlen : (triplets row_indices col_indices values (N : Int)).length = N :=
    triplets_length _ _ _ N (by omega) (by omega) (by omega)
  have he := extract_builtStore (R : Int) cols (N : Int) _ (by omega) (by omega)
    (by rw [hlen]) hval a b c
  have hrowR : ∀ x, x ∈ triplets row_indices col_indices values (N : Int) → rowOf x < R := by
    intro x hx
    have := hval x hx
    simp only [rowOf]
    omega
  have hsort := groupByRow_eq_insertionSort rowOf
    (fun x y : Int × Int × T => x.1 ≤ y.1) R
    (triplets row_indices col_indices values (N : Int)) hrowR (by
      intro x y hx hy
      have h1 := hval x hx
      have h2 := hval y hy
      simp only [rowOf]
      omega)
  have htot : startOf (cntRow rowOf (triplets row_indices col_indices values (N : Int))) R = N := by
    rw [startOf_total rowOf _ R hrowR, hlen]
  have hG : (groupByRow rowOf R (triplets row_indices col_indices values (N : Int))).length
      = N := by rw [length_groupByRow, htot]
  refine ⟨_, hb, ?_, ?_⟩
  · intro r hrR
    have hrR' : r < R := by omega
    have hle : startOf (cntRow rowOf (triplets row_indices col_indices values (N : Int))) (r + 1)
        ≤ N := by
      have := startOf_mono (cntRow rowOf (triplets row_indices col_indices values (N : Int)))
        (show r + 1 ≤ R by omega)
      rwa [htot] at this
    refine ⟨startOf (cntRow rowOf (triplets row_indices col_indices values (N : Int))) r,
      startOf (cntRow rowOf (triplets row_indices col_indices values (N : Int))) (r + 1),
      ?_, ?_, startOf_mono _ (show r ≤ r + 1 by omega), ?_, ?_⟩
    · simp only [builtStore, Int.toNat_ofNat]
      exact read_arr _ (show r < R + 1 by omega)
    · simp only [builtStore, Int.toNat_ofNat]
      have e : (r : Int) + 1 = ((r + 1 : Nat) : Int) := by push_cast; rfl
      rw [e]
      exact read_arr _ (show r + 1 < R + 1 by omega)
    · simp only [builtStore, Int.toNat_ofNat]
      rw [readRange_built _ N
        (startOf (cntRow rowOf (triplets row_indices col_indices values (N : Int))) (r + 1) -
          startOf (cntRow rowOf (triplets row_indices col_indices values (N : Int))) r)
        (startOf (cntRow rowOf (triplets row_indices col_indices values (N : Int))) r)
        (by rw [List.length_map, hG]) (by simp only [startOf] at hle ⊢; omega)]
      simp only [startOf, Nat.add_sub_cancel_left, ← List.map_drop, ← List.map_take,
        groupByRow_slice rowOf R r _ hrR', filter_row_cast _ r (fun x hx => (hval x hx).1)]
    · simp only [builtStore, Int.toNat_ofNat]
      rw [readRange_built _ N
        (startOf (cntRow rowOf (triplets row_indices col_indices values (N : Int))) (r + 1) -
          startOf (cntRow rowOf (triplets row_indices col_indices values (N : Int))) r)
        (startOf (cntRow rowOf (triplets row_indices col_indices values (N : Int))) r)
        (by rw [List.length_map, hG]) (by simp only [startOf] at hle ⊢; omega)]
      simp only [startOf, Nat.add_sub_cancel_left, ← List.map_drop, ← List.map_take,
        groupByRow_slice rowOf R r _ hrR', filter_row_cast _ r (fun x hx => (hval x hx).1)]
  · rw [he]
    simp only [Int.toNat_ofNat, hsort]

/-- C2 (stable row grouping). On a freshly constructed store with `rows ≥ 1`, with
`0 ≤ nvals` not exceeding the input lengths, all indices of the first `nvals` triplets in
range and the allocations granted: after every successful `build`, for every row `r` the
cells `[rowStart[r], rowStart[r+1])` of `h_csrColInd` and `h_csrVal` hold the columns and
values of the input triplets of row `r` in input order, and `extractTuples` returns the
input triplets sorted by row with the stable insertion sort; and `build` does succeed
whenever `rows < INT_MAX`. -/
theorem build_groups_rows_stably {T : Type} (rows cols nvals : Int)
    (row_indices col_indices : List Int) (values : List T)
    (jr jc : Nat → Int) (jv : Nat → T) (a b : List Int) (c : List T)
    (hrows : 1 ≤ rows) (h0 : 0 ≤ nvals)
    (hlr : nvals ≤ row_indices.length) (hlc : nvals ≤ col_indices.length)
    (hlv : nvals ≤ values.length)
    (hr : ∀ x, x ∈ row_indices.take nvals.toNat → 0 ≤ x ∧ x < rows)
    (hc : ∀ x, x ∈ col_indices.take nvals.toNat → 0 ≤ x ∧ x < cols) :
    (rows < INT_MAX → ∃ s1,
      build (mk2 rows cols) ⟨some jr, some jc, some jv⟩ row_indices col_indices values nvals
        = some (.GrB_SUCCESS, s1)) ∧
    ∀ s1,
      build (mk2 rows cols) ⟨some jr, some jc, some jv⟩ row_indices col_indices values nvals
        = some (.GrB_SUCCESS, s1) →
      (∀ r : Nat, (r : Int) < rows → ∃ lo hi : Nat,
        s1.h_csrRowPtr.read (r : Int) = some (lo : Int) ∧
        s1.h_csrRowPtr.read ((r : Int) + 1) = some (hi : Int) ∧ lo ≤ hi ∧
        s1.h_csrColInd.readRange (hi - lo) (lo : Int) =
          some (((triplets row_indices col_indices values nvals).filter
            (fun x => decide (x.1 = (r : Int)))).map (fun x => x.2.1)) ∧
        s1.h_csrVal.readRange (hi - lo) (lo : Int) =
          some (((triplets row_indices col_indices values nvals).filter
            (fun x => decide (x.1 = (r : Int)))).map (fun x => x.2.2))) ∧
      extractTuples s1 a b c = some (.GrB_SUCCESS,
        ((triplets row_indices col_indices values nvals).insertionSort
          (fun x y => x.1 ≤ y.1)).map (fun x => x.1),
        ((triplets row_indices col_indices values nvals).insertionSort
          (fun x y => x.1 ≤ y.1)).map (fun x => x.2.1),
        ((triplets row_indices col_indices values nvals).insertionSort
          (fun x y => x.1 ≤ y.1)).map (fun x => x.2.2)) := by
  constructor
  · intro hmax
    obtain ⟨s1, hb, _⟩ := build_groups_rows_bounded rows cols nvals row_indices col_indices
      values jr jc jv a b c hrows hmax h0 hlr hlc hlv hr hc
    exact ⟨s1, hb⟩
  · intro s1 hs
    by_cases hmax : rows < INT_MAX
    · obtain ⟨s2, hb, g1, g2⟩ := build_groups_rows_bounded rows cols nvals row_indices
        col_indices values jr jc jv a b c hrows hmax h0 hlr hlc hlv hr hc
      rw [hb] at hs
      simp only [Option.some.injEq, Prod.mk.injEq, true_and] at hs
      subst hs
      exact ⟨g1, g2⟩
    · have hn := build_overflow ⟨some jr, some jc, some jv⟩ row_indices col_indices values
        nvals rows cols 0 .null .null .null (not_lt.mp hmax)
      rw [show (mk2 rows cols : SparseMatrix T) = ⟨rows, cols, 0, .null, .null, .null⟩
        from rfl, hn] at hs
      simp at hs

theorem build_groups_rows_stably_witness :
    ∃ s1,
      build (mk2 2 2) ⟨some (fun _ => 0), some (fun _ => 0), some (fun _ => 0)⟩
        [1, 0, 1] [0, 1, 0] [(5 : Int), 6, 7] 3 = some (.GrB_SUCCESS, s1) ∧
      (∀ r : Nat, (r : Int) < 2 → ∃ lo hi : Nat,
        s1.h_csrRowPtr.read (r : Int) = some (lo : Int) ∧
        s1.h_csrRowPtr.read ((r : Int) + 1) = some (hi : Int) ∧ lo ≤ hi ∧
        s1.h_csrColInd.readRange (hi - lo) (lo : Int) =
          some (((triplets [1, 0, 1] [0, 1, 0] [(5 : Int), 6, 7] 3).filter
            (fun x => decide (x.1 = (r : Int)))).map (fun x => x.2.1)) ∧
        s1.h_csrVal.readRange (hi - lo) (lo : Int) =
          some (((triplets [1, 0, 1] [0, 1, 0] [(5 : Int), 6, 7] 3).filter
            (fun x => decide (x.1 = (r : Int)))).map (fun x => x.2.2))) ∧
      extractTuples s1 [] [] [] = some (.GrB_SUCCESS,
        ((triplets [1, 0, 1] [0, 1, 0] [(5 : Int), 6, 7] 3).insertionSort
          (fun x y => x.1 ≤ y.1)).map (fun x => x.1),
        ((triplets [1, 0, 1] [0, 1, 0] [(5 : Int), 6, 7] 3).insertionSort
          (fun x y => x.1 ≤ y.1)).map (fun x => x.2.1),
        ((triplets [1, 0, 1] [0, 1, 0] [(5 : Int), 6, 7] 3).insertionSort
          (fun x y => x.1 ≤ y.1)).map (fun x => x.2.2)) :=
  (fun h => (h.1 (by decide)).elim (fun s1 hs => ⟨s1, hs, (h.2 s1 hs).1, (h.2 s1 hs).2⟩))
    (build_groups_rows_stably 2 2 3 [1, 0, 1] [0, 1, 0] [5, 6, 7] (fun _ => 0) (fun _ => 0)
      (fun _ => 0) [] [] [] (by decide) (by decide) (by decide) (by decide) (by decide)
      (by decide) (by decide))

/-- C5 (concrete scenario). On a fresh 3×3 store, `build` with the triplets
`(0,0,1), (2,1,5), (0,2,2), (1,1,3)` and `nvals = 4` returns success with
`rowStart = [0,2,3,4]`, `colIndex = [0,2,1,1]`, `value = [1,2,3,5]`, and `extractTuples`
then returns rows `[0,0,1,2]`, columns `[0,2,1,1]`, values `[1,2,3,5]`, whatever the
granted blocks and the output vectors held before. -/
theorem concrete_scenario (jr jc jv : Nat → Int) (a b c : List Int) :
    build (mk2 3 3) ⟨some jr, some jc, some jv⟩ [0, 2, 0, 1] [0, 1, 2, 1] [1, 5, 2, 3] 4 =
      some (.GrB_SUCCESS,
        ⟨3, 3, 4, .live [0, 2, 1, 1], .live [0, 2, 3, 4], .live [1, 2, 3, 5]⟩) ∧
    extractTuples
        (⟨3, 3, 4, .live [0, 2, 1, 1], .live [0, 2, 3, 4], .live [1, 2, 3, 5]⟩ :
          SparseMatrix Int) a b c =
      some (.GrB_SUCCESS, [0, 0, 1, 2], [0, 2, 1, 1], [1, 2, 3, 5]) := by
  constructor
  · rw [build_mk2_valid 3 3 4 jr jc jv [0, 2, 0, 1] [0, 1, 2, 1] [1, 5, 2, 3] (by decide)
      (by decide)
      (by decide) (by decide) (by decide) (by decide) (by decide) (by decide)]
    rfl
  · rfl

theorem pair_sublist_of_get? {α : Type} (x y : α) :
    ∀ (l : List α) (i j : Nat), i < j → l.get? i = some x → l.get? j = some y →
    List.Sublist [x, y] l := by
  intro l
  induction l with
  | nil => intro i j _ h; simp at h
  | cons z l ih =>
    intro i j hij hi hj
    cases j with
    | zero => omega
    | succ j =>
      simp only [List.get?_cons_succ] at hj
      cases i with
      | zero =>
        simp only [List.get?_cons_zero, Option.some.injEq] at hi
        subst hi
        exact List.Sublist.cons₂ _ (List.singleton_sublist.mpr (List.get?_mem hj))
      | succ i =>
        simp only [List.get?_cons_succ] at hi
        exact List.Sublist.cons _ (ih i j (by omega) hi hj)

theorem filter_sublist_groupByRow {τ : Type} (row : τ → Nat) (R r : Nat) (l : List τ)
    (h : r < R) : List.Sublist (l.filter (fun x => row x = r)) (groupByRow row R l) := by
  rw [groupByRow_split row R r l h]
  exact (List.sublist_append_left _ _).trans (List.sublist_append_right _ _)

theorem get?_zip3 {T : Type} (ri ci : List Int) (vs : List T) (i : Nat) (r k : Int) (x : T)
    (h1 : ri.get? i = some r) (h2 : ci.get? i = some k) (h3 : vs.get? i = some x) :
    (ri.zip (ci.zip vs)).get? i = some (r, k, x) := by
  simp only [List.get?_eq_getElem?] at *
  simp [List.getElem?_zip_eq_some, h1, h2, h3]

/-- On a fresh store with `rows = INT_MAX`, `build` of the valid input
`(0, 0, 5), (0, 0, 7)`, whose two triplets share their coordinate, does not succeed:
`rowStart` stays unallocated and the first loop of `build` has no normal exit. -/
theorem duplicates_counterexample :
    (allocate (⟨2147483647, 1, 2, .null, .null, .null⟩ : SparseMatrix Int)
        ⟨some (fun _ => 0), some (fun _ => 0), some (fun _ => 0)⟩).2.h_csrRowPtr = .null ∧
    build (mk2 2147483647 1 : SparseMatrix Int)
        ⟨some (fun _ => 0), some (fun _ => 0), some (fun _ => 0)⟩ [0, 0] [0, 0] [5, 7] 2 = none :=
  ⟨rfl, rfl⟩

/-- C6 (duplicate preservation), as amended. For a valid input on a fresh store with
`1 ≤ rows < INT_MAX` in which the triplets at positions `i < j` share the coordinate
`(r, k)`, the unmasked `build` succeeds, `nvals()` then reports the full input count,
`extractTuples` returns as many tuples as the input has, and both entries occur in its
output as separate tuples, the one of position `i` before the one of position `j`. -/
theorem duplicates_preserved {T : Type} (rows cols nvals : Int)
    (row_indices col_indices : List Int) (values : List T)
    (jr jc : Nat → Int) (jv : Nat → T) (a b : List Int) (c : List T)
    (i j : Nat) (r k : Int) (x y : T)
    (hrows : 1 ≤ rows) (hmax : rows < INT_MAX)
    (hlr : (row_indices.length : Int) = nvals) (hlc : (col_indices.length : Int) = nvals)
    (hlv : (values.length : Int) = nvals)
    (hr : ∀ z, z ∈ row_indices → 0 ≤ z ∧ z < rows)
    (hc : ∀ z, z ∈ col_indices → 0 ≤ z ∧ z < cols)
    (hij : i < j)
    (hir : row_indices.get? i = some r) (hic : col_indices.get? i = some k)
    (hiv : values.get? i = some x)
    (hjr : row_indices.get? j = some r) (hjc : col_indices.get? j = some k)
    (hjv : values.get? j = some y) :
    ∃ s1 rs cs vs,
      build (mk2 rows cols) ⟨some jr, some jc, some jv⟩ row_indices col_indices values nvals
        = some (.GrB_SUCCESS, s1) ∧
      SparseMatrix.nvals s1 0 = (.GrB_SUCCESS, nvals) ∧
      extractTuples s1 a b c = some (.GrB_SUCCESS, rs, cs, vs) ∧
      ((rs.zip (cs.zip vs)).length : Int) = nvals ∧
      List.Sublist [(r, k, x), (r, k, y)] (rs.zip (cs.zip vs)) := by
  have h0 : 0 ≤ nvals := by omega
  have hval : ∀ z, z ∈ triplets row_indices col_indices values nvals →
      0 ≤ z.1 ∧ z.1 < rows := fun z hz =>
    hr z.1 (List.mem_of_mem_take (mem_triplets _ _ _ _ z hz).1)
  have hcol : ∀ z, z ∈ triplets row_indices col_indices values nvals → z.2.1 < cols :=
    fun z hz => (hc z.2.1 (List.mem_of_mem_take (mem_triplets _ _ _ _ z hz).2)).2
  have hb := build_mk2_valid rows cols nvals jr jc jv row_indices col_indices values hrows hmax h0
    (by omega) (by omega) (by omega) hval hcol
  have hfull := triplets_full row_indices col_indices values nvals hlr hlc hlv
  have hlen : ((triplets row_indices col_indices values nvals).length : Int) = nvals := by
    rw [hfull]
    simp only [List.length_zip]
    omega
  have he := extract_builtStore rows cols nvals _ (by omega) h0 hlen hval a b c
  have hrowR : ∀ z, z ∈ triplets row_indices col_indices values nvals →
      rowOf z < rows.toNat := by
    intro z hz
    have := hval z hz
    simp only [rowOf]
    omega
  have hrr : 0 ≤ r ∧ r < rows := hr r (List.get?_mem hir)
  refine ⟨_, _, _, _, hb, rfl, he, ?_, ?_⟩
  · rw [zip_maps, length_groupByRow, startOf_total rowOf _ _ hrowR]
    exact hlen
  · rw [zip_maps]
    have hpair : List.Sublist [(r, k, x), (r, k, y)]
        (triplets row_indices col_indices values nvals) := by
      rw [hfull]
      exact pair_sublist_of_get? _ _ _ i j hij (get?_zip3 _ _ _ i r k x hir hic hiv)
        (get?_zip3 _ _ _ j r k y hjr hjc hjv)
    have hf := hpair.filter (fun z : Int × Int × T => decide (rowOf z = r.toNat))
    have e : [(r, k, x), (r, k, y)].filter (fun z : Int × Int × T => decide (rowOf z = r.toNat))
        = [(r, k, x), (r, k, y)] := by
      simp [List.filter_cons, rowOf]
    rw [e] at hf
    exact hf.trans (filter_sublist_groupByRow rowOf rows.toNat r.toNat _ (by omega))

theorem duplicates_preserved_witness :
    ∃ s1 rs cs vs,
      build (mk2 2 2) ⟨some (fun _ => 0), some (fun _ => 0), some (fun _ => 0)⟩
        [1, 0, 1] [1, 1, 1] [(5 : Int), 6, 7] 3 = some (.GrB_SUCCESS, s1) ∧
      SparseMatrix.nvals s1 0 = (.GrB_SUCCESS, 3) ∧
      extractTuples s1 [] [] [] = some (.GrB_SUCCESS, rs, cs, vs) ∧
      ((rs.zip (cs.zip vs)).length : Int) = 3 ∧
      List.Sublist [((1 : Int), (1 : Int), (5 : Int)), (1, 1, 7)] (rs.zip (cs.zip vs)) :=
  duplicates_preserved 2 2 3 [1, 0, 1] [1, 1, 1] [5, 6, 7] (fun _ => 0) (fun _ => 0)
    (fun _ => 0) [] [] [] 0 2 1 1 5 7 (by decide) (by decide) (by decide) (by decide)
    (by decide) (by decide) (by decide) (by decide) rfl rfl rfl rfl rfl rfl

/-- C7 (empty matrix), evaluated: with `rows = cols = 0`, `allocate` leaves `h_csrRowPtr`
null (its guard is `nrows_ != 0`) and reports out of memory, and `build` with three empty
inputs and `nvals = 0` then stores `h_csrRowPtr[0] = 0` through the null pointer, which is
undefined; it does not return success.  The same holds for the default-constructed
store. -/
theorem empty_matrix_build_faults {T : Type} (m : Malloc T) :
    allocate (mk2 0 0 : SparseMatrix T) m = (.GrB_OUT_OF_MEMORY, mk2 0 0) ∧
    build (mk2 0 0 : SparseMatrix T) m [] [] [] 0 = none ∧
    build (mk0 : SparseMatrix T) m [] [] [] 0 = none := by
  refine ⟨?_, ?_, ?_⟩
  · simp [allocate, mk2, Ptr.isNull]
  · simp [build, allocate, mk2, Ptr.isNull, zeroLoop, Ptr.write]
  · simp [build, allocate, mk0, Ptr.isNull, zeroLoop, Ptr.write]

/-- C9 (negative indices), evaluated: on a fresh 1×1 store, `build` with the single
triplet `(0, -1, 7)` returns success and stores the column `-1`, which `extractTuples`
hands back; with the single triplet `(-1, 0, 7)` the histogram pass increments
`h_csrRowPtr[-1]`, outside the block, which is undefined.  Neither call returns
`GrB_INDEX_OUT_OF_BOUNDS`. -/
theorem negative_index_not_rejected (jr jc jv : Nat → Int) (a b c : List Int) :
    build (mk2 1 1) ⟨some jr, some jc, some jv⟩ [0] [-1] [7] 1 =
      some (.GrB_SUCCESS, ⟨1, 1, 1, .live [-1], .live [0, 1], .live [7]⟩) ∧
    extractTuples (⟨1, 1, 1, .live [-1], .live [0, 1], .live [7]⟩ : SparseMatrix Int) a b c =
      some (.GrB_SUCCESS, [0], [-1], [7]) ∧
    build (mk2 1 1) ⟨some jr, some jc, some jv⟩ [-1] [0] [7] 1 = none := by
  refine ⟨?_, rfl, ?_⟩
  · rw [build_mk2_valid 1 1 1 jr jc jv [0] [-1] [7] (by decide) (by decide) (by decide) (by decide)
      (by decide) (by decide) (by decide) (by decide)]
    rfl
  · have h := build_passes _ ⟨some jr, some jc, some jv⟩ [-1] [0] [(7 : Int)] ((1 : Nat) : Int)
      ((1 : Nat) : Int) 1 0 .null .null .null (by decide) (allocate_fresh 1 1 (by decide) (by decide) 1 jr jc jv)
    simp only [Nat.cast_one] at h
    rw [show (mk2 1 1 : SparseMatrix Int) = ⟨1, 1, 0, .null, .null, .null⟩ from rfl, h]
    simp only [Nat.cast_one, show ((1 : Int) + 1).toNat = 1 + 1 from rfl, zeroLoop_fresh]
    simp [histLoop, Ptr.read]

/-- C10 (`clear`), evaluated: on a store with three live arrays `clear` returns success
and keeps `nrows_`, `ncols_`, `nvals_`, but the three members are left dangling, not null:
a following `allocate` sees non-null pointers, allocates nothing and reports success, a
following `build` writes through the released `h_csrRowPtr`, and a second `clear`
releases the same blocks again; the last two are undefined. -/
theorem clear_leaves_dangling {T : Type} (R : Nat) (nc nv : Int) (cl rl : List Int)
    (vl : List T) (m : Malloc T) (ri ci : List Int) (vs : List T) (nvals : Int) :
    clear (⟨(R : Int), nc, nv, .live cl, .live rl, .live vl⟩ : SparseMatrix T) =
      some (.GrB_SUCCESS, ⟨(R : Int), nc, nv, .freed, .freed, .freed⟩) ∧
    allocate (⟨(R : Int), nc, nv, .freed, .freed, .freed⟩ : SparseMatrix T) m =
      (.GrB_SUCCESS, ⟨(R : Int), nc, nv, .freed, .freed, .freed⟩) ∧
    build (⟨(R : Int), nc, nv, .freed, .freed, .freed⟩ : SparseMatrix T) m ri ci vs nvals
      = none ∧
    clear (⟨(R : Int), nc, nv, .freed, .freed, .freed⟩ : SparseMatrix T) = none := by
  refine ⟨?_, ?_, ?_, ?_⟩
  · simp [clear, Ptr.isNull, Ptr.free]
  · simp [allocate, Ptr.isNull]
  · have e : ((R : Int) + 1).toNat = R + 1 := by omega
    simp [build, allocate, Ptr.isNull, e, zeroLoop, Ptr.write]
  · simp [clear, Ptr.isNull, Ptr.free]

/-! ## Extraction from any store with the row invariant -/

theorem rowRuns_succ (st : Nat → Nat) (k : Nat) :
    rowRuns st 0 (k + 1) = rowRuns st 0 k ++ List.replicate (st (k + 1) - st k) (k : Int) := by
  simp [rowRuns, List.range'_concat, List.flatMap_append]

theorem length_rowRuns (st : Nat → Nat) (R : Nat) (h0 : st 0 = 0)
    (hst : ∀ j, j < R → st j ≤ st (j + 1)) :
    ∀ k, k ≤ R → (rowRuns st 0 k).length = st k := by
  intro k
  induction k with
  | zero => intro _; simp [rowRuns, h0]
  | succ k ih =>
    intro hk
    rw [rowRuns_succ, List.length_append, ih (by omega), List.length_replicate]
    have := hst k (by omega)
    omega

theorem get?_rowRuns (st : Nat → Nat) (R : Nat) (h0 : st 0 = 0)
    (hst : ∀ j, j < R → st j ≤ st (j + 1)) :
    ∀ k, k ≤ R → ∀ p r, (rowRuns st 0 k).get? p = some r →
      ∃ q : Nat, r = (q : Int) ∧ q < k ∧ st q ≤ p ∧ p < st (q + 1) := by
  intro k
  induction k with
  | zero => intro _ p r h; simp [rowRuns] at h
  | succ k ih =>
    intro hk p r h
    have hlen := length_rowRuns st R h0 hst k (by omega)
    have hstep := hst k (by omega)
    rw [rowRuns_succ, List.get?_eq_getElem?] at h
    by_cases hp : p < st k
    · rw [List.getElem?_append_left (by omega)] at h
      obtain ⟨q, hq1, hq2, hq3⟩ := ih (by omega) p r (by rw [List.get?_eq_getElem?]; exact h)
      exact ⟨q, hq1, by omega, hq3⟩
    · rw [List.getElem?_append_right (by omega), hlen, List.getElem?_replicate] at h
      by_cases hp2 : p - st k < st (k + 1) - st k
      · simp only [hp2, if_true, Option.some.injEq] at h
        exact ⟨k, h.symm, by omega, by omega, by omega⟩
      · simp [hp2] at h

theorem hasCells_read {α : Type} (p : Ptr α) (l : List α) (h : p.HasCells l) :
    ∀ q : Nat, q < l.length → p.read (q : Int) = l.get? q := by
  intro q hq
  rcases h with h | ⟨_, h⟩
  · rw [h, read_live_nat]
  · subst h; simp at hq

theorem get?_getD_of_lt (rp : List Int) (j : Nat) (h : j < rp.length) :
    rp.get? j = some (rp.getD j 0) := by
  simp [List.getD, List.get?_eq_getElem?, List.getElem?_eq_getElem h]

/-- C8 (extraction). For a store whose arrays satisfy the row invariant (`rowStart` of
`rows+1` entries, `rowStart[0] = 0`, non-decreasing, `rowStart[rows] = nnz`, `colIndex`
and `value` of `nnz` entries), `extractTuples` returns success; its outputs do not depend
on what the three vectors held; the column and value outputs are exactly `colIndex` and
`value`; the row output has `nnz` entries, is non-decreasing, and its entry `k` is a row
`r` with `rowStart[r] ≤ k < rowStart[r+1]`. -/
theorem extractTuples_spec {T : Type} (s : SparseMatrix T) (rp cl : List Int) (vl : List T)
    (hrp : s.h_csrRowPtr = .live rp)
    (hci : s.h_csrColInd.HasCells cl) (hcv : s.h_csrVal.HasCells vl)
    (hlen : (rp.length : Int) = s.nrows_ + 1)
    (h0 : rp.get? 0 = some 0)
    (hmono : ∀ (r : Nat) (x y : Int), (r : Int) < s.nrows_ → rp.get? r = some x →
      rp.get? (r + 1) = some y → x ≤ y)
    (hlast : rp.get? s.nrows_.toNat = some s.nvals_)
    (hcl : (cl.length : Int) = s.nvals_) (hvl : (vl.length : Int) = s.nvals_) :
    ∃ rs : List Int,
      (∀ (a b : List Int) (c : List T),
        extractTuples s a b c = some (.GrB_SUCCESS, rs, cl, vl)) ∧
      (rs.length : Int) = s.nvals_ ∧
      rs.Pairwise (fun x y => x ≤ y) ∧
      ∀ (k : Nat) (r : Int), rs.get? k = some r →
        0 ≤ r ∧ r < s.nrows_ ∧ ∃ lo hi : Int, rp.get? r.toNat = some lo ∧
          rp.get? (r.toNat + 1) = some hi ∧ lo ≤ (k : Int) ∧ (k : Int) < hi := by
  have hpos : 0 < rp.length := by
    cases rp with
    | nil => simp at h0
    | cons x rp => simp
  obtain ⟨R, hR⟩ := Int.eq_ofNat_of_zero_le (by omega : 0 ≤ s.nrows_)
  have hn : rp.length = R + 1 := by omega
  have hnn : ∀ j, j ≤ R → 0 ≤ rp.getD j 0 := by
    intro j
    induction j with
    | zero =>
      intro _
      have := get?_getD_of_lt rp 0 hpos
      rw [h0] at this
      simp only [Option.some.injEq] at this
      omega
    | succ j ih =>
      intro hj
      have := hmono j _ _ (by omega) (get?_getD_of_lt rp j (by omega))
        (get?_getD_of_lt rp (j + 1) (by omega))
      have := ih (by omega)
      omega
  have harr : rp = arr (R + 1) (fun j => ((rp.getD j 0).toNat : Int)) := by
    apply List.ext_get?
    intro j
    by_cases hj : j < R + 1
    · rw [get?_getD_of_lt rp j (by omega), arr_get? _ hj,
        Int.toNat_of_nonneg (hnn j (by omega))]
    · rw [List.get?_eq_none.mpr (by omega), List.get?_eq_none.mpr (by rw [arr_length]; omega)]
  have hst0 : (rp.getD 0 0).toNat = 0 := by
    have := get?_getD_of_lt rp 0 hpos
    rw [h0] at this
    simp only [Option.some.injEq] at this
    omega
  have hstm : ∀ j, j < R → (rp.getD j 0).toNat ≤ (rp.getD (j + 1) 0).toNat := by
    intro j hj
    have := hmono j _ _ (by omega) (get?_getD_of_lt rp j (by omega))
      (get?_getD_of_lt rp (j + 1) (by omega))
    omega
  have hstR : ((rp.getD R 0).toNat : Int) = s.nvals_ := by
    have := get?_getD_of_lt rp R (by omega)
    rw [hR, Int.toNat_ofNat] at hlast
    rw [hlast] at this
    simp only [Option.some.injEq] at this
    have := hnn R (Nat.le_refl _)
    omega
  have hcl' : cl.length = (rp.getD R 0).toNat := by omega
  have hvl' : vl.length = (rp.getD R 0).toNat := by omega
  have hext := extractTuples_ok s (R + 1) R (fun j => (rp.getD j 0).toNat) cl vl hR
    (by rw [hrp]; exact congrArg Ptr.live harr) (by omega) hst0 hstm hcl' hvl'
    (fun p hp => hasCells_read _ _ hci p (lt_of_lt_of_eq hp hcl'.symm))
    (fun p hp => hasCells_read _ _ hcv p (lt_of_lt_of_eq hp hvl'.symm))
  have hget := get?_rowRuns (fun j => (rp.getD j 0).toNat) R hst0 hstm R (Nat.le_refl _)
  have hmon := mono_of_step (fun j => (rp.getD j 0).toNat) R hstm
  refine ⟨rowRuns (fun j => (rp.getD j 0).toNat) 0 R, hext, ?_, ?_, ?_⟩
  · rw [length_rowRuns _ R hst0 hstm R (Nat.le_refl _)]
    exact hstR
  · rw [List.pairwise_iff_getElem]
    intro i j hi hj hij
    obtain ⟨q1, e1, hq1, a1, b1⟩ := hget i _ (List.get?_eq_get hi)
    obtain ⟨q2, e2, hq2, a2, b2⟩ := hget j _ (List.get?_eq_get hj)
    simp only [List.get_eq_getElem] at e1 e2
    rw [e1, e2]
    by_cases hq : q1 ≤ q2
    · omega
    · have := hmon (q2 + 1) q1 (by omega) (by omega)
      simp only at a1 b1 a2 b2 this
      omega
  · intro k r hk
    obtain ⟨q, e, hq, a1, b1⟩ := hget k r hk
    subst e
    refine ⟨by omega, by omega, (rp.getD q 0), (rp.getD (q + 1) 0), ?_, ?_, ?_, ?_⟩
    · rw [Int.toNat_ofNat]; exact get?_getD_of_lt rp q (by omega)
    · rw [Int.toNat_ofNat]; exact get?_getD_of_lt rp (q + 1) (by omega)
    · have := hnn q (by omega)
      simp only at a1
      omega
    · have := hnn (q + 1) (by omega)
      simp only at b1
      omega

theorem extractTuples_spec_witness :
    ∃ rs : List Int,
      (∀ (a b : List Int) (c : List Int),
        extractTuples (⟨3, 3, 4, .live [0, 2, 1, 1], .live [0, 2, 3, 4], .live [1, 2, 3, 5]⟩ :
          SparseMatrix Int) a b c = some (.GrB_SUCCESS, rs, [0, 2, 1, 1], [1, 2, 3, 5])) ∧
      (rs.length : Int) = 4 ∧
      rs.Pairwise (fun x y => x ≤ y) ∧
      ∀ (k : Nat) (r : Int), rs.get? k = some r →
        0 ≤ r ∧ r < 3 ∧ ∃ lo hi : Int, ([0, 2, 3, 4] : List Int).get? r.toNat = some lo ∧
          ([0, 2, 3, 4] : List Int).get? (r.toNat + 1) = some hi ∧ lo ≤ (k : Int) ∧
          (k : Int) < hi :=
  extractTuples_spec ⟨3, 3, 4, .live [0, 2, 1, 1], .live [0, 2, 3, 4], .live [1, 2, 3, 5]⟩
    [0, 2, 3, 4] [0, 2, 1, 1] [1, 2, 3, 5] rfl (Or.inl rfl) (Or.inl rfl) (by decide) rfl
    (by
      intro r x y hr hx hy
      have h3 : (r : Int) < 3 := hr
      have h4 : r < 3 := by omega
      interval_cases r <;> simp at hx hy <;> omega)
    rfl (by decide) (by decide)

/-! ## Rejected builds -/

/-- `build` on a fresh store when some row index is not below `rows` (all of them being
non-negative): the histogram pass returns `GrB_INDEX_OUT_OF_BOUNDS`, leaving in
`h_csrRowPtr` the counts of the entries before the first offending one and the other two
arrays as allocated. -/
theorem build_mk2_row_oob {T : Type} (rows cols nvals : Int) (jr jc : Nat → Int) (jv : Nat → T)
    (ri ci : List Int) (vs : List T) (hrows : 1 ≤ rows) (hmax : rows < INT_MAX)
    (h0 : 0 ≤ nvals)
    (h1 : nvals ≤ ri.length) (h2 : nvals ≤ ci.length) (h3 : nvals ≤ vs.length)
    (hnn : ∀ x, x ∈ (triplets ri ci vs nvals).takeWhile (fun x => decide (x.1 < rows)) →
      0 ≤ x.1)
    (hbad : ∃ x, x ∈ triplets ri ci vs nvals ∧ rows ≤ x.1) :
    build (mk2 rows cols) ⟨some jr, some jc, some jv⟩ ri ci vs nvals =
      some (.GrB_INDEX_OUT_OF_BOUNDS,
        ⟨rows, cols, nvals, .live (arr nvals.toNat jc),
          .live (arr (rows.toNat + 1) (fun r => (cntRow rowOf
            ((triplets ri ci vs nvals).takeWhile (fun x => decide (x.1 < rows))) r : Int))),
          .live (arr nvals.toNat jv)⟩) := by
  obtain ⟨R, rfl⟩ := Int.eq_ofNat_of_zero_le (by omega : 0 ≤ rows)
  obtain ⟨N, rfl⟩ := Int.eq_ofNat_of_zero_le h0
  have g1 : N ≤ ri.length := by omega
  have g2 : N ≤ ci.length := by omega
  have g3 : N ≤ vs.length := by omega
  have hlen := triplets_length ri ci vs N g1 g2 g3
  have hN : N ≠ 0 := by
    obtain ⟨x, hx, _⟩ := hbad
    intro e
    have := List.length_pos_of_mem hx
    omega
  have hw1 : Window ri 0 ((triplets ri ci vs (N : Int)).map (fun x => x.1)) := by
    rw [triplets_fst ri ci vs N g1 g2 g3]; exact window_take ri N
  have hall : ¬ ((triplets ri ci vs (N : Int)).map (fun x => x.1)).all
      (fun x => decide (x < (R : Int))) = true := by
    obtain ⟨x, hx, hxr⟩ := hbad
    simp only [List.all_eq_true, List.mem_map, decide_eq_true_eq, not_forall]
    exact ⟨x.1, ⟨x, hx, rfl⟩, by omega⟩
  have htw : ((triplets ri ci vs (N : Int)).map (fun x => x.1)).takeWhile
      (fun x => decide (x < (R : Int))) =
      ((triplets ri ci vs (N : Int)).takeWhile (fun x => decide (x.1 < (R : Int)))).map
        (fun x => x.1) := by
    rw [List.takeWhile_map]
    rfl
  have h := histLoop_arr (R : Int) ri (R + 1) (by push_cast; omega)
    ((triplets ri ci vs (N : Int)).map (fun x => x.1)) 0 (fun _ => 0) hw1 (by
      intro y hy
      rw [htw] at hy
      simp only [List.mem_map] at hy
      obtain ⟨x, hx, rfl⟩ := hy
      exact hnn x hx)
  rw [List.length_map, hlen] at h
  rw [show (mk2 (R : Int) cols : SparseMatrix T) = ⟨(R : Int), cols, 0, .null, .null, .null⟩
    from rfl, build_passes _ _ ri ci vs _ _ _ 0 _ _ _ hmax
      (allocate_fresh R N (by omega) hmax cols jr jc jv)]
  simp only [toNat_cast_succ, Int.toNat_ofNat, zeroLoop_fresh, h, hall, if_false, hN, htw,
    cntRow_map_fst, zero_add, Bool.false_eq_true]

/-- The row passes of `build` on valid rows, up to `h_csrRowPtr[nrows_] = nvals`: the
array holds the row starts. -/
theorem rowStarts_ready {T : Type} (R : Nat) (l : List (Int × Int × T))
    (hval : ∀ x, x ∈ l → 0 ≤ x.1 ∧ x.1 < (R : Int)) :
    ∃ cum, cumsumLoop R 0 (.live (arr (R + 1) (fun j => (cntRow rowOf l j : Int)))) 0 =
        some (.live (arr (R + 1) (fun j => if j < R then (startOf (cntRow rowOf l) j : Int)
          else (cntRow rowOf l j : Int))), cum) ∧
      (Ptr.live (arr (R + 1) (fun j => if j < R then (startOf (cntRow rowOf l) j : Int)
          else (cntRow rowOf l j : Int)))).write (R : Int) (l.length : Int) =
        some (.live (arr (R + 1) (fun j => (startOf (cntRow rowOf l) j : Int)))) := by
  have hrowR : ∀ x, x ∈ l → rowOf x < R := by
    intro x hx
    have := hval x hx
    simp only [rowOf]
    omega
  have htot : startOf (cntRow rowOf l) R = l.length := startOf_total rowOf l R hrowR
  obtain ⟨cum1, hcs⟩ := cumsumLoop_counts (cntRow rowOf l) R
  refine ⟨cum1, hcs, ?_⟩
  rw [write_arr _ _ (by omega : R < R + 1)]
  congr 2
  apply arr_congr
  intro j hj
  by_cases e : j = R
  · subst e; simp [Function.update, htot]
  · have : j < R := by omega
    simp [Function.update, e, this]

/-- `build` on a fresh store when every row index is in range and some column index is
not below `cols`: the scatter pass returns `GrB_INDEX_OUT_OF_BOUNDS`, having stored the
entries before the first offending one and advanced their row cursors. -/
theorem build_mk2_col_oob {T : Type} (rows cols nvals : Int) (jr jc : Nat → Int) (jv : Nat → T)
    (ri ci : List Int) (vs : List T) (hrows : 1 ≤ rows) (hmax : rows < INT_MAX)
    (h0 : 0 ≤ nvals)
    (h1 : nvals ≤ ri.length) (h2 : nvals ≤ ci.length) (h3 : nvals ≤ vs.length)
    (hval : ∀ x, x ∈ triplets ri ci vs nvals → 0 ≤ x.1 ∧ x.1 < rows)
    (hbad : ∃ x, x ∈ triplets ri ci vs nvals ∧ cols ≤ x.2.1) :
    build (mk2 rows cols) ⟨some jr, some jc, some jv⟩ ri ci vs nvals =
      some (.GrB_INDEX_OUT_OF_BOUNDS,
        ⟨rows, cols, nvals,
          .live (arr nvals.toNat (scat rowOf (fun x => x.2.1)
            ((triplets ri ci vs nvals).takeWhile (fun x => decide (x.2.1 < cols)))
            (startOf (cntRow rowOf (triplets ri ci vs nvals))) jc)),
          .live (arr (rows.toNat + 1) (fun r => (curs rowOf
            ((triplets ri ci vs nvals).takeWhile (fun x => decide (x.2.1 < cols)))
            (startOf (cntRow rowOf (triplets ri ci vs nvals))) r : Int))),
          .live (arr nvals.toNat (scat rowOf (fun x => x.2.2)
            ((triplets ri ci vs nvals).takeWhile (fun x => decide (x.2.1 < cols)))
            (startOf (cntRow rowOf (triplets ri ci vs nvals))) jv))⟩) := by
  obtain ⟨R, rfl⟩ := Int.eq_ofNat_of_zero_le (by omega : 0 ≤ rows)
  obtain ⟨N, rfl⟩ := Int.eq_ofNat_of_zero_le h0
  have g1 : N ≤ ri.length := by omega
  have g2 : N ≤ ci.length := by omega
  have g3 : N ≤ vs.length := by omega
  have hlen := triplets_length ri ci vs N g1 g2 g3
  have hN : N ≠ 0 := by
    obtain ⟨x, hx, _⟩ := hbad
    intro e
    have := List.length_pos_of_mem hx
    omega
  have hw1 : Window ri 0 ((triplets ri ci vs (N : Int)).map (fun x => x.1)) := by
    rw [triplets_fst ri ci vs N g1 g2 g3]; exact window_take ri N
  have hw2 : Window ci 0 ((triplets ri ci vs (N : Int)).map (fun x => x.2.1)) := by
    rw [triplets_snd_fst ri ci vs N g1 g2 g3]; exact window_take ci N
  have hw3 : Window vs 0 ((triplets ri ci vs (N : Int)).map (fun x => x.2.2)) := by
    rw [triplets_snd_snd ri ci vs N g1 g2 g3]; exact window_take vs N
  have hvaln : ∀ x, x ∈ triplets ri ci vs (N : Int) → 0 ≤ x.1 ∧ x.1.toNat < R + 1 := by
    intro x hx
    have := hval x hx
    omega
  have hall : ¬ (triplets ri ci vs (N : Int)).all (fun x => decide (x.2.1 < cols)) = true := by
    obtain ⟨x, hx, hxr⟩ := hbad
    simp only [List.all_eq_true, decide_eq_true_eq, not_forall]
    exact ⟨x, hx, by omega⟩
  have hh := histLoop_valid R ri (triplets ri ci vs (N : Int)) hw1 hval
  obtain ⟨cum1, hcs, hwr⟩ := rowStarts_ready R (triplets ri ci vs (N : Int)) hval
  have hsc := scatterLoop_arr cols ri ci vs (R + 1) N (triplets ri ci vs (N : Int)) 0
    (startOf (cntRow rowOf (triplets ri ci vs (N : Int)))) jc jv hw1 hw2 hw3 hvaln (by
      intro r
      have := startOf_le_length rowOf (triplets ri ci vs (N : Int)) (r + 1)
      simp only [startOf] at this
      omega)
  rw [hlen] at hh hwr hsc
  rw [show (mk2 (R : Int) cols : SparseMatrix T) = ⟨(R : Int), cols, 0, .null, .null, .null⟩
    from rfl, build_passes _ _ ri ci vs _ _ _ 0 _ _ _ hmax (allocate_fresh R N (by omega) hmax cols jr jc jv)]
  simp only [toNat_cast_succ, Int.toNat_ofNat, zeroLoop_fresh, hh, hcs, hwr, hN, if_false, hsc,
    hall, Bool.false_eq_true]

theorem mem_take_iff_get? {α : Type} (l : List α) (N : Nat) (r : α) :
    r ∈ l.take N ↔ ∃ i : Nat, i < N ∧ l.get? i = some r := by
  constructor
  · intro h
    obtain ⟨i, hi⟩ := List.mem_iff_getElem?.mp h
    have hlt : i < N := by
      by_contra hge
      have : (l.take N).length ≤ i := by
        rw [List.length_take]; omega
      rw [List.getElem?_eq_none this] at hi
      simp at hi
    rw [List.getElem?_take_of_lt hlt] at hi
    exact ⟨i, hlt, by rw [List.get?_eq_getElem?]; exact hi⟩
  · rintro ⟨i, hi, h⟩
    apply List.mem_iff_getElem?.mpr
    refine ⟨i, ?_⟩
    rw [List.getElem?_take_of_lt hi, ← List.get?_eq_getElem?]
    exact h

/-- On a fresh store with `rows = INT_MAX` and `cols = 1`, `build` returns neither result
code: not success for the in-range triplet `(0, 0, 7)`, and not
`GrB_INDEX_OUT_OF_BOUNDS` for the triplet `(0, 1, 7)`, whose column is out of range. -/
theorem bounds_rejection_counterexample :
    build (mk2 2147483647 1 : SparseMatrix Int)
        ⟨some (fun _ => 0), some (fun _ => 0), some (fun _ => 0)⟩ [0] [0] [7] 1 = none ∧
    build (mk2 2147483647 1 : SparseMatrix Int)
        ⟨some (fun _ => 0), some (fun _ => 0), some (fun _ => 0)⟩ [0] [1] [7] 1 = none :=
  ⟨rfl, rfl⟩

/-- C4 (bounds rejection), as amended. For a fresh store with `1 ≤ rows < INT_MAX`, the
allocations granted, `0 ≤ nvals` not exceeding the input lengths and non-negative row
indices among the first `nvals` triplets, `build` returns a result; it is
`GrB_INDEX_OUT_OF_BOUNDS` exactly when some triplet among the first `nvals` has
`row ≥ rows` or `col ≥ cols`, and `GrB_SUCCESS` otherwise. -/
theorem bounds_rejection {T : Type} (rows cols nvals : Int)
    (row_indices col_indices : List Int) (values : List T)
    (jr jc : Nat → Int) (jv : Nat → T)
    (hrows : 1 ≤ rows) (hmax : rows < INT_MAX) (h0 : 0 ≤ nvals)
    (hlr : nvals ≤ row_indices.length) (hlc : nvals ≤ col_indices.length)
    (hlv : nvals ≤ values.length)
    (hnn : ∀ x, x ∈ row_indices.take nvals.toNat → 0 ≤ x) :
    ∃ info s1,
      build (mk2 rows cols) ⟨some jr, some jc, some jv⟩ row_indices col_indices values nvals
        = some (info, s1) ∧
      (info = .GrB_INDEX_OUT_OF_BOUNDS ↔
        ∃ i : Nat, (i : Int) < nvals ∧
          ((∃ r, row_indices.get? i = some r ∧ r ≥ rows) ∨
           (∃ k, col_indices.get? i = some k ∧ k ≥ cols))) ∧
      (info ≠ .GrB_INDEX_OUT_OF_BOUNDS → info = .GrB_SUCCESS) := by
  have g1 : nvals.toNat ≤ row_indices.length := by omega
  have g2 : nvals.toNat ≤ col_indices.length := by omega
  have g3 : nvals.toNat ≤ values.length := by omega
  have e0 : ((nvals.toNat : Nat) : Int) = nvals := Int.toNat_of_nonneg h0
  have hfst := triplets_fst row_indices col_indices values nvals.toNat g1 g2 g3
  have hsnd := triplets_snd_fst row_indices col_indices values nvals.toNat g1 g2 g3
  rw [e0] at hfst hsnd
  have hnn' : ∀ x, x ∈ triplets row_indices col_indices values nvals → 0 ≤ x.1 :=
    fun x hx => hnn x.1 (mem_triplets _ _ _ _ x hx).1
  -- the condition of the claim, on the list of triplets
  have hcond : (∃ i : Nat, (i : Int) < nvals ∧
        ((∃ r, row_indices.get? i = some r ∧ r ≥ rows) ∨
         (∃ k, col_indices.get? i = some k ∧ k ≥ cols))) ↔
      ((∃ x, x ∈ triplets row_indices col_indices values nvals ∧ rows ≤ x.1) ∨
       (∃ x, x ∈ triplets row_indices col_indices values nvals ∧ cols ≤ x.2.1)) := by
    constructor
    · rintro ⟨i, hi, ⟨r, hr, hge⟩ | ⟨k, hk, hge⟩⟩
      · left
        have hm : r ∈ row_indices.take nvals.toNat :=
          (mem_take_iff_get? _ _ _).mpr ⟨i, by omega, hr⟩
        rw [← hfst, List.mem_map] at hm
        obtain ⟨x, hx, rfl⟩ := hm
        exact ⟨x, hx, hge⟩
      · right
        have hm : k ∈ col_indices.take nvals.toNat :=
          (mem_take_iff_get? _ _ _).mpr ⟨i, by omega, hk⟩
        rw [← hsnd, List.mem_map] at hm
        obtain ⟨x, hx, rfl⟩ := hm
        exact ⟨x, hx, hge⟩
    · rintro (⟨x, hx, hge⟩ | ⟨x, hx, hge⟩)
      · obtain ⟨i, hi, h⟩ := (mem_take_iff_get? _ _ _).mp (mem_triplets _ _ _ _ x hx).1
        exact ⟨i, by omega, Or.inl ⟨x.1, h, hge⟩⟩
      · obtain ⟨i, hi, h⟩ := (mem_take_iff_get? _ _ _).mp (mem_triplets _ _ _ _ x hx).2
        exact ⟨i, by omega, Or.inr ⟨x.2.1, h, hge⟩⟩
  by_cases hrow : ∃ x, x ∈ triplets row_indices col_indices values nvals ∧ rows ≤ x.1
  · refine ⟨_, _, build_mk2_row_oob rows cols nvals jr jc jv _ _ _ hrows hmax h0 hlr hlc hlv
      (fun x hx => hnn' x (List.takeWhile_subset _ hx)) hrow, ?_, ?_⟩
    · rw [hcond]; exact ⟨fun _ => Or.inl hrow, fun _ => rfl⟩
    · intro h; exact absurd rfl h
  · have hval : ∀ x, x ∈ triplets row_indices col_indices values nvals →
        0 ≤ x.1 ∧ x.1 < rows := by
      intro x hx
      refine ⟨hnn' x hx, ?_⟩
      by_contra hge
      exact hrow ⟨x, hx, by omega⟩
    by_cases hcol : ∃ x, x ∈ triplets row_indices col_indices values nvals ∧ cols ≤ x.2.1
    · refine ⟨_, _, build_mk2_col_oob rows cols nvals jr jc jv _ _ _ hrows hmax h0 hlr hlc hlv hval
        hcol, ?_, ?_⟩
      · rw [hcond]; exact ⟨fun _ => Or.inr hcol, fun _ => rfl⟩
      · intro h; exact absurd rfl h
    · have hc : ∀ x, x ∈ triplets row_indices col_indices values nvals → x.2.1 < cols := by
        intro x hx
        by_contra hge
        exact hcol ⟨x, hx, by omega⟩
      refine ⟨_, _, build_mk2_valid rows cols nvals jr jc jv _ _ _ hrows hmax h0 hlr hlc hlv hval
        hc, ?_, ?_⟩
      · rw [hcond]
        constructor
        · intro h; cases h
        · rintro (h | h)
          · exact absurd h hrow
          · exact absurd h hcol
      · intro _; rfl

theorem bounds_rejection_witness :
    ∃ info s1,
      build (mk2 2 2) ⟨some (fun _ => 0), some (fun _ => 0), some (fun _ => 0)⟩
        [1, 0, 5] [0, 3, 0] [(5 : Int), 6, 7] 2 = some (info, s1) ∧
      (info = .GrB_INDEX_OUT_OF_BOUNDS ↔
        ∃ i : Nat, (i : Int) < 2 ∧
          ((∃ r, ([1, 0, 5] : List Int).get? i = some r ∧ r ≥ 2) ∨
           (∃ k, ([0, 3, 0] : List Int).get? i = some k ∧ k ≥ 2))) ∧
      (info ≠ .GrB_INDEX_OUT_OF_BOUNDS → info = .GrB_SUCCESS) :=
  bounds_rejection 2 2 2 [1, 0, 5] [0, 3, 0] [5, 6, 7] (fun _ => 0) (fun _ => 0) (fun _ => 0)
    (by decide) (by decide) (by decide) (by decide) (by decide) (by decide) (by decide)

/-! ## What a successful `build` implies -/

theorem Window.cons {α : Type} {v : List α} {i : Nat} {x : α} {l : List α}
    (h0 : v.get? i = some x) (h : Window v (i + 1) l) : Window v i (x :: l) := by
  intro j hj
  cases j with
  | zero => simpa using h0
  | succ j =>
    have := h j (by simp at hj; omega)
    simpa [Nat.add_assoc, Nat.add_comm 1 j] using this

theorem write_len {α : Type} (p p1 : Ptr α) (i : Int) (v : α) (h : p.write i v = some p1) :
    p1.len = p.len ∧ ∃ n, p.len = some n ∧ 0 ≤ i ∧ i.toNat < n := by
  cases p with
  | null => simp [Ptr.write] at h
  | freed => simp [Ptr.write] at h
  | live cells =>
    simp only [Ptr.write] at h
    split at h
    · rename_i hc
      simp only [Option.some.injEq] at h
      subst h
      exact ⟨by simp [Ptr.len], cells.length, rfl, hc.1, hc.2⟩
    · simp at h

theorem zeroLoop_len (k : Nat) : ∀ (i : Nat) (p p1 : Ptr Int),
    zeroLoop k i p = some p1 → p1.len = p.len := by
  induction k with
  | zero => intro i p p1 h; simp only [zeroLoop, Option.some.injEq] at h; rw [h]
  | succ k ih =>
    intro i p p1 h
    simp only [zeroLoop] at h
    split at h
    · simp at h
    · rename_i p2 hw
      rw [ih _ _ _ h, (write_len _ _ _ _ hw).1]

theorem histLoop_len (nrows_ : Int) (v : List Int) (k : Nat) : ∀ (i : Nat) (p p1 : Ptr Int)
    (r : Option Info), histLoop nrows_ v k i p = some (r, p1) → p1.len = p.len := by
  induction k with
  | zero =>
    intro i p p1 r h
    simp only [histLoop, Option.some.injEq, Prod.mk.injEq] at h
    rw [h.2]
  | succ k ih =>
    intro i p p1 r h
    simp only [histLoop] at h
    split at h
    · simp at h
    · split at h
      · simp only [Option.some.injEq, Prod.mk.injEq] at h
        rw [h.2]
      · split at h
        · simp at h
        · split at h
          · simp at h
          · rename_i p2 hw
            rw [ih _ _ _ _ h, (write_len _ _ _ _ hw).1]

theorem cumsumLoop_len (k : Nat) : ∀ (i : Nat) (p p1 : Ptr Int) (c c1 : Int),
    cumsumLoop k i p c = some (p1, c1) → p1.len = p.len := by
  induction k with
  | zero =>
    intro i p p1 c c1 h
    simp only [cumsumLoop, Option.some.injEq, Prod.mk.injEq] at h
    rw [h.1]
  | succ k ih =>
    intro i p p1 c c1 h
    simp only [cumsumLoop] at h
    split at h
    · simp at h
    · split at h
      · simp at h
      · rename_i p2 hw
        rw [ih _ _ _ _ _ h, (write_len _ _ _ _ hw).1]

/-- A histogram pass that runs to its end has read `k` row indices, all in range. -/
theorem histLoop_inv (nrows_ : Int) (v : List Int) (k : Nat) :
    ∀ (i : Nat) (a : List Int) (p1 : Ptr Int),
    histLoop nrows_ v k i (.live a) = some (none, p1) →
    ∃ l : List Int, l.length = k ∧ Window v i l ∧
      ∀ x, x ∈ l → 0 ≤ x ∧ x < nrows_ ∧ x.toNat < a.length := by
  induction k with
  | zero =>
    intro i a p1 _
    exact ⟨[], rfl, fun j hj => by simp at hj, fun x hx => by simp at hx⟩
  | succ k ih =>
    intro i a p1 h
    simp only [histLoop] at h
    split at h
    · simp at h
    · rename_i row hrow
      split at h
      · simp at h
      · rename_i hlt
        split at h
        · simp at h
        · rename_i c hread
          split at h
          · simp at h
          · rename_i p2 hw
            obtain ⟨_, n, hn, h0, hlt2⟩ := write_len _ _ _ _ hw
            simp only [Ptr.len, Option.some.injEq] at hn
            simp only [Ptr.write, h0, hn ▸ hlt2, and_self, if_true, Option.some.injEq] at hw
            subst hw
            obtain ⟨l, hl, hwin, hval⟩ := ih _ _ _ h
            refine ⟨row :: l, by simp [hl], Window.cons hrow hwin, ?_⟩
            intro x hx
            rcases List.mem_cons.mp hx with rfl | hx
            · exact ⟨h0, by omega, by omega⟩
            · have := hval x hx
              simp only [List.length_set] at this
              exact this

theorem histLoop_info (nrows_ : Int) (v : List Int) (k : Nat) : ∀ (i : Nat) (p p1 : Ptr Int)
    (info : Info), histLoop nrows_ v k i p = some (some info, p1) →
    info = .GrB_INDEX_OUT_OF_BOUNDS := by
  induction k with
  | zero => intro i p p1 info h; simp [histLoop] at h
  | succ k ih =>
    intro i p p1 info h
    simp only [histLoop] at h
    split at h
    · simp at h
    · split at h
      · simp only [Option.some.injEq, Prod.mk.injEq] at h
        exact h.1.symm
      · split at h
        · simp at h
        · split at h
          · simp at h
          · exact ih _ _ _ _ h

theorem scatterLoop_info {T : Type} (ncols_ : Int) (v cols : List Int) (vals : List T)
    (k : Nat) : ∀ (i : Nat) (rp ci : Ptr Int) (cv : Ptr T) (rp1 ci1 : Ptr Int) (cv1 : Ptr T)
    (info : Info), scatterLoop ncols_ v cols vals k i rp ci cv = some (some info, rp1, ci1, cv1) →
    info = .GrB_INDEX_OUT_OF_BOUNDS := by
  induction k with
  | zero => intro i rp ci cv rp1 ci1 cv1 info h; simp [scatterLoop] at h
  | succ k ih =>
    intro i rp ci cv rp1 ci1 cv1 info h
    simp only [scatterLoop] at h
    split at h
    · simp at h
    · split at h
      · simp at h
      · split at h
        · simp at h
        · split at h
          · simp only [Option.some.injEq, Prod.mk.injEq] at h
            exact h.1.symm
          · split at h
            · simp at h
            · split at h
              · simp at h
              · split at h
                · simp at h
                · split at h
                  · simp at h
                  · exact ih _ _ _ _ _ _ _ _ h

/-- The histogram pass on a list of valid row indices leaves the per-row counts. -/
theorem histLoop_valid_rows (R : Nat) (rows : List Int) (l : List Int)
    (hw : Window rows 0 l) (hval : ∀ x, x ∈ l → 0 ≤ x ∧ x < (R : Int)) :
    histLoop (R : Int) rows l.length 0 (.live (arr (R + 1) (fun _ => 0))) =
      some (none, .live (arr (R + 1) (fun j => (cntRow Int.toNat l j : Int)))) := by
  have hall : l.all (fun x => decide (x < (R : Int))) = true := by
    simp only [List.all_eq_true, decide_eq_true_eq]
    exact fun x hx => (hval x hx).2
  have h := histLoop_arr (R : Int) rows (R + 1) (by push_cast; omega) l 0
    (fun _ => 0) hw (fun x hx => (hval x (List.takeWhile_subset _ hx)).1)
  rw [h, takeWhile_of_all _ _ hall, hall]
  simp only [if_true, zero_add]

/-- What `allocate` does to the dimensions, the count and `h_csrRowPtr`. -/
theorem allocate_rowPtr {T : Type} (rows cols nvals : Int) (ci0 rp0 : Ptr Int) (cv0 : Ptr T)
    (m : Malloc T) :
    (allocate (⟨rows, cols, nvals, ci0, rp0, cv0⟩ : SparseMatrix T) m).2.nrows_ = rows ∧
    (allocate (⟨rows, cols, nvals, ci0, rp0, cv0⟩ : SparseMatrix T) m).2.ncols_ = cols ∧
    (allocate (⟨rows, cols, nvals, ci0, rp0, cv0⟩ : SparseMatrix T) m).2.nvals_ = nvals ∧
    (allocate (⟨rows, cols, nvals, ci0, rp0, cv0⟩ : SparseMatrix T) m).2.h_csrRowPtr =
      if rows ≠ 0 ∧ rp0.isNull = true then malloc m.rowPtr (succInt rows) else rp0 := by
  simp only [allocate]
  by_cases h1 : rows ≠ 0 ∧ rp0.isNull = true <;>
    by_cases h2 : nvals ≠ 0 ∧ ci0.isNull = true <;>
    by_cases h3 : nvals ≠ 0 ∧ cv0.isNull = true <;>
    simp only [h1, h2, h3, if_true, if_false] <;>
    (repeat' split) <;> simp

theorem list_eq_arr (a : List Int) : a = arr a.length (fun j => a.getD j 0) := by
  apply List.ext_get?
  intro j
  by_cases hj : j < a.length
  · rw [arr_get? _ hj]
    simp [List.getD, List.get?_eq_getElem?, List.getElem?_eq_getElem hj]
  · rw [List.get?_eq_none.mpr (by omega), List.get?_eq_none.mpr (by rw [arr_length]; omega)]

/-- A scatter pass that runs to its end has advanced the cursor of each row by the number
of entries of that row. -/
theorem scatterLoop_rp {T : Type} (ncols_ : Int) (v cols : List Int) (vals : List T) (n : Nat) :
    ∀ (l : List Int) (i : Nat) (cur : Nat → Nat) (ci : Ptr Int) (cv : Ptr T)
      (rp1 ci1 : Ptr Int) (cv1 : Ptr T),
    Window v i l → (∀ x, x ∈ l → 0 ≤ x ∧ x.toNat < n) →
    scatterLoop ncols_ v cols vals l.length i (.live (arr n (fun r => (cur r : Int)))) ci cv
      = some (none, rp1, ci1, cv1) →
    rp1 = .live (arr n (fun r => (curs Int.toNat l cur r : Int))) := by
  intro l
  induction l with
  | nil =>
    intro i cur ci cv rp1 ci1 cv1 _ _ h
    simp only [List.length_nil, scatterLoop, Option.some.injEq, Prod.mk.injEq, true_and] at h
    rw [← h.1]
    rfl
  | cons x l ih =>
    intro i cur ci cv rp1 ci1 cv1 hw hval h
    obtain ⟨hx0, hxn⟩ := hval x (List.mem_cons_self _ _)
    simp only [List.length_cons, scatterLoop, hw.head,
      read_arr_int (fun r => (cur r : Int)) hx0 hxn] at h
    split at h
    · simp at h
    · split at h
      · simp at h
      · split at h
        · simp at h
        · split at h
          · simp at h
          · split at h
            · simp at h
            · simp only [write_arr_int (fun r => (cur r : Int)) _ hx0 hxn, cast_bump] at h
              exact ih _ _ _ _ _ _ _ hw.tail
                (fun y hy => hval y (List.mem_cons_of_mem _ hy)) h

/-! ## The row invariant -/

theorem rowInvariant_startOf {T : Type} (R N : Nat) (cols : Int) (c : Nat → Nat)
    (ci : Ptr Int) (cv : Ptr T) (hN : startOf c R = N) :
    RowInvariant (⟨(R : Int), cols, (N : Int), ci,
      .live (arr (R + 1) (fun j => (startOf c j : Int))), cv⟩ : SparseMatrix T) := by
  refine ⟨_, rfl, ?_, ?_, ?_, ?_⟩
  · simp [arr_length]
  · rw [arr_get? _ (by omega)]; rfl
  · simp only [Int.toNat_ofNat]
    rw [arr_get? _ (by omega), hN]
  · intro r x y hr hx hy
    simp only at hr
    rw [arr_get? _ (by omega)] at hx hy
    simp only [Option.some.injEq] at hx hy
    have := startOf_mono c (show r ≤ r + 1 by omega)
    omega

theorem malloc_len {α : Type} (r : Option (Nat → α)) (k : Int) (n : Nat)
    (h : (malloc r k).len = some n) : ∃ f, malloc r k = .live (arr k.toNat f) ∧ 0 ≤ k := by
  cases r with
  | none => simp [malloc, Ptr.len] at h
  | some f =>
    by_cases hk : k < 0
    · simp [malloc, hk, Ptr.len] at h
    · exact ⟨f, by simp [malloc, hk, arr], by omega⟩

/-- C3 (row invariant), as amended: when `build` is called with `nvals ≥ 0` on a store
whose `rowStart` array is unallocated or holds exactly `rows+1` entries, and returns
success, the store keeps its `rows`, records `nnz = nvals`, and `rowStart` has `rows+1`
entries, `rowStart[0] = 0`, `rowStart[rows] = nnz` and `rowStart[r] ≤ rowStart[r+1]` for
every `r` in `[0, rows)`. -/
theorem row_invariant_after_build {T : Type} (rows cols n0 nvals : Int)
    (ci0 rp0 : Ptr Int) (cv0 : Ptr T) (m : Malloc T)
    (row_indices col_indices : List Int) (values : List T) (s1 : SparseMatrix T)
    (h0 : 0 ≤ nvals)
    (hshape : rp0 = .null ∨ ∃ a : List Int, rp0 = .live a ∧ (a.length : Int) = rows + 1)
    (h : build ⟨rows, cols, n0, ci0, rp0, cv0⟩ m row_indices col_indices values nvals
      = some (.GrB_SUCCESS, s1)) :
    s1.nrows_ = rows ∧ s1.nvals_ = nvals ∧ RowInvariant s1 := by
  obtain ⟨a1, a2, a3, a4⟩ := allocate_rowPtr rows cols nvals ci0 rp0 cv0 m
  have hmax : rows < INT_MAX := by
    by_contra hge
    rw [build_overflow m row_indices col_indices values nvals rows cols n0 ci0 rp0 cv0
      (not_lt.mp hge)] at h
    simp at h
  rw [build_passes _ m row_indices col_indices values nvals rows cols n0 ci0 rp0 cv0 hmax rfl]
    at h
  rw [a1, a2, a3, a4] at h
  split at h
  · simp at h
  rename_i rpA hz
  split at h
  · simp at h
  · rename_i info rpB hh
    have := histLoop_info _ _ _ _ _ _ _ hh
    simp only [Option.some.injEq, Prod.mk.injEq] at h
    rw [this] at h
    exact absurd h.1 (by decide)
  rename_i rpB hh
  split at h
  · simp at h
  rename_i rpC cumC hc
  split at h
  · simp at h
  rename_i rpD hw
  split at h
  · simp at h
  · rename_i info rpE ciE cvE hs
    have := scatterLoop_info _ _ _ _ _ _ _ _ _ _ _ _ _ hs
    simp only [Option.some.injEq, Prod.mk.injEq] at h
    rw [this] at h
    exact absurd h.1 (by decide)
  rename_i rpE ciE cvE hs
  split at h
  · simp at h
  rename_i rpF cumF hr
  simp only [Option.some.injEq, Prod.mk.injEq, true_and] at h
  -- the store `h_csrRowPtr[nrows_] = nvals` succeeded, so the block exists
  obtain ⟨_, n, hn, hrows0, hlt⟩ := write_len _ _ _ _ hw
  rw [cumsumLoop_len _ _ _ _ _ _ hc, histLoop_len _ _ _ _ _ _ _ hh, zeroLoop_len _ _ _ _ hz] at hn
  -- and it has `rows + 1` cells
  rw [succInt_of_lt rows hmax] at hz hn
  have hblock : ∃ jr : Nat → Int,
      (if rows ≠ 0 ∧ rp0.isNull = true then malloc m.rowPtr (rows + 1) else rp0) =
        .live (arr (rows + 1).toNat jr) := by
    rcases hshape with e | ⟨a, e, ha⟩
    · subst e
      have hne : rows ≠ 0 := by
        intro e
        simp [e, Ptr.len, Ptr.isNull] at hn
      simp only [hne, ne_eq, not_false_eq_true, Ptr.isNull, and_self, if_true] at hn ⊢
      obtain ⟨jr, hjr, _⟩ := malloc_len _ _ _ hn
      exact ⟨jr, hjr⟩
    · subst e
      refine ⟨fun j => a.getD j 0, ?_⟩
      have e1 : (rows + 1).toNat = a.length := by omega
      simp only [Ptr.isNull, Bool.false_eq_true, and_false, if_false, e1]
      exact congrArg Ptr.live (list_eq_arr a)
  obtain ⟨jr, hjr⟩ := hblock
  rw [hjr] at hz
  obtain ⟨R, rfl⟩ := Int.eq_ofNat_of_zero_le hrows0
  obtain ⟨N, rfl⟩ := Int.eq_ofNat_of_zero_le h0
  simp only [toNat_cast_succ, Int.toNat_ofNat] at hz hh hc hs hr
  rw [zeroLoop_fresh] at hz
  simp only [Option.some.injEq] at hz
  subst hz
  obtain ⟨l, hl, hwin, hval⟩ := histLoop_inv _ _ _ _ _ _ hh
  subst hl
  have hval' : ∀ x, x ∈ l → 0 ≤ x ∧ x < (R : Int) := fun x hx =>
    ⟨(hval x hx).1, (hval x hx).2.1⟩
  rw [histLoop_valid_rows R row_indices l hwin hval'] at hh
  simp only [Option.some.injEq, Prod.mk.injEq, true_and] at hh
  subst hh
  obtain ⟨cum1, hcs⟩ := cumsumLoop_counts (cntRow Int.toNat l) R
  rw [hcs] at hc
  simp only [Option.some.injEq, Prod.mk.injEq] at hc
  obtain ⟨hc, _⟩ := hc
  subst hc
  have htot : startOf (cntRow Int.toNat l) R = l.length :=
    startOf_total Int.toNat l R (fun x hx => by have := hval' x hx; omega)
  rw [write_arr _ _ (by omega : R < R + 1)] at hw
  simp only [Option.some.injEq] at hw
  have hcur : arr (R + 1) (Function.update
      (fun j => if j < R then (startOf (cntRow Int.toNat l) j : Int)
        else (cntRow Int.toNat l j : Int)) R (l.length : Int)) =
      arr (R + 1) (fun j => ((startOf (cntRow Int.toNat l) j : Nat) : Int)) := by
    apply arr_congr
    intro j hj
    by_cases e : j = R
    · subst e; simp [Function.update, htot]
    · have : j < R := by omega
      simp [Function.update, e, this]
  rw [hcur] at hw
  subst hw
  have hrp := scatterLoop_rp cols row_indices col_indices values (R + 1) l 0
    (startOf (cntRow Int.toNat l)) _ _ _ _ _ hwin
    (fun x hx => by have := hval' x hx; omega) hs
  subst hrp
  obtain ⟨cum2, hrep⟩ := repairLoop_cursors (cntRow Int.toNat l) R
    (fun j => (curs Int.toNat l (startOf (cntRow Int.toNat l)) j : Int)) (by
      intro j _
      show ((curs Int.toNat l (startOf (cntRow Int.toNat l)) j : Nat) : Int) = _
      rw [curs_eq]
      simp [startOf])
  rw [hrep] at hr
  simp only [Option.some.injEq, Prod.mk.injEq] at hr
  obtain ⟨hr, _⟩ := hr
  subst hr
  subst h
  exact ⟨rfl, rfl, rowInvariant_startOf R l.length cols _ _ _ htot⟩

theorem scenario_built :
    build (⟨3, 3, 0, .null, .null, .null⟩ : SparseMatrix Int)
        ⟨some (fun _ => 0), some (fun _ => 0), some (fun _ => 0)⟩
        [0, 2, 0, 1] [0, 1, 2, 1] [1, 5, 2, 3] 4 =
      some (.GrB_SUCCESS,
        ⟨3, 3, 4, .live [0, 2, 1, 1], .live [0, 2, 3, 4], .live [1, 2, 3, 5]⟩) := rfl

theorem row_invariant_after_build_witness :
    (0 : Int) ≤ 4 ∧
    ((Ptr.null : Ptr Int) = .null ∨
      ∃ a : List Int, (Ptr.null : Ptr Int) = .live a ∧ (a.length : Int) = 3 + 1) ∧
    build (⟨3, 3, 0, .null, .null, .null⟩ : SparseMatrix Int)
        ⟨some (fun _ => 0), some (fun _ => 0), some (fun _ => 0)⟩
        [0, 2, 0, 1] [0, 1, 2, 1] [1, 5, 2, 3] 4 =
      some (.GrB_SUCCESS,
        ⟨3, 3, 4, .live [0, 2, 1, 1], .live [0, 2, 3, 4], .live [1, 2, 3, 5]⟩) ∧
    ((⟨3, 3, 4, .live [0, 2, 1, 1], .live [0, 2, 3, 4], .live [1, 2, 3, 5]⟩ :
        SparseMatrix Int).nrows_ = 3 ∧
      (⟨3, 3, 4, .live [0, 2, 1, 1], .live [0, 2, 3, 4], .live [1, 2, 3, 5]⟩ :
        SparseMatrix Int).nvals_ = 4 ∧
      RowInvariant (⟨3, 3, 4, .live [0, 2, 1, 1], .live [0, 2, 3, 4], .live [1, 2, 3, 5]⟩ :
        SparseMatrix Int)) :=
  ⟨by decide, Or.inl rfl, scenario_built,
    row_invariant_after_build 3 3 0 4 .null .null .null
      ⟨some (fun _ => 0), some (fun _ => 0), some (fun _ => 0)⟩
      [0, 2, 0, 1] [0, 1, 2, 1] [1, 5, 2, 3]
      ⟨3, 3, 4, .live [0, 2, 1, 1], .live [0, 2, 3, 4], .live [1, 2, 3, 5]⟩ (by decide)
      (Or.inl rfl) scenario_built⟩

/-- C3 as stated fails.  (a) With `nvals = -1` on a fresh 1×1 store no loop of `build`
runs, the repair pass overwrites the stored `h_csrRowPtr[nrows_] = nvals`, and `build`
returns success with `rowStart = [0, 0]` while `nnz = -1`.  (b) On the 3×3 store of the
concrete scenario resized to 1×1 by `nnew`, `allocate` keeps the old block and `build`
returns success with a `rowStart` of 4 entries for `rows = 1`. -/
theorem row_invariant_counterexample :
    (build (mk2 1 1 : SparseMatrix Int)
        ⟨some (fun _ => 0), some (fun _ => 0), some (fun _ => 0)⟩ [] [] [] (-1) =
      some (.GrB_SUCCESS, ⟨1, 1, -1, .null, .live [0, 0], .null⟩) ∧
     ¬ RowInvariant (⟨1, 1, -1, .null, .live [0, 0], .null⟩ : SparseMatrix Int)) ∧
    (build (nnew (⟨3, 3, 4, .live [0, 2, 1, 1], .live [0, 2, 3, 4], .live [1, 2, 3, 5]⟩ :
          SparseMatrix Int) 1 1).2
        ⟨some (fun _ => 0), some (fun _ => 0), some (fun _ => 0)⟩ [0] [0] [9] 1 =
      some (.GrB_SUCCESS, ⟨1, 1, 1, .live [0, 2, 1, 1], .live [0, 1, 3, 4], .live [9, 2, 3, 5]⟩) ∧
     ¬ RowInvariant (⟨1, 1, 1, .live [0, 2, 1, 1], .live [0, 1, 3, 4], .live [9, 2, 3, 5]⟩ :
        SparseMatrix Int)) := by
  refine ⟨⟨rfl, ?_⟩, ⟨rfl, ?_⟩⟩
  · rintro ⟨rp, h1, _, _, h4, _⟩
    simp only [Ptr.live.injEq] at h1
    subst h1
    simp at h4
  · rintro ⟨rp, h1, h2, _⟩
    simp only [Ptr.live.injEq] at h1
    subst h1
    simp at h2

/-! ## Accessors, construction and the masked overload -/

/-- C16 (accessors and construction). `nrows()`, `ncols()` and `nvals()` return success
on every store state and report the stored `nrows_`, `ncols_` and `nvals_`, whatever the
output argument held (they are `const`: the embedding hands back no store); the
default-constructed store reports `(0, 0, 0)` and the store constructed with `(r, c)`
reports `(r, c, 0)`, both with the three arrays unallocated. -/
theorem accessors_and_construction {T : Type} (s : SparseMatrix T) (out r c : Int) :
    s.nrows out = (.GrB_SUCCESS, s.nrows_) ∧
    s.ncols out = (.GrB_SUCCESS, s.ncols_) ∧
    s.nvals out = (.GrB_SUCCESS, s.nvals_) ∧
    (mk0 : SparseMatrix T).nrows out = (.GrB_SUCCESS, 0) ∧
    (mk0 : SparseMatrix T).ncols out = (.GrB_SUCCESS, 0) ∧
    (mk0 : SparseMatrix T).nvals out = (.GrB_SUCCESS, 0) ∧
    (mk0 : SparseMatrix T).h_csrRowPtr = .null ∧
    (mk0 : SparseMatrix T).h_csrColInd = .null ∧
    (mk0 : SparseMatrix T).h_csrVal = .null ∧
    (mk2 r c : SparseMatrix T).nrows out = (.GrB_SUCCESS, r) ∧
    (mk2 r c : SparseMatrix T).ncols out = (.GrB_SUCCESS, c) ∧
    (mk2 r c : SparseMatrix T).nvals out = (.GrB_SUCCESS, 0) ∧
    (mk2 r c : SparseMatrix T).h_csrRowPtr = .null ∧
    (mk2 r c : SparseMatrix T).h_csrColInd = .null ∧
    (mk2 r c : SparseMatrix T).h_csrVal = .null :=
  ⟨rfl, rfl, rfl, rfl, rfl, rfl, rfl, rfl, rfl, rfl, rfl, rfl, rfl, rfl, rfl⟩

/-- C19 (masked build), evaluated: the masked overload of `build` has an empty body in a
function that returns `Info`, so on every store state and every argument tuple (row
indices, column indices, values, `nvals`, mask, `dup` operator) the call runs off the end
of a value-returning function: undefined behaviour, after which neither a result code nor
a state of the store is defined. -/
theorem build_mask_dup_undefined {T BinaryOp : Type} (s mask : SparseMatrix T)
    (row_indices col_indices : List Int) (values : List T) (nvals : Int) (dup : BinaryOp) :
    build_mask_dup s row_indices col_indices values nvals mask dup = none :=
  rfl

/-! ## What every call keeps -/

theorem write_shape {α : Type} (p p1 : Ptr α) (i : Int) (v : α) (h : p.write i v = some p1) :
    p1.shape = p.shape := by
  cases p with
  | null => simp [Ptr.write] at h
  | freed => simp [Ptr.write] at h
  | live cells =>
    simp only [Ptr.write] at h
    split at h
    · simp only [Option.some.injEq] at h
      subst h
      simp [Ptr.shape]
    · simp at h

theorem zeroLoop_shape (k : Nat) : ∀ (i : Nat) (p p1 : Ptr Int),
    zeroLoop k i p = some p1 → p1.shape = p.shape := by
  induction k with
  | zero => intro i p p1 h; simp only [zeroLoop, Option.some.injEq] at h; rw [h]
  | succ k ih =>
    intro i p p1 h
    simp only [zeroLoop] at h
    split at h
    · simp at h
    · rename_i p2 hw
      rw [ih _ _ _ h, write_shape _ _ _ _ hw]

theorem histLoop_shape (nrows_ : Int) (v : List Int) (k : Nat) : ∀ (i : Nat) (p p1 : Ptr Int)
    (r : Option Info), histLoop nrows_ v k i p = some (r, p1) → p1.shape = p.shape := by
  induction k with
  | zero =>
    intro i p p1 r h
    simp only [histLoop, Option.some.injEq, Prod.mk.injEq] at h
    rw [h.2]
  | succ k ih =>
    intro i p p1 r h
    simp only [histLoop] at h
    split at h
    · simp at h
    · split at h
      · simp only [Option.some.injEq, Prod.mk.injEq] at h
        rw [h.2]
      · split at h
        · simp at h
        · split at h
          · simp at h
          · rename_i p2 hw
            rw [ih _ _ _ _ h, write_shape _ _ _ _ hw]

theorem cumsumLoop_shape (k : Nat) : ∀ (i : Nat) (p p1 : Ptr Int) (c c1 : Int),
    cumsumLoop k i p c = some (p1, c1) → p1.shape = p.shape := by
  induction k with
  | zero =>
    intro i p p1 c c1 h
    simp only [cumsumLoop, Option.some.injEq, Prod.mk.injEq] at h
    rw [h.1]
  | succ k ih =>
    intro i p p1 c c1 h
    simp only [cumsumLoop] at h
    split at h
    · simp at h
    · split at h
      · simp at h
      · rename_i p2 hw
        rw [ih _ _ _ _ _ h, write_shape _ _ _ _ hw]

theorem repairLoop_shape (k : Nat) : ∀ (i : Nat) (p p1 : Ptr Int) (c c1 : Int),
    repairLoop k i p c = some (p1, c1) → p1.shape = p.shape := by
  induction k with
  | zero =>
    intro i p p1 c c1 h
    simp only [repairLoop, Option.some.injEq, Prod.mk.injEq] at h
    rw [h.1]
  | succ k ih =>
    intro i p p1 c c1 h
    simp only [repairLoop] at h
    split at h
    · simp at h
    · split at h
      · simp at h
      · rename_i p2 hw
        rw [ih _ _ _ _ _ h, write_shape _ _ _ _ hw]

theorem scatterLoop_shape {T : Type} (ncols_ : Int) (v cols : List Int) (vals : List T)
    (k : Nat) : ∀ (i : Nat) (rp ci : Ptr Int) (cv : Ptr T) (rp1 ci1 : Ptr Int) (cv1 : Ptr T)
    (r : Option Info), scatterLoop ncols_ v cols vals k i rp ci cv = some (r, rp1, ci1, cv1) →
    rp1.shape = rp.shape ∧ ci1.shape = ci.shape ∧ cv1.shape = cv.shape := by
  induction k with
  | zero =>
    intro i rp ci cv rp1 ci1 cv1 r h
    simp only [scatterLoop, Option.some.injEq, Prod.mk.injEq] at h
    rw [h.2.1, h.2.2.1, h.2.2.2]
    exact ⟨rfl, rfl, rfl⟩
  | succ k ih =>
    intro i rp ci cv rp1 ci1 cv1 r h
    simp only [scatterLoop] at h
    split at h
    · simp at h
    · split at h
      · simp at h
      · split at h
        · simp at h
        · split at h
          · simp only [Option.some.injEq, Prod.mk.injEq] at h
            rw [h.2.1, h.2.2.1, h.2.2.2]
            exact ⟨rfl, rfl, rfl⟩
          · split at h
            · simp at h
            · rename_i ci2 hwc
              split at h
              · simp at h
              · split at h
                · simp at h
                · rename_i cv2 hwv
                  split at h
                  · simp at h
                  · rename_i rp2 hwr
                    obtain ⟨e1, e2, e3⟩ := ih _ _ _ _ _ _ _ _ h
                    rw [e1, e2, e3, write_shape _ _ _ _ hwr, write_shape _ _ _ _ hwc,
                      write_shape _ _ _ _ hwv]
                    exact ⟨rfl, rfl, rfl⟩

/-- The call `allocate` in one piece: the three pointers it leaves and its result code. -/
theorem allocate_eq {T : Type} (rows cols nvals : Int) (ci0 rp0 : Ptr Int) (cv0 : Ptr T)
    (m : Malloc T) :
    allocate (⟨rows, cols, nvals, ci0, rp0, cv0⟩ : SparseMatrix T) m =
      (if (if rows ≠ 0 ∧ rp0.isNull = true then malloc m.rowPtr (succInt rows) else rp0).isNull
          = true
          then .GrB_OUT_OF_MEMORY
        else if (if nvals ≠ 0 ∧ ci0.isNull = true then malloc m.colInd nvals else ci0).isNull
            = true then .GrB_OUT_OF_MEMORY
        else if (if nvals ≠ 0 ∧ cv0.isNull = true then malloc m.val nvals else cv0).isNull
            = true then .GrB_OUT_OF_MEMORY
        else .GrB_SUCCESS,
       ⟨rows, cols, nvals,
        if nvals ≠ 0 ∧ ci0.isNull = true then malloc m.colInd nvals else ci0,
        if rows ≠ 0 ∧ rp0.isNull = true then malloc m.rowPtr (succInt rows) else rp0,
        if nvals ≠ 0 ∧ cv0.isNull = true then malloc m.val nvals else cv0⟩) := by
  cases rp0 <;> cases ci0 <;> cases cv0 <;> by_cases hr : rows = 0 <;>
    by_cases hn : nvals = 0 <;> simp [allocate, Ptr.isNull, hr, hn] <;>
    (try (split_ifs <;> rfl))

/-- Every `build` that returns keeps `nrows_` and `ncols_`, records `nvals_ = nvals`, and
leaves each array with the kind and size `allocate` gave it; its result code is success
or `GrB_INDEX_OUT_OF_BOUNDS`. -/
theorem build_frame {T : Type} (rows cols n0 nvals : Int) (ci0 rp0 : Ptr Int) (cv0 : Ptr T)
    (m : Malloc T) (row_indices col_indices : List Int) (values : List T) (info : Info)
    (s1 : SparseMatrix T)
    (h : build ⟨rows, cols, n0, ci0, rp0, cv0⟩ m row_indices col_indices values nvals
      = some (info, s1)) :
    s1.nrows_ = rows ∧ s1.ncols_ = cols ∧ s1.nvals_ = nvals ∧
    s1.h_csrRowPtr.shape =
      (allocate (⟨rows, cols, nvals, ci0, rp0, cv0⟩ : SparseMatrix T) m).2.h_csrRowPtr.shape ∧
    s1.h_csrColInd.shape =
      (allocate (⟨rows, cols, nvals, ci0, rp0, cv0⟩ : SparseMatrix T) m).2.h_csrColInd.shape ∧
    s1.h_csrVal.shape =
      (allocate (⟨rows, cols, nvals, ci0, rp0, cv0⟩ : SparseMatrix T) m).2.h_csrVal.shape ∧
    (info = .GrB_SUCCESS ∨ info = .GrB_INDEX_OUT_OF_BOUNDS) := by
  obtain ⟨a1, a2, a3, _⟩ := allocate_rowPtr rows cols nvals ci0 rp0 cv0 m
  have hmax : rows < INT_MAX := by
    by_contra hge
    rw [build_overflow m row_indices col_indices values nvals rows cols n0 ci0 rp0 cv0
      (not_lt.mp hge)] at h
    simp at h
  rw [build_passes _ m row_indices col_indices values nvals rows cols n0 ci0 rp0 cv0 hmax rfl]
    at h
  generalize (allocate (⟨rows, cols, nvals, ci0, rp0, cv0⟩ : SparseMatrix T) m).2 = s0
    at h a1 a2 a3 ⊢
  split at h
  · simp at h
  rename_i rpA hz
  have eA := zeroLoop_shape _ _ _ _ hz
  split at h
  · simp at h
  · rename_i i1 rpB hh
    have eB := histLoop_shape _ _ _ _ _ _ _ hh
    have := histLoop_info _ _ _ _ _ _ _ hh
    simp only [Option.some.injEq, Prod.mk.injEq] at h
    obtain ⟨h1, h2⟩ := h
    subst h2
    exact ⟨a1, a2, a3, by rw [eB, eA], rfl, rfl, Or.inr (by rw [← h1, this])⟩
  rename_i rpB hh
  have eB := histLoop_shape _ _ _ _ _ _ _ hh
  split at h
  · simp at h
  rename_i rpC cumC hc
  have eC := cumsumLoop_shape _ _ _ _ _ _ hc
  split at h
  · simp at h
  rename_i rpD hw
  have eD := write_shape _ _ _ _ hw
  split at h
  · simp at h
  · rename_i i1 rpE ciE cvE hs
    obtain ⟨e1, e2, e3⟩ := scatterLoop_shape _ _ _ _ _ _ _ _ _ _ _ _ _ hs
    have := scatterLoop_info _ _ _ _ _ _ _ _ _ _ _ _ _ hs
    simp only [Option.some.injEq, Prod.mk.injEq] at h
    obtain ⟨h1, h2⟩ := h
    subst h2
    exact ⟨a1, a2, a3, by rw [e1, eD, eC, eB, eA], e2, e3, Or.inr (by rw [← h1, this])⟩
  rename_i rpE ciE cvE hs
  obtain ⟨e1, e2, e3⟩ := scatterLoop_shape _ _ _ _ _ _ _ _ _ _ _ _ _ hs
  split at h
  · simp at h
  rename_i rpF cumF hr
  have eF := repairLoop_shape _ _ _ _ _ _ hr
  simp only [Option.some.injEq, Prod.mk.injEq] at h
  obtain ⟨h1, h2⟩ := h
  subst h2
  exact ⟨a1, a2, a3, by rw [eF, e1, eD, eC, eB, eA], e2, e3, Or.inl h1.symm⟩

/-- C15 (failed build leaves `nnz` updated). After every `build` call that returns
`GrB_INDEX_OUT_OF_BOUNDS`, by a row or by a column violation, from any store state,
`nvals()` reports the `nvals` requested in that call, and `nrows()` and `ncols()` report
the dimensions the store had before the call. -/
theorem failed_build_keeps_count {T : Type} (s s1 : SparseMatrix T) (m : Malloc T)
    (row_indices col_indices : List Int) (values : List T) (nvals out : Int)
    (h : build s m row_indices col_indices values nvals
      = some (.GrB_INDEX_OUT_OF_BOUNDS, s1)) :
    s1.nvals out = (.GrB_SUCCESS, nvals) ∧
    s1.nrows out = (.GrB_SUCCESS, s.nrows_) ∧
    s1.ncols out = (.GrB_SUCCESS, s.ncols_) := by
  obtain ⟨r0, c0, n0, ci0, rp0, cv0⟩ := s
  obtain ⟨h1, h2, h3, _⟩ := build_frame r0 c0 n0 nvals ci0 rp0 cv0 m row_indices col_indices
    values _ s1 h
  simp only [SparseMatrix.nvals, SparseMatrix.nrows, SparseMatrix.ncols, h1, h2, h3, and_self]

theorem rejected_row_built :
    build (mk2 2 2 : SparseMatrix Int)
        ⟨some (fun _ => 0), some (fun _ => 0), some (fun _ => 0)⟩ [1, 5, 0] [0, 0, 7] [4, 5, 6] 3 =
      some (.GrB_INDEX_OUT_OF_BOUNDS,
        ⟨2, 2, 3, .live [0, 0, 0], .live [0, 1, 0], .live [0, 0, 0]⟩) := rfl

theorem failed_build_keeps_count_witness :
    build (mk2 2 2 : SparseMatrix Int)
        ⟨some (fun _ => 0), some (fun _ => 0), some (fun _ => 0)⟩ [1, 5, 0] [0, 0, 7] [4, 5, 6] 3 =
      some (.GrB_INDEX_OUT_OF_BOUNDS,
        ⟨2, 2, 3, .live [0, 0, 0], .live [0, 1, 0], .live [0, 0, 0]⟩) ∧
    ((⟨2, 2, 3, .live [0, 0, 0], .live [0, 1, 0], .live [0, 0, 0]⟩ : SparseMatrix Int).nvals 0
        = (.GrB_SUCCESS, 3) ∧
      (⟨2, 2, 3, .live [0, 0, 0], .live [0, 1, 0], .live [0, 0, 0]⟩ : SparseMatrix Int).nrows 0
        = (.GrB_SUCCESS, (mk2 2 2 : SparseMatrix Int).nrows_) ∧
      (⟨2, 2, 3, .live [0, 0, 0], .live [0, 1, 0], .live [0, 0, 0]⟩ : SparseMatrix Int).ncols 0
        = (.GrB_SUCCESS, (mk2 2 2 : SparseMatrix Int).ncols_)) :=
  ⟨rejected_row_built,
    failed_build_keeps_count (mk2 2 2)
      ⟨2, 2, 3, .live [0, 0, 0], .live [0, 1, 0], .live [0, 0, 0]⟩
      ⟨some (fun _ => 0), some (fun _ => 0), some (fun _ => 0)⟩ [1, 5, 0] [0, 0, 7] [4, 5, 6] 3 0
      rejected_row_built⟩

/-! ## `allocate` and `nnew` -/

/-- C12 (`allocate` result), evaluated: on a freshly constructed 3×3 store (`nnz = 0`)
with every `malloc` granted, `allocate` performs the one allocation it needs and still
returns `GrB_OUT_OF_MEMORY`, because its final tests find `h_csrColInd` null; with
`rows = 0` and `nnz = 4` it allocates both `nnz`-sized arrays and returns
`GrB_OUT_OF_MEMORY` because `h_csrRowPtr` is null.  No allocation returned null in either
call. -/
theorem allocate_reports_oom_without_failure (jr jc jv : Nat → Int) (cols : Int) :
    allocate (mk2 3 3 : SparseMatrix Int) ⟨some jr, some jc, some jv⟩ =
      (.GrB_OUT_OF_MEMORY, ⟨3, 3, 0, .null, .live (arr 4 jr), .null⟩) ∧
    allocate (⟨0, cols, 4, .null, .null, .null⟩ : SparseMatrix Int) ⟨some jr, some jc, some jv⟩ =
      (.GrB_OUT_OF_MEMORY, ⟨0, cols, 4, .live (arr 4 jc), .null, .live (arr 4 jv)⟩) := by
  constructor
  · rw [show (mk2 3 3 : SparseMatrix Int) = ⟨3, 3, 0, .null, .null, .null⟩ from rfl, allocate_eq,
      succInt_of_lt 3 (by decide)]
    simp [Ptr.isNull, malloc, arr]
  · rw [allocate_eq]
    simp [Ptr.isNull, malloc, arr]

/-- The result code of `allocate` is success exactly when none of the three members is
null after its allocation phase. -/
theorem allocate_success_iff {T : Type} (s : SparseMatrix T) (m : Malloc T) :
    (allocate s m).1 = .GrB_SUCCESS ↔
      ((allocate s m).2.h_csrRowPtr.isNull = false ∧
       (allocate s m).2.h_csrColInd.isNull = false ∧
       (allocate s m).2.h_csrVal.isNull = false) := by
  obtain ⟨r0, c0, n0, ci0, rp0, cv0⟩ := s
  rw [allocate_eq]
  simp only
  split_ifs with h1 h2 h3 <;> simp_all

theorem realloc_same {α : Type} (c : Prop) [Decidable c] (p q : Ptr α) :
    (if c ∧ (if c ∧ p.isNull = true then q else p).isNull = true then q
      else (if c ∧ p.isNull = true then q else p)) =
      (if c ∧ p.isNull = true then q else p) := by
  by_cases hc : c <;> by_cases hp : p.isNull = true <;> by_cases hq : q.isNull = true <;>
    simp [hc, hp, hq]

/-- A second `allocate` changes nothing once the first one returned success, whatever
`malloc` would answer then. -/
theorem allocate_after_success {T : Type} (s : SparseMatrix T) (m1 m2 : Malloc T)
    (h : (allocate s m1).1 = .GrB_SUCCESS) :
    allocate (allocate s m1).2 m2 = allocate s m1 := by
  have h2 := (allocate_success_iff s m1).mp h
  obtain ⟨r0, c0, n0, ci0, rp0, cv0⟩ := s
  rw [allocate_eq] at h h2 ⊢
  simp only at h h2 ⊢
  rw [allocate_eq]
  simp only [h2.1, h2.2.1, h2.2.2, Bool.false_eq_true, and_false, if_false]

theorem malloc_live_length {α : Type} (r : Option (Nat → α)) (n : Int) (a : List α)
    (h : malloc r n = .live a) : (a.length : Int) = n := by
  cases r with
  | none => simp [malloc] at h
  | some f =>
    by_cases hn : n < 0
    · simp [malloc, hn] at h
    · simp only [malloc, hn, if_false, Ptr.live.injEq] at h
      rw [← h]
      simp only [List.length_map, List.length_range]
      omega

theorem malloc_succ_live_length {α : Type} (r : Option (Nat → α)) (n : Int) (a : List α)
    (h : malloc r (succInt n) = .live a) : (a.length : Int) = n + 1 := by
  by_cases hn : n < INT_MAX
  · rw [succInt_of_lt n hn] at h
    exact malloc_live_length r (n + 1) a h
  · have e : succInt n = -2147483648 := by simp [succInt, hn]
    rw [e] at h
    cases r <;> simp [malloc] at h

/-- A request refused by the first `allocate` and granted in the second: on a fresh 2×2
store the second call allocates `rowStart`, so two calls leave another store than one;
on the store left by a `build` whose value block was refused (`colIndex` and `rowStart`
allocated, `nnz = 1`), the second call allocates `value` and returns success where the
first alone returned `GrB_OUT_OF_MEMORY`. -/
theorem allocate_twice_counterexample :
    allocate (mk2 2 2 : SparseMatrix Int) ⟨none, none, none⟩ =
      (.GrB_OUT_OF_MEMORY, ⟨2, 2, 0, .null, .null, .null⟩) ∧
    allocate (allocate (mk2 2 2 : SparseMatrix Int) ⟨none, none, none⟩).2
        ⟨some (fun _ => 0), none, none⟩ =
      (.GrB_OUT_OF_MEMORY, ⟨2, 2, 0, .null, .live [0, 0, 0], .null⟩) ∧
    build (mk2 2 2 : SparseMatrix Int) ⟨some (fun _ => 0), some (fun _ => 0), none⟩
        [5] [0] [1] 1 =
      some (.GrB_INDEX_OUT_OF_BOUNDS, ⟨2, 2, 1, .live [0], .live [0, 0, 0], .null⟩) ∧
    allocate (⟨2, 2, 1, .live [0], .live [0, 0, 0], .null⟩ : SparseMatrix Int)
        ⟨none, none, none⟩ =
      (.GrB_OUT_OF_MEMORY, ⟨2, 2, 1, .live [0], .live [0, 0, 0], .null⟩) ∧
    allocate (allocate (⟨2, 2, 1, .live [0], .live [0, 0, 0], .null⟩ : SparseMatrix Int)
        ⟨none, none, none⟩).2 ⟨none, none, some (fun _ => 0)⟩ =
      (.GrB_SUCCESS, ⟨2, 2, 1, .live [0], .live [0, 0, 0], .live [0]⟩) :=
  ⟨rfl, rfl, rfl, rfl, rfl⟩

/-- C13 (`allocate` is idempotent and incremental), as amended. Each array that is not
null is left as it is; each array that is null is replaced by what `malloc` returns for
`rows+1` cells, the sum taken in `int` arithmetic (rowStart, when `rows ≠ 0`), or for
`nnz` cells (colIndex and value, when `nnz ≠ 0`), and a block it obtains has exactly
`rows+1` or `nnz` cells; a second `allocate` returns the same result and store as the first
one alone whenever the allocator answers it as it answered the first, and, whatever the
allocator answers, whenever the first call returned success. -/
theorem allocate_incremental {T : Type} (rows cols nvals : Int) (ci0 rp0 : Ptr Int)
    (cv0 : Ptr T) (m m2 : Malloc T) :
    (allocate (⟨rows, cols, nvals, ci0, rp0, cv0⟩ : SparseMatrix T) m).2.h_csrRowPtr =
      (if rows ≠ 0 ∧ rp0.isNull = true then malloc m.rowPtr (succInt rows) else rp0) ∧
    (allocate (⟨rows, cols, nvals, ci0, rp0, cv0⟩ : SparseMatrix T) m).2.h_csrColInd =
      (if nvals ≠ 0 ∧ ci0.isNull = true then malloc m.colInd nvals else ci0) ∧
    (allocate (⟨rows, cols, nvals, ci0, rp0, cv0⟩ : SparseMatrix T) m).2.h_csrVal =
      (if nvals ≠ 0 ∧ cv0.isNull = true then malloc m.val nvals else cv0) ∧
    (∀ a : List Int, malloc m.rowPtr (succInt rows) = .live a → (a.length : Int) = rows + 1) ∧
    (∀ a : List Int, malloc m.colInd nvals = .live a → (a.length : Int) = nvals) ∧
    (∀ a : List T, malloc m.val nvals = .live a → (a.length : Int) = nvals) ∧
    allocate (allocate (⟨rows, cols, nvals, ci0, rp0, cv0⟩ : SparseMatrix T) m).2 m =
      allocate (⟨rows, cols, nvals, ci0, rp0, cv0⟩ : SparseMatrix T) m ∧
    ((allocate (⟨rows, cols, nvals, ci0, rp0, cv0⟩ : SparseMatrix T) m).1 = .GrB_SUCCESS →
      allocate (allocate (⟨rows, cols, nvals, ci0, rp0, cv0⟩ : SparseMatrix T) m).2 m2 =
        allocate (⟨rows, cols, nvals, ci0, rp0, cv0⟩ : SparseMatrix T) m) := by
  refine ⟨by rw [allocate_eq], by rw [allocate_eq], by rw [allocate_eq],
    fun a h => malloc_succ_live_length _ _ a h, fun a h => malloc_live_length _ _ a h,
    fun a h => malloc_live_length _ _ a h, ?_, ?_⟩
  · rw [allocate_eq, allocate_eq]
    simp only [realloc_same]
  · exact allocate_after_success _ m m2

/-- C14 (`nnew`), as amended: on every store state, with or without storage allocated,
`nnew(rows, cols)` records the dimensions and returns success; it leaves `nnz` and the
three arrays as they are. -/
theorem nnew_records_dimensions {T : Type} (s : SparseMatrix T) (rows cols : Int) :
    (nnew s rows cols).1 = .GrB_SUCCESS ∧
    (nnew s rows cols).2.nrows_ = rows ∧
    (nnew s rows cols).2.ncols_ = cols ∧
    (nnew s rows cols).2.nvals_ = s.nvals_ ∧
    (nnew s rows cols).2.h_csrRowPtr = s.h_csrRowPtr ∧
    (nnew s rows cols).2.h_csrColInd = s.h_csrColInd ∧
    (nnew s rows cols).2.h_csrVal = s.h_csrVal :=
  ⟨rfl, rfl, rfl, rfl, rfl, rfl, rfl⟩

/-- C14 as stated fails: on the 3×3 store of the concrete scenario, whose three arrays
are allocated, `nnew(1, 1)` returns success and records the new dimensions. -/
theorem nnew_not_guarded :
    nnew (⟨3, 3, 4, .live [0, 2, 1, 1], .live [0, 2, 3, 4], .live [1, 2, 3, 5]⟩ :
        SparseMatrix Int) 1 1 =
      (.GrB_SUCCESS, ⟨1, 1, 4, .live [0, 2, 1, 1], .live [0, 2, 3, 4], .live [1, 2, 3, 5]⟩) ∧
    (nnew (⟨3, 3, 4, .live [0, 2, 1, 1], .live [0, 2, 3, 4], .live [1, 2, 3, 5]⟩ :
        SparseMatrix Int) 1 1).2.nrows_ ≠
      (⟨3, 3, 4, .live [0, 2, 1, 1], .live [0, 2, 3, 4], .live [1, 2, 3, 5]⟩ :
        SparseMatrix Int).nrows_ :=
  ⟨rfl, by decide⟩

/-! ## The order of the two bounds checks -/

theorem cntRow_toNat_eq_count (l : List Int) (r : Nat) (h : ∀ x, x ∈ l → 0 ≤ x) :
    cntRow Int.toNat l r = l.count (r : Int) := by
  induction l with
  | nil => rfl
  | cons x l ih =>
    have hx := h x (List.mem_cons_self _ _)
    rw [cntRow_cons, ih (fun y hy => h y (List.mem_cons_of_mem _ hy)), List.count_cons]
    by_cases e : x.toNat = r
    · have : x = (r : Int) := by omega
      simp [e, this]; omega
    · have : ¬ x = (r : Int) := by omega
      simp [e, this]

/-- With `rows = INT_MAX` the row index `INT_MAX` is not below `rows`, but `build` does
not reach the row check: `allocate` obtains no `rowStart` block (the count `rows+1`
wraps), and the first loop of `build` has no normal exit. -/
theorem row_check_counterexample :
    allocate (⟨2147483647, 1, 1, .null, .null, .null⟩ : SparseMatrix Int)
        ⟨some (fun _ => 0), some (fun _ => 0), some (fun _ => 0)⟩ =
      (.GrB_OUT_OF_MEMORY, ⟨2147483647, 1, 1, .live [0], .null, .live [0]⟩) ∧
    build (mk2 2147483647 1 : SparseMatrix Int)
        ⟨some (fun _ => 0), some (fun _ => 0), some (fun _ => 0)⟩ [2147483647] [0] [7] 1 =
      none :=
  ⟨rfl, rfl⟩

/-- C17 (ordering of checks), as amended. On a fresh store with `1 ≤ rows < INT_MAX`,
granted allocations and `0 ≤ nvals` within the input lengths, whenever some row index
among the first `nvals` is not below `rows` and the row indices before the first such
one are non-negative, `build` returns `GrB_INDEX_OUT_OF_BOUNDS`, whatever the columns
are, without writing a `colIndex` or `value` slot (both are the blocks as `malloc` handed
them out), and `rowStart[r]` holds the number of triplets of row `r` before the first
offending one. -/
theorem row_check_first {T : Type} (rows cols nvals : Int)
    (row_indices col_indices : List Int) (values : List T)
    (jr jc : Nat → Int) (jv : Nat → T)
    (hrows : 1 ≤ rows) (hmax : rows < INT_MAX) (h0 : 0 ≤ nvals)
    (hlr : nvals ≤ row_indices.length) (hlc : nvals ≤ col_indices.length)
    (hlv : nvals ≤ values.length)
    (hnn : ∀ x, x ∈ (row_indices.take nvals.toNat).takeWhile (fun x => decide (x < rows)) →
      0 ≤ x)
    (hbad : ∃ x, x ∈ row_indices.take nvals.toNat ∧ rows ≤ x) :
    ∃ s1,
      build (mk2 rows cols) ⟨some jr, some jc, some jv⟩ row_indices col_indices values nvals
        = some (.GrB_INDEX_OUT_OF_BOUNDS, s1) ∧
      s1.h_csrColInd = malloc (some jc) nvals ∧
      s1.h_csrVal = malloc (some jv) nvals ∧
      ∀ r : Nat, (r : Int) < rows →
        s1.h_csrRowPtr.read (r : Int) =
          some ((((row_indices.take nvals.toNat).takeWhile
            (fun x => decide (x < rows))).count (r : Int) : Nat) : Int) := by
  have g1 : nvals.toNat ≤ row_indices.length := by omega
  have g2 : nvals.toNat ≤ col_indices.length := by omega
  have g3 : nvals.toNat ≤ values.length := by omega
  have e0 : ((nvals.toNat : Nat) : Int) = nvals := Int.toNat_of_nonneg h0
  have hfst := triplets_fst row_indices col_indices values nvals.toNat g1 g2 g3
  rw [e0] at hfst
  have htw : ((triplets row_indices col_indices values nvals).map (fun x => x.1)).takeWhile
      (fun x => decide (x < rows)) =
      ((triplets row_indices col_indices values nvals).takeWhile
        (fun x => decide (x.1 < rows))).map (fun x => x.1) := by
    rw [List.takeWhile_map]
    rfl
  have hnn' : ∀ x, x ∈ (triplets row_indices col_indices values nvals).takeWhile
      (fun x => decide (x.1 < rows)) → 0 ≤ x.1 := by
    intro x hx
    apply hnn x.1
    rw [← hfst, htw]
    exact List.mem_map_of_mem _ hx
  have hbad' : ∃ x, x ∈ triplets row_indices col_indices values nvals ∧ rows ≤ x.1 := by
    obtain ⟨x, hx, hge⟩ := hbad
    rw [← hfst, List.mem_map] at hx
    obtain ⟨y, hy, rfl⟩ := hx
    exact ⟨y, hy, hge⟩
  have hb := build_mk2_row_oob rows cols nvals jr jc jv _ _ _ hrows hmax h0 hlr hlc hlv hnn'
    hbad'
  have hneg : ¬ nvals < 0 := by omega
  refine ⟨_, hb, by simp [malloc, hneg, arr], by simp [malloc, hneg, arr], ?_⟩
  intro r hr
  have hr' : r < rows.toNat + 1 := by omega
  simp only
  rw [read_arr _ hr', ← cntRow_map_fst, ← htw, hfst, cntRow_toNat_eq_count]
  exact hnn

theorem row_check_first_witness :
    ∃ s1,
      build (mk2 2 2) ⟨some (fun _ => 0), some (fun _ => 0), some (fun _ => 0)⟩
        [0, 5, 1, -3] [9, 0, 0, 0] [(6 : Int), 7, 8, 9] 4 =
          some (.GrB_INDEX_OUT_OF_BOUNDS, s1) ∧
      s1.h_csrColInd = malloc (some (fun _ => 0)) 4 ∧
      s1.h_csrVal = malloc (some (fun _ => 0)) 4 ∧
      ∀ r : Nat, (r : Int) < 2 →
        s1.h_csrRowPtr.read (r : Int) =
          some ((((([0, 5, 1, -3] : List Int).take (4 : Int).toNat).takeWhile
            (fun x => decide (x < 2))).count (r : Int) : Nat) : Int) :=
  row_check_first 2 2 4 [0, 5, 1, -3] [9, 0, 0, 0] [6, 7, 8, 9] (fun _ => 0) (fun _ => 0)
    (fun _ => 0) (by decide) (by decide) (by decide) (by decide) (by decide) (by decide)
    (by decide) (by decide)

/-! ## In-place cursors against a separate cursor array -/

theorem build_separate_cursor_passes {T : Type} (s1 : SparseMatrix T) (m : Malloc T)
    (rows cols : List Int) (vals : List T) (nvals : Int) (r0 c0 n0 : Int)
    (ci0 rp0 : Ptr Int) (cv0 : Ptr T) (hmax : r0 < INT_MAX)
    (h : (allocate ⟨r0, c0, nvals, ci0, rp0, cv0⟩ m).2 = s1) :
    build_separate_cursor ⟨r0, c0, n0, ci0, rp0, cv0⟩ m rows cols vals nvals =
      match zeroLoop (s1.nrows_ + 1).toNat 0 s1.h_csrRowPtr with
      | none => none
      | some rp =>
      match histLoop s1.nrows_ rows s1.nvals_.toNat 0 rp with
      | none => none
      | some (some info, rp) => some (info, { s1 with h_csrRowPtr := rp })
      | some (none, rp) =>
      match cumsumLoop s1.nrows_.toNat 0 rp 0 with
      | none => none
      | some (rp, _) =>
      match rp.write s1.nrows_ nvals with
      | none => none
      | some rp =>
      match scatterLoop s1.ncols_ rows cols vals s1.nvals_.toNat 0 rp
          s1.h_csrColInd s1.h_csrVal with
      | none => none
      | some (some info, _, ci, cv) =>
        some (info, { s1 with h_csrRowPtr := rp, h_csrColInd := ci, h_csrVal := cv })
      | some (none, _, ci, cv) =>
        some (.GrB_SUCCESS, { s1 with h_csrRowPtr := rp, h_csrColInd := ci, h_csrVal := cv }) := by
  subst h
  have hn : ¬ INT_MAX ≤ (allocate ⟨r0, c0, nvals, ci0, rp0, cv0⟩ m).2.nrows_ := by
    rw [allocate_nrows]
    exact not_le.mpr hmax
  simp only [build_separate_cursor, if_neg hn]

theorem startOf_eq_sum (c : Nat → Nat) (r : Nat) :
    startOf c r = ((List.range r).map c).sum := by
  induction r with
  | zero => rfl
  | succ r ih => simp [startOf, ih, List.range_succ, List.sum_append]

/-- The separate-cursor variant on a fresh store, for a valid input: the same store as
`build` leaves. -/
theorem build_separate_cursor_mk2_valid {T : Type} (rows cols nvals : Int)
    (jr jc : Nat → Int) (jv : Nat → T)
    (ri ci : List Int) (vs : List T) (hrows : 1 ≤ rows) (hmax : rows < INT_MAX)
    (h0 : 0 ≤ nvals)
    (h1 : nvals ≤ ri.length) (h2 : nvals ≤ ci.length) (h3 : nvals ≤ vs.length)
    (hr : ∀ x, x ∈ triplets ri ci vs nvals → 0 ≤ x.1 ∧ x.1 < rows)
    (hc : ∀ x, x ∈ triplets ri ci vs nvals → x.2.1 < cols) :
    build_separate_cursor (mk2 rows cols) ⟨some jr, some jc, some jv⟩ ri ci vs nvals =
      some (.GrB_SUCCESS, builtStore rows cols nvals (triplets ri ci vs nvals)) := by
  obtain ⟨R, rfl⟩ := Int.eq_ofNat_of_zero_le (by omega : 0 ≤ rows)
  obtain ⟨N, rfl⟩ := Int.eq_ofNat_of_zero_le h0
  have g1 : N ≤ ri.length := by omega
  have g2 : N ≤ ci.length := by omega
  have g3 : N ≤ vs.length := by omega
  have hlen := triplets_length ri ci vs N g1 g2 g3
  have hw1 : Window ri 0 ((triplets ri ci vs (N : Int)).map (fun x => x.1)) := by
    rw [triplets_fst ri ci vs N g1 g2 g3]; exact window_take ri N
  have hw2 : Window ci 0 ((triplets ri ci vs (N : Int)).map (fun x => x.2.1)) := by
    rw [triplets_snd_fst ri ci vs N g1 g2 g3]; exact window_take ci N
  have hw3 : Window vs 0 ((triplets ri ci vs (N : Int)).map (fun x => x.2.2)) := by
    rw [triplets_snd_snd ri ci vs N g1 g2 g3]; exact window_take vs N
  have hvaln : ∀ x, x ∈ triplets ri ci vs (N : Int) → 0 ≤ x.1 ∧ x.1.toNat < R + 1 := by
    intro x hx
    have := hr x hx
    omega
  have hrowR : ∀ x, x ∈ triplets ri ci vs (N : Int) → rowOf x < R := by
    intro x hx
    have := hr x hx
    simp only [rowOf]
    omega
  have htot : startOf (cntRow rowOf (triplets ri ci vs (N : Int))) R = N := by
    rw [startOf_total rowOf _ R hrowR, hlen]
  have hh := histLoop_valid R ri (triplets ri ci vs (N : Int)) hw1 hr
  obtain ⟨cum1, hcs, hwr⟩ := rowStarts_ready R (triplets ri ci vs (N : Int)) hr
  rw [hlen] at hh hwr
  rw [show (mk2 (R : Int) cols : SparseMatrix T) = ⟨(R : Int), cols, 0, .null, .null, .null⟩
    from rfl, build_separate_cursor_passes _ _ ri ci vs _ _ _ 0 _ _ _ hmax
      (allocate_fresh R N (by omega) hmax cols jr jc jv)]
  by_cases hN : N = 0
  · subst hN
    simp only [toNat_cast_succ, Int.toNat_ofNat, zeroLoop_fresh, hh, hcs, hwr, if_true,
      scatterLoop, builtStore]
  · have hallc : (triplets ri ci vs (N : Int)).all (fun x => decide (x.2.1 < cols)) = true := by
      simp only [List.all_eq_true, decide_eq_true_eq]
      exact hc
    have hsc := scatterLoop_arr cols ri ci vs (R + 1) N (triplets ri ci vs (N : Int)) 0
      (startOf (cntRow rowOf (triplets ri ci vs (N : Int)))) jc jv hw1 hw2 hw3 hvaln (by
        intro r
        have := startOf_le_length rowOf (triplets ri ci vs (N : Int)) (r + 1)
        simp only [startOf] at this
        omega)
    rw [hlen, hallc, takeWhile_of_all _ _ hallc] at hsc
    have hci := scat_groupByRow rowOf (fun x : Int × Int × T => x.2.1) R
      (triplets ri ci vs (N : Int)) jc hrowR R (Nat.le_refl _)
    have hcv := scat_groupByRow rowOf (fun x : Int × Int × T => x.2.2) R
      (triplets ri ci vs (N : Int)) jv hrowR R (Nat.le_refl _)
    rw [htot] at hci hcv
    simp only [toNat_cast_succ, Int.toNat_ofNat, zeroLoop_fresh, hh, hcs, hwr, hN, if_false,
      hsc, if_true, hci, hcv, builtStore]

/-- The repair pass below the width limit: for a valid input on a fresh store with
`1 ≤ rows < INT_MAX` and granted allocations, the in-place `build` returns what the
separate-cursor variant returns, it succeeds, and its `rowStart[r]` is the exclusive
prefix sum of the per-row counts, for every `r` in `[0, rows]`. -/
theorem repair_restores_bounded {T : Type} (rows cols nvals : Int)
    (row_indices col_indices : List Int) (values : List T)
    (jr jc : Nat → Int) (jv : Nat → T)
    (hrows : 1 ≤ rows) (hmax : rows < INT_MAX) (h0 : 0 ≤ nvals)
    (hlr : nvals ≤ row_indices.length) (hlc : nvals ≤ col_indices.length)
    (hlv : nvals ≤ values.length)
    (hr : ∀ x, x ∈ row_indices.take nvals.toNat → 0 ≤ x ∧ x < rows)
    (hc : ∀ x, x ∈ col_indices.take nvals.toNat → 0 ≤ x ∧ x < cols) :
    build (mk2 rows cols) ⟨some jr, some jc, some jv⟩ row_indices col_indices values nvals =
      build_separate_cursor (mk2 rows cols) ⟨some jr, some jc, some jv⟩
        row_indices col_indices values nvals ∧
    ∃ s1,
      build (mk2 rows cols) ⟨some jr, some jc, some jv⟩ row_indices col_indices values nvals
        = some (.GrB_SUCCESS, s1) ∧
      ∀ r : Nat, (r : Int) ≤ rows →
        s1.h_csrRowPtr.read (r : Int) =
          some ((((List.range r).map (fun q : Nat =>
            ((triplets row_indices col_indices values nvals).filter
              (fun x => decide (x.1 = (q : Int)))).length)).sum : Nat) : Int) := by
  have hval : ∀ x, x ∈ triplets row_indices col_indices values nvals →
      0 ≤ x.1 ∧ x.1 < rows := fun x hx => hr x.1 (mem_triplets _ _ _ _ x hx).1
  have hcol : ∀ x, x ∈ triplets row_indices col_indices values nvals → x.2.1 < cols :=
    fun x hx => (hc x.2.1 (mem_triplets _ _ _ _ x hx).2).2
  have hb := build_mk2_valid rows cols nvals jr jc jv row_indices col_indices values hrows hmax h0
    hlr hlc hlv hval hcol
  have hs := build_separate_cursor_mk2_valid rows cols nvals jr jc jv row_indices col_indices
    values hrows hmax h0 hlr hlc hlv hval hcol
  refine ⟨by rw [hb, hs], _, hb, ?_⟩
  intro r hrR
  have hr' : r < rows.toNat + 1 := by omega
  simp only [builtStore]
  rw [read_arr _ hr', startOf_eq_sum]
  congr 3
  apply List.map_congr_left
  intro q _
  simp only [cntRow]
  rw [filter_row_cast _ q (fun x hx => (hval x hx).1)]

theorem build_separate_cursor_overflow {T : Type} (m : Malloc T) (rows cols : List Int)
    (vals : List T) (nvals : Int) (r0 c0 n0 : Int) (ci0 rp0 : Ptr Int) (cv0 : Ptr T)
    (hmax : INT_MAX ≤ r0) :
    build_separate_cursor ⟨r0, c0, n0, ci0, rp0, cv0⟩ m rows cols vals nvals = none := by
  have hn : INT_MAX ≤ (allocate ⟨r0, c0, nvals, ci0, rp0, cv0⟩ m).2.nrows_ := by
    rw [allocate_nrows]
    exact hmax
  simp only [build_separate_cursor, if_pos hn]

/-- C18 (corrupt/repair equivalence). For every valid input on a fresh store with
`rows ≥ 1` (`0 ≤ nvals` within the input lengths, first `nvals` indices in range,
allocations granted), the in-place `build`, which advances `h_csrRowPtr[row]` during the
scatter pass and repairs it afterwards, returns exactly what the separate-cursor variant
returns, the same result code and the same `rowStart`, `colIndex` and `value`; after
every successful `build` its `rowStart[r]` is the exclusive prefix sum of the per-row
counts, for every `r` in `[0, rows]`; and `build` does succeed whenever `rows < INT_MAX`. -/
theorem repair_restores_row_starts {T : Type} (rows cols nvals : Int)
    (row_indices col_indices : List Int) (values : List T)
    (jr jc : Nat → Int) (jv : Nat → T)
    (hrows : 1 ≤ rows) (h0 : 0 ≤ nvals)
    (hlr : nvals ≤ row_indices.length) (hlc : nvals ≤ col_indices.length)
    (hlv : nvals ≤ values.length)
    (hr : ∀ x, x ∈ row_indices.take nvals.toNat → 0 ≤ x ∧ x < rows)
    (hc : ∀ x, x ∈ col_indices.take nvals.toNat → 0 ≤ x ∧ x < cols) :
    build (mk2 rows cols) ⟨some jr, some jc, some jv⟩ row_indices col_indices values nvals =
      build_separate_cursor (mk2 rows cols) ⟨some jr, some jc, some jv⟩
        row_indices col_indices values nvals ∧
    (rows < INT_MAX → ∃ s1,
      build (mk2 rows cols) ⟨some jr, some jc, some jv⟩ row_indices col_indices values nvals
        = some (.GrB_SUCCESS, s1)) ∧
    ∀ s1,
      build (mk2 rows cols) ⟨some jr, some jc, some jv⟩ row_indices col_indices values nvals
        = some (.GrB_SUCCESS, s1) →
      ∀ r : Nat, (r : Int) ≤ rows →
        s1.h_csrRowPtr.read (r : Int) =
          some ((((List.range r).map (fun q : Nat =>
            ((triplets row_indices col_indices values nvals).filter
              (fun x => decide (x.1 = (q : Int)))).length)).sum : Nat) : Int) := by
  by_cases hmax : rows < INT_MAX
  · obtain ⟨he, s2, hb, hp⟩ := repair_restores_bounded rows cols nvals row_indices col_indices
      values jr jc jv hrows hmax h0 hlr hlc hlv hr hc
    refine ⟨he, fun _ => ⟨s2, hb⟩, ?_⟩
    intro s1 hs
    rw [hb] at hs
    simp only [Option.some.injEq, Prod.mk.injEq, true_and] at hs
    subst hs
    exact hp
  · have hn := build_overflow ⟨some jr, some jc, some jv⟩ row_indices col_indices values
      nvals rows cols 0 .null .null .null (not_lt.mp hmax)
    have hn2 := build_separate_cursor_overflow ⟨some jr, some jc, some jv⟩ row_indices
      col_indices values nvals rows cols 0 .null .null .null (not_lt.mp hmax)
    rw [show (mk2 rows cols : SparseMatrix T) = ⟨rows, cols, 0, .null, .null, .null⟩
      from rfl, hn, hn2]
    refine ⟨rfl, fun h => absurd h hmax, ?_⟩
    intro s1 hs
    simp at hs

theorem repair_restores_row_starts_witness :
    build (mk2 2 2) ⟨some (fun _ => 0), some (fun _ => 0), some (fun _ => 0)⟩
        [1, 0, 1] [0, 1, 0] [(5 : Int), 6, 7] 3 =
      build_separate_cursor (mk2 2 2) ⟨some (fun _ => 0), some (fun _ => 0), some (fun _ => 0)⟩
        [1, 0, 1] [0, 1, 0] [(5 : Int), 6, 7] 3 ∧
    ∃ s1,
      build (mk2 2 2) ⟨some (fun _ => 0), some (fun _ => 0), some (fun _ => 0)⟩
        [1, 0, 1] [0, 1, 0] [(5 : Int), 6, 7] 3 = some (.GrB_SUCCESS, s1) ∧
      ∀ r : Nat, (r : Int) ≤ 2 →
        s1.h_csrRowPtr.read (r : Int) =
          some ((((List.range r).map (fun q : Nat =>
            ((triplets [1, 0, 1] [0, 1, 0] [(5 : Int), 6, 7] 3).filter
              (fun x => decide (x.1 = (q : Int)))).length)).sum : Nat) : Int) :=
  (fun h => ⟨h.1, (h.2.1 (by decide)).elim (fun s1 hs => ⟨s1, hs, h.2.2 s1 hs⟩)⟩)
    (repair_restores_row_starts 2 2 3 [1, 0, 1] [0, 1, 0] [5, 6, 7] (fun _ => 0) (fun _ => 0)
      (fun _ => 0) (by decide) (by decide) (by decide) (by decide) (by decide) (by decide)
      (by decide))

/-! ## Every access stays inside its block -/

theorem read_in_block {α : Type} (p : Ptr α) (i : Int) (x : α) (h : p.read i = some x) :
    ∃ cells, p = .live cells ∧ 0 ≤ i ∧ i.toNat < cells.length := by
  cases p with
  | null => simp [Ptr.read] at h
  | freed => simp [Ptr.read] at h
  | live cells =>
    simp only [Ptr.read] at h
    split at h
    · rename_i h0
      refine ⟨cells, rfl, h0, ?_⟩
      by_contra hge
      rw [List.get?_eq_none.mpr (by omega)] at h
      simp at h
    · simp at h

theorem startOf_zero (r : Nat) : startOf (fun _ => 0) r = 0 := by
  induction r with
  | zero => rfl
  | succ r ih => simp [startOf, ih]

theorem malloc_negative {α : Type} (r : Option (Nat → α)) (n : Int) (h : n < 0) :
    malloc r n = .null := by
  cases r <;> simp [malloc, h]

/-- `build` on a fresh store with a negative `nvals`: no loop over the input runs, and
the repair pass leaves `rowStart` all zero. -/
theorem build_mk2_negative {T : Type} (rows cols nvals : Int) (jr jc : Nat → Int) (jv : Nat → T)
    (ri ci : List Int) (vs : List T) (hrows : 1 ≤ rows) (hmax : rows < INT_MAX)
    (hneg : nvals < 0) :
    build (mk2 rows cols) ⟨some jr, some jc, some jv⟩ ri ci vs nvals =
      some (.GrB_SUCCESS,
        ⟨rows, cols, nvals, .null, .live (arr (rows.toNat + 1) (fun _ => 0)), .null⟩) := by
  obtain ⟨R, rfl⟩ := Int.eq_ofNat_of_zero_le (by omega : 0 ≤ rows)
  have hR0 : (R : Int) ≠ 0 := by omega
  have hn0 : nvals ≠ 0 := by omega
  have hN : nvals.toNat = 0 := by omega
  have halloc : (allocate (⟨(R : Int), cols, nvals, .null, .null, .null⟩ : SparseMatrix T)
      ⟨some jr, some jc, some jv⟩).2 =
      ⟨(R : Int), cols, nvals, .null, .live (arr (R + 1) jr), .null⟩ := by
    rw [allocate_eq, succInt_of_lt _ hmax]
    simp [Ptr.isNull, hR0, hn0, malloc_cast_succ, malloc_negative _ _ hneg]
  obtain ⟨cum1, hcs⟩ := cumsumLoop_counts (fun _ => 0) R
  simp only [Nat.cast_zero, startOf_zero, ite_self] at hcs
  obtain ⟨cum2, hrep⟩ := repairLoop_arr (R + 1) (R + 1) 0
    (Function.update (fun _ => (0 : Int)) R nvals) 0 (by omega)
  have hz : arr (R + 1) (fun j => if j = 0 ∧ 0 < R + 1 then (0 : Int)
        else if 0 < j ∧ j < 0 + (R + 1) then Function.update (fun _ => (0 : Int)) R nvals (j - 1)
        else Function.update (fun _ => (0 : Int)) R nvals j) = arr (R + 1) (fun _ => 0) := by
    apply arr_congr
    intro j hj
    by_cases e : j = 0
    · simp [e]
    · have h1 : 0 < j ∧ j < 0 + (R + 1) := by omega
      have h2 : j - 1 ≠ R := by omega
      rw [if_neg (by omega), if_pos h1]
      simp [Function.update, h2]
  rw [hz] at hrep
  rw [show (mk2 (R : Int) cols : SparseMatrix T) = ⟨(R : Int), cols, 0, .null, .null, .null⟩
    from rfl, build_passes _ _ ri ci vs _ _ _ 0 _ _ _ hmax halloc]
  simp only [toNat_cast_succ, Int.toNat_ofNat, hN, zeroLoop_fresh, histLoop, hcs,
    write_arr _ _ (by omega : R < R + 1), scatterLoop, hrep]

/-- On a fresh store with `rows = INT_MAX`, for the valid input `(0, 0, 7)`: `allocate`
leaves `rowStart` unallocated, the first access of `build`, the store `h_csrRowPtr[0] = 0`,
goes through the null pointer, and `build` does not run to its end. -/
theorem accesses_counterexample :
    (allocate (⟨2147483647, 1, 1, .null, .null, .null⟩ : SparseMatrix Int)
        ⟨some (fun _ => 0), some (fun _ => 0), some (fun _ => 0)⟩).2.h_csrRowPtr = .null ∧
    (Ptr.null : Ptr Int).write 0 0 = none ∧
    build (mk2 2147483647 1 : SparseMatrix Int)
        ⟨some (fun _ => 0), some (fun _ => 0), some (fun _ => 0)⟩ [0] [0] [7] 1 = none :=
  ⟨rfl, rfl, rfl⟩

/-- C20 (in-bounds access), as amended. On a fresh store with `1 ≤ rows < INT_MAX`, for
inputs of length at least `nvals` whose first `nvals` rows lie in `[0, rows)` and columns
in `[0, cols)`, with the allocations granted: `allocate` provides `rowStart` with exactly
`rows+1` cells and `colIndex`, `value` with exactly `nvals` cells (none when `nvals ≤ 0`),
and `build` and the following `extractTuples` run to their end.  A read or write of the
embedding yields `none` as soon as its index leaves `[0, cells)` of the block it
addresses, so every `rowStart` index is in `[0, rows]` and every scatter destination and
extraction slot in `[0, nvals)`. -/
theorem accesses_in_bounds {T : Type} (rows cols nvals : Int)
    (row_indices col_indices : List Int) (values : List T)
    (jr jc : Nat → Int) (jv : Nat → T) (a b : List Int) (c : List T)
    (hrows : 1 ≤ rows) (hmax : rows < INT_MAX)
    (hlr : nvals ≤ row_indices.length) (hlc : nvals ≤ col_indices.length)
    (hlv : nvals ≤ values.length)
    (hr : ∀ x, x ∈ row_indices.take nvals.toNat → 0 ≤ x ∧ x < rows)
    (hc : ∀ x, x ∈ col_indices.take nvals.toNat → 0 ≤ x ∧ x < cols) :
    (∃ rp0 : List Int,
      (allocate { (mk2 rows cols : SparseMatrix T) with nvals_ := nvals }
        ⟨some jr, some jc, some jv⟩).2.h_csrRowPtr = .live rp0 ∧
      (rp0.length : Int) = rows + 1) ∧
    (∃ ci0 : List Int,
      (allocate { (mk2 rows cols : SparseMatrix T) with nvals_ := nvals }
        ⟨some jr, some jc, some jv⟩).2.h_csrColInd.HasCells ci0 ∧
      ci0.length = nvals.toNat) ∧
    (∃ cv0 : List T,
      (allocate { (mk2 rows cols : SparseMatrix T) with nvals_ := nvals }
        ⟨some jr, some jc, some jv⟩).2.h_csrVal.HasCells cv0 ∧
      cv0.length = nvals.toNat) ∧
    ∃ s1 out,
      build (mk2 rows cols) ⟨some jr, some jc, some jv⟩ row_indices col_indices values nvals
        = some (.GrB_SUCCESS, s1) ∧
      extractTuples s1 a b c = some (.GrB_SUCCESS, out) := by
  have hR0 : rows ≠ 0 := by omega
  have hshape : (allocate { (mk2 rows cols : SparseMatrix T) with nvals_ := nvals }
        ⟨some jr, some jc, some jv⟩) =
      allocate (⟨rows, cols, nvals, .null, .null, .null⟩ : SparseMatrix T)
        ⟨some jr, some jc, some jv⟩ := rfl
  rw [hshape, allocate_eq, succInt_of_lt rows hmax]
  simp only [Ptr.isNull, hR0, ne_eq, not_false_eq_true, and_self, and_true, if_true]
  refine ⟨?_, ?_, ?_, ?_⟩
  · have h1 : ¬ rows + 1 < 0 := by omega
    refine ⟨arr (rows + 1).toNat jr, by simp [malloc, h1, arr], ?_⟩
    rw [arr_length]; omega
  · by_cases hn : nvals = 0
    · exact ⟨[], Or.inr ⟨by simp [hn], rfl⟩, by simp [hn]⟩
    · by_cases hneg : nvals < 0
      · exact ⟨[], Or.inr ⟨by simp [hn, malloc_negative _ _ hneg], rfl⟩, by simp; omega⟩
      · exact ⟨arr nvals.toNat jc, Or.inl (by simp [hn, malloc, hneg, arr]), arr_length _ _⟩
  · by_cases hn : nvals = 0
    · exact ⟨[], Or.inr ⟨by simp [hn], rfl⟩, by simp [hn]⟩
    · by_cases hneg : nvals < 0
      · exact ⟨[], Or.inr ⟨by simp [hn, malloc_negative _ _ hneg], rfl⟩, by simp; omega⟩
      · exact ⟨arr nvals.toNat jv, Or.inl (by simp [hn, malloc, hneg, arr]), arr_length _ _⟩
  · by_cases hneg : nvals < 0
    · refine ⟨_, (rowRuns (fun _ => 0) 0 rows.toNat, [], []),
        build_mk2_negative rows cols nvals jr jc jv _ _ _ hrows hmax hneg, ?_⟩
      exact extractTuples_ok _ (rows.toNat + 1) rows.toNat (fun _ => 0) [] []
        (by simp only; omega) rfl (by omega) rfl (fun _ _ => Nat.le_refl _) rfl rfl
        (fun p hp => by simp at hp) (fun p hp => by simp at hp) a b c
    · have h0 : 0 ≤ nvals := by omega
      have hval : ∀ x, x ∈ triplets row_indices col_indices values nvals →
          0 ≤ x.1 ∧ x.1 < rows := fun x hx => hr x.1 (mem_triplets _ _ _ _ x hx).1
      have hcol : ∀ x, x ∈ triplets row_indices col_indices values nvals → x.2.1 < cols :=
        fun x hx => (hc x.2.1 (mem_triplets _ _ _ _ x hx).2).2
      have hlen : ((triplets row_indices col_indices values nvals).length : Int) = nvals := by
        have := triplets_length row_indices col_indices values nvals.toNat (by omega)
          (by omega) (by omega)
        rw [Int.toNat_of_nonneg h0] at this
        omega
      exact ⟨_, _,
        build_mk2_valid rows cols nvals jr jc jv _ _ _ hrows hmax h0 hlr hlc hlv hval hcol,
        extract_builtStore rows cols nvals _ (by omega) h0 hlen hval a b c⟩

theorem accesses_in_bounds_witness :
    (∃ rp0 : List Int,
      (allocate { (mk2 2 2 : SparseMatrix Int) with nvals_ := 3 }
        ⟨some (fun _ => 0), some (fun _ => 0), some (fun _ => 0)⟩).2.h_csrRowPtr = .live rp0 ∧
      (rp0.length : Int) = 2 + 1) ∧
    (∃ ci0 : List Int,
      (allocate { (mk2 2 2 : SparseMatrix Int) with nvals_ := 3 }
        ⟨some (fun _ => 0), some (fun _ => 0), some (fun _ => 0)⟩).2.h_csrColInd.HasCells ci0 ∧
      ci0.length = (3 : Int).toNat) ∧
    (∃ cv0 : List Int,
      (allocate { (mk2 2 2 : SparseMatrix Int) with nvals_ := 3 }
        ⟨some (fun _ => 0), some (fun _ => 0), some (fun _ => 0)⟩).2.h_csrVal.HasCells cv0 ∧
      cv0.length = (3 : Int).toNat) ∧
    ∃ s1 out,
      build (mk2 2 2) ⟨some (fun _ => 0), some (fun _ => 0), some (fun _ => 0)⟩
        [1, 0, 1, 9] [0, 1, 0, 9] [(5 : Int), 6, 7, 8] 3 = some (.GrB_SUCCESS, s1) ∧
      extractTuples s1 [] [] [] = some (.GrB_SUCCESS, out) :=
  accesses_in_bounds 2 2 3 [1, 0, 1, 9] [0, 1, 0, 9] [5, 6, 7, 8] (fun _ => 0) (fun _ => 0)
    (fun _ => 0) [] [] [] (by decide) (by decide) (by decide) (by decide) (by decide)
    (by decide) (by decide)

/-! ## Sequences of public calls and the shape of the storage -/

theorem isNull_iff {α : Type} (p : Ptr α) : p.isNull = true ↔ p = .null := by
  cases p <;> simp [Ptr.isNull]

theorem arrayShaped_of_shape {α : Type} (p p1 : Ptr α) (n : Int) (h : p1.shape = p.shape)
    (hp : ArrayShaped p n) : ArrayShaped p1 n := by
  rcases hp with rfl | ⟨a, rfl, ha⟩
  · cases p1 <;> simp [Ptr.shape] at h
    exact Or.inl rfl
  · cases p1 with
    | null => exact Or.inl rfl
    | freed => simp [Ptr.shape] at h
    | live b =>
      simp only [Ptr.shape, Ptr.live.injEq] at h
      have := congrArg List.length h
      simp only [List.length_replicate] at this
      exact Or.inr ⟨b, rfl, by omega⟩

theorem arrayShaped_malloc {α : Type} (r : Option (Nat → α)) (n : Int) :
    ArrayShaped (malloc r n) n := by
  cases r with
  | none => exact Or.inl rfl
  | some f =>
    by_cases h : n < 0
    · exact Or.inl (malloc_negative _ _ h)
    · refine Or.inr ⟨arr n.toNat f, by simp [malloc, h, arr], ?_⟩
      rw [arr_length]; omega

theorem arrayShaped_malloc_succ {α : Type} (r : Option (Nat → α)) (n : Int) :
    ArrayShaped (malloc r (succInt n)) (n + 1) := by
  by_cases h : n < INT_MAX
  · rw [succInt_of_lt n h]
    exact arrayShaped_malloc r (n + 1)
  · refine Or.inl (malloc_negative _ _ ?_)
    simp [succInt, h]

theorem arrayShaped_alloc_succ {α : Type} (c : Prop) [Decidable c] (p : Ptr α)
    (r : Option (Nat → α)) (n : Int) (hp : ArrayShaped p (n + 1)) :
    ArrayShaped (if c ∧ p.isNull = true then malloc r (succInt n) else p) (n + 1) := by
  split
  · exact arrayShaped_malloc_succ r n
  · exact hp

theorem arrayShaped_alloc {α : Type} (c : Prop) [Decidable c] (p : Ptr α)
    (r : Option (Nat → α)) (n : Int) (hp : ArrayShaped p n) :
    ArrayShaped (if c ∧ p.isNull = true then malloc r n else p) n := by
  split
  · exact arrayShaped_malloc r n
  · exact hp

/-- One admissible call keeps each array unallocated or of its exact size. -/
theorem eachShaped_step {T : Type} (s s1 : SparseMatrix T) (c : Call T)
    (hs : EachShaped s) (hadm : c.admissible s = true) (hrun : c.run s = some s1) :
    EachShaped s1 := by
  obtain ⟨r0, c0, n0, ci0, rp0, cv0⟩ := s
  obtain ⟨h1, h2, h3⟩ := hs
  simp only at h1 h2 h3
  cases c with
  | nnew nrows ncols =>
    simp only [Call.run, nnew, Option.some.injEq] at hrun
    subst hrun
    simp only [Call.admissible, Bool.or_eq_true, decide_eq_true_eq, isNull_iff] at hadm
    refine ⟨?_, h2, h3⟩
    rcases hadm with e | e
    · exact Or.inl e
    · simp only; rw [e]; exact h1
  | allocate m =>
    simp only [Call.run, Option.some.injEq] at hrun
    subst hrun
    rw [allocate_eq]
    exact ⟨arrayShaped_alloc_succ _ _ _ _ h1, arrayShaped_alloc _ _ _ _ h2,
      arrayShaped_alloc _ _ _ _ h3⟩
  | build m ri ci vs nvals =>
    simp only [Call.run] at hrun
    split at hrun
    · simp at hrun
    · rename_i r hb
      simp only [Option.some.injEq] at hrun
      subst hrun
      obtain ⟨info, s2⟩ := r
      obtain ⟨e1, e2, e3, e4, e5, e6, _⟩ := build_frame r0 c0 n0 nvals ci0 rp0 cv0 m ri ci vs
        info s2 hb
      rw [allocate_eq] at e4 e5 e6
      simp only at e4 e5 e6
      simp only [Call.admissible, Bool.and_eq_true, Bool.or_eq_true, decide_eq_true_eq,
        isNull_iff] at hadm
      have g2 : ArrayShaped ci0 nvals := by
        rcases hadm.1 with e | e
        · exact Or.inl e
        · rw [e]; exact h2
      have g3 : ArrayShaped cv0 nvals := by
        rcases hadm.2 with e | e
        · exact Or.inl e
        · rw [e]; exact h3
      refine ⟨?_, ?_, ?_⟩
      · simp only [e1]
        exact arrayShaped_of_shape _ _ _ e4 (arrayShaped_alloc_succ _ _ _ _ h1)
      · simp only [e3]
        exact arrayShaped_of_shape _ _ _ e5 (arrayShaped_alloc _ _ _ _ g2)
      · simp only [e3]
        exact arrayShaped_of_shape _ _ _ e6 (arrayShaped_alloc _ _ _ _ g3)
  | clear => simp [Call.admissible] at hadm

theorem eachShaped_run {T : Type} (calls : List (Call T)) :
    ∀ (s s1 : SparseMatrix T), EachShaped s → admissibleRun s calls = true →
    runCalls s calls = some s1 → EachShaped s1 := by
  induction calls with
  | nil =>
    intro s s1 hs _ hrun
    simp only [runCalls, Option.some.injEq] at hrun
    rw [← hrun]; exact hs
  | cons c cs ih =>
    intro s s1 hs hadm hrun
    simp only [runCalls] at hrun
    simp only [admissibleRun, Bool.and_eq_true] at hadm
    split at hrun
    · simp at hrun
    · rename_i s2 hc
      rw [hc] at hadm
      exact ih s2 s1 (eachShaped_step s s2 c hs hadm.1 hc) hadm.2 hrun

/-- Runs from the constructor `SparseMatrix(3,3)` (and `SparseMatrix(2,2)`) after which
the arrays are neither all unallocated nor all of sizes `rows+1`, `nnz`, `nnz`:
a successful `build` followed by `nnew(1,1)` leaves `rowStart` with 4 cells for
`rows = 1`; followed by a `build` of one triplet it leaves `colIndex` and `value` with 4
cells for `nnz = 1`; followed by `clear` it leaves three freed, non-null pointers; and a
`build` whose value block is refused and whose first row is out of range leaves
`rowStart` and `colIndex` allocated and `value` unallocated with `nnz = 1`. -/
theorem storage_shape_counterexample :
    (runCalls (mk2 3 3 : SparseMatrix Int)
        [.build ⟨some (fun _ => 0), some (fun _ => 0), some (fun _ => 0)⟩
          [0, 2, 0, 1] [0, 1, 2, 1] [1, 5, 2, 3] 4, .nnew 1 1] =
        some ⟨1, 1, 4, .live [0, 2, 1, 1], .live [0, 2, 3, 4], .live [1, 2, 3, 5]⟩ ∧
      ¬ StorageShape
        (⟨1, 1, 4, .live [0, 2, 1, 1], .live [0, 2, 3, 4], .live [1, 2, 3, 5]⟩ :
          SparseMatrix Int)) ∧
    (runCalls (mk2 3 3 : SparseMatrix Int)
        [.build ⟨some (fun _ => 0), some (fun _ => 0), some (fun _ => 0)⟩
          [0, 2, 0, 1] [0, 1, 2, 1] [1, 5, 2, 3] 4,
         .build ⟨some (fun _ => 0), some (fun _ => 0), some (fun _ => 0)⟩ [1] [2] [9] 1] =
        some ⟨3, 3, 1, .live [2, 2, 1, 1], .live [0, 0, 1, 1], .live [9, 2, 3, 5]⟩ ∧
      ¬ StorageShape
        (⟨3, 3, 1, .live [2, 2, 1, 1], .live [0, 0, 1, 1], .live [9, 2, 3, 5]⟩ :
          SparseMatrix Int)) ∧
    (runCalls (mk2 3 3 : SparseMatrix Int)
        [.build ⟨some (fun _ => 0), some (fun _ => 0), some (fun _ => 0)⟩
          [0, 2, 0, 1] [0, 1, 2, 1] [1, 5, 2, 3] 4, .clear] =
        some ⟨3, 3, 4, .freed, .freed, .freed⟩ ∧
      ¬ StorageShape (⟨3, 3, 4, .freed, .freed, .freed⟩ : SparseMatrix Int)) ∧
    (runCalls (mk2 2 2 : SparseMatrix Int)
        [.build ⟨some (fun _ => 0), some (fun _ => 0), none⟩ [5] [0] [1] 1] =
        some ⟨2, 2, 1, .live [0], .live [0, 0, 0], .null⟩ ∧
      ¬ StorageShape (⟨2, 2, 1, .live [0], .live [0, 0, 0], .null⟩ : SparseMatrix Int)) := by
  refine ⟨⟨rfl, ?_⟩, ⟨rfl, ?_⟩, ⟨rfl, ?_⟩, ⟨rfl, ?_⟩⟩
  · rintro (⟨h, _⟩ | ⟨⟨a, h, ha⟩, _⟩)
    · simp at h
    · simp only [Ptr.live.injEq] at h
      subst h
      simp at ha
  · rintro (⟨h, _⟩ | ⟨_, ⟨c, h, hc⟩, _⟩)
    · simp at h
    · rcases h with h | ⟨h, _⟩
      · simp only [Ptr.live.injEq] at h
        subst h
        simp at hc
      · simp at h
  · rintro (⟨h, _⟩ | ⟨⟨a, h, _⟩, _⟩)
    · simp at h
    · simp at h
  · rintro (⟨h, _⟩ | ⟨_, _, ⟨v, h, hv⟩⟩)
    · simp at h
    · rcases h with h | ⟨_, h⟩
      · simp at h
      · subst h
        simp at hv

/-- C11 (storage-shape invariant), as amended. Starting from either constructor, after
every sequence of `nnew`, `allocate` and `build` calls that runs without undefined
behaviour, in which `nnew` is called only while `rowStart` is unallocated or with the
current `rows`, and `build` is given the current `nnz` for each of `colIndex` and `value`
that is already allocated (`clear` is not among the calls), each of the three arrays is
either unallocated or allocated with exactly its size: `rows+1` entries for `rowStart`,
`nnz` entries for `colIndex`, `nnz` entries for `value`. -/
theorem storage_shape_invariant {T : Type} (rows cols : Int) (s0 s1 : SparseMatrix T)
    (calls : List (Call T)) (hstart : s0 = mk0 ∨ s0 = mk2 rows cols)
    (hadm : admissibleRun s0 calls = true) (hrun : runCalls s0 calls = some s1) :
    EachShaped s1 := by
  refine eachShaped_run calls s0 s1 ?_ hadm hrun
  rcases hstart with rfl | rfl
  · exact ⟨Or.inl rfl, Or.inl rfl, Or.inl rfl⟩
  · exact ⟨Or.inl rfl, Or.inl rfl, Or.inl rfl⟩

theorem storage_shape_invariant_witness :
    ((mk2 3 3 : SparseMatrix Int) = mk0 ∨ (mk2 3 3 : SparseMatrix Int) = mk2 3 3) ∧
    admissibleRun (mk2 3 3 : SparseMatrix Int)
      [.nnew 2 5, .allocate ⟨some (fun _ => 0), none, none⟩,
       .build ⟨none, some (fun _ => 0), some (fun _ => 0)⟩ [1, 0, 1] [0, 4, 2] [5, 6, 7] 3,
       .nnew 2 3,
       .build ⟨none, none, none⟩ [0, 1, 1] [1, 2, 0] [8, 9, 4] 3] = true ∧
    runCalls (mk2 3 3 : SparseMatrix Int)
      [.nnew 2 5, .allocate ⟨some (fun _ => 0), none, none⟩,
       .build ⟨none, some (fun _ => 0), some (fun _ => 0)⟩ [1, 0, 1] [0, 4, 2] [5, 6, 7] 3,
       .nnew 2 3,
       .build ⟨none, none, none⟩ [0, 1, 1] [1, 2, 0] [8, 9, 4] 3] =
      some ⟨2, 3, 3, .live [1, 2, 0], .live [0, 1, 3], .live [8, 9, 4]⟩ ∧
    EachShaped (⟨2, 3, 3, .live [1, 2, 0], .live [0, 1, 3], .live [8, 9, 4]⟩ :
      SparseMatrix Int) :=
  ⟨Or.inr rfl, rfl, rfl,
    storage_shape_invariant 3 3 (mk2 3 3) _
      [.nnew 2 5, .allocate ⟨some (fun _ => 0), none, none⟩,
       .build ⟨none, some (fun _ => 0), some (fun _ => 0)⟩ [1, 0, 1] [0, 4, 2] [5, 6, 7] 3,
       .nnew 2 3,
       .build ⟨none, none, none⟩ [0, 1, 1] [1, 2, 0] [8, 9, 4] 3]
      (Or.inr rfl) rfl rfl⟩

end graphblas.backend
